import Mathlib

/-!
# cinolib: polygon kernel solver and crease padding

A shallow embedding of

* `include/cinolib/polygon_kernel.cpp` (the 2D and 3D `polygon_kernel` entry points),
* the "Pad Creases" handler and the mouse handler of `examples/23_sharp_creases/main.cpp`,
* the predicates declared in `include/cinolib/predicates.h`,
* class `Ray` of `geometry/ray.cpp`, and
* `main` of `examples/30_file_converter/main.cpp`

over an arbitrary linearly ordered field `K` standing for the coordinate type.
The square root and the polygon intersection routine of the external geometry engine
are parameters of the development. Arithmetic is exact, except in the definitions
named `_rounded` and `_narrowed`, which take the storage of a value in `float` as a
parameter: the identity for exact arithmetic, `binary32_round` for IEEE 754 single
precision.
-/

namespace cinolib

/-! ## Points -/

/-- Two-dimensional point with coordinates in `K` (`vec2f` / `vec2d` in the sources). -/
structure vec2f (K : Type) where
  x : K
  y : K
deriving DecidableEq, Repr

/-- Three-dimensional point with coordinates in `K` (`vec3d` / `vec3f` in the sources). -/
structure vec3d (K : Type) where
  x : K
  y : K
  z : K
deriving DecidableEq, Repr

/-- Ring of the external geometry engine: the list of its points, in storage order. -/
abbrev BoostRing (K : Type) := List (vec2f K)

/-- Polygon of the external geometry engine
(`boost::geometry::model::polygon<BoostPoint>`): an exterior ring and interior rings. -/
structure BoostPolygon (K : Type) where
  outer : BoostRing K
  inners : List (BoostRing K)
deriving DecidableEq, Repr

/-- Ways in which a call can stop without returning a value. -/
inductive Fault where
  /-- An `assert` failed (only in builds without `NDEBUG`). -/
  | assertion_failed
  /-- A read past the end of a container (undefined behaviour in the sources). -/
  | out_of_range
  /-- A division whose divisor is zero. -/
  | division_by_zero
deriving DecidableEq, Repr

/-- What `polygon_kernel.cpp` takes from outside the file: the square root of the
math library, `boost::geometry::intersection`, and whether assertions are compiled
out. -/
structure Backend (K : Type) where
  sqrt : K → K
  intersection : BoostPolygon K → BoostPolygon K → List (BoostPolygon K)
  NDEBUG : Bool

section Kernel

variable {K : Type} [LinearOrderedField K]

/-! ## Vector helpers (`cinolib/geometry/vec2.h`, not part of the given sources) -/

/-- Modelled from the spec: `vec2f::operator-` (class `vec2f` is absent from the
sources); componentwise difference. -/
def vec2f.sub (a b : vec2f K) : vec2f K := ⟨a.x - b.x, a.y - b.y⟩

/-- Modelled from the spec: `vec2f::operator+` (class `vec2f` is absent from the
sources); componentwise sum. -/
def vec2f.add (a b : vec2f K) : vec2f K := ⟨a.x + b.x, a.y + b.y⟩

/-- Modelled from the spec: `vec2f::operator*(scalar)` (class `vec2f` is absent from
the sources); scaling of both components. -/
def vec2f.scale (a : vec2f K) (s : K) : vec2f K := ⟨a.x * s, a.y * s⟩

/-- Modelled from the spec: `vec2f::min` (class `vec2f` is absent from the sources);
componentwise minimum. -/
def vec2f.min (a b : vec2f K) : vec2f K := ⟨Min.min a.x b.x, Min.min a.y b.y⟩

/-- Modelled from the spec: `vec2f::max` (class `vec2f` is absent from the sources);
componentwise maximum. -/
def vec2f.max (a b : vec2f K) : vec2f K := ⟨Max.max a.x b.x, Max.max a.y b.y⟩

/-- Modelled from the spec: `vec2f::length` (class `vec2f` is absent from the
sources); Euclidean norm, through the square root of the backend. -/
def vec2f.length (B : Backend K) (a : vec2f K) : K := B.sqrt (a.x * a.x + a.y * a.y)

/-- Modelled from the spec: `vec2f::dist` (class `vec2f` is absent from the sources);
Euclidean distance of two points. -/
def vec2f.dist (B : Backend K) (a b : vec2f K) : K := vec2f.length B (a.sub b)

/-- Modelled from the spec: `vec2f::normalize` (class `vec2f` is absent from the
sources); the vector divided by its length ("normalized direction"). -/
def vec2f.normalize (B : Backend K) (a : vec2f K) : vec2f K :=
  ⟨a.x / vec2f.length B a, a.y / vec2f.length B a⟩

/-- Modelled from the spec: fast (inexact) `orient2d` of `predicates.h`, whose body is
absent from the sources: a "signed value whose sign encodes turn direction", twice the
signed area of the triangle `pa pb pc`; positive when the three points turn left. -/
def orient2d (pa pb pc : vec2f K) : K :=
  (pa.x - pc.x) * (pb.y - pc.y) - (pa.y - pc.y) * (pb.x - pc.x)

/-! ## External geometry engine: area and `correct` -/

/-- Sum over the consecutive pairs `(p1, p2)` of a ring of
`(x1 + x2) * (y1 - y2)`, the summand of the engine's Cartesian area strategy. -/
def ring_area_sum : BoostRing K → K
  | p1 :: p2 :: rest => (p1.x + p2.x) * (p1.y - p2.y) + ring_area_sum (p2 :: rest)
  | _ => 0

/-- `boost::geometry::area` on one closed, clockwise-declared ring: zero for a ring of
fewer than four stored points, else half the strategy sum (positive when the ring is
clockwise). -/
def ring_area (r : BoostRing K) : K :=
  if r.length < 4 then 0 else ring_area_sum r / 2

/-- `boost::geometry::area` on a polygon: the areas of all its rings added up. -/
def boost_area (p : BoostPolygon K) : K :=
  ring_area p.outer + (p.inners.map ring_area).sum

/-- Closing step of `boost::geometry::correct` on a ring: a ring of more than two
points whose first and last points differ gets its first point appended. -/
def close_ring (r : BoostRing K) : BoostRing K :=
  match r with
  | [] => []
  | p :: rest =>
    if 2 < r.length ∧ (p :: rest).getLast? ≠ some p then r ++ [p] else r

/-- `boost::geometry::correct` on a polygon: every ring is closed, the exterior ring
is reversed when its area is negative, an interior ring when its area is positive. -/
def boost_correct (p : BoostPolygon K) : BoostPolygon K :=
  { outer :=
      let r := close_ring p.outer
      if ring_area r < 0 then r.reverse else r
    inners := p.inners.map fun h =>
      let r := close_ring h
      if 0 < ring_area r then r.reverse else r }

/-! ## `polygon_kernel.cpp` -/

/-- Lower corner of the axis-aligned bounding box (lines 80-86). The loop starts from
`(inf, inf)`, which is neutral for `min`; on a non-empty polygon it therefore yields
the componentwise minimum of the vertices, computed here from the first vertex on. -/
def bbox_min : List (vec2f K) → vec2f K
  | [] => ⟨0, 0⟩
  | p :: ps => ps.foldl (fun m q => m.min q) p

/-- Upper corner of the axis-aligned bounding box (lines 80-86), see `bbox_min`. -/
def bbox_max : List (vec2f K) → vec2f K
  | [] => ⟨0, 0⟩
  | p :: ps => ps.foldl (fun m q => m.max q) p

/-- The value `delta` of line 87: distance between the two bounding-box corners. -/
def bbox_delta (B : Backend K) (poly : List (vec2f K)) : K :=
  vec2f.dist B (bbox_min poly) (bbox_max poly)

/-- The four corners appended for edge `i` (lines 93-104), before `correct`, computed
without rounding; `half_space_corners_rounded` is the same computation with the result
of every operation rounded to the coordinate type. -/
def half_space_corners (B : Backend K) (poly : List (vec2f K)) (delta : K) (i : Nat) :
    List (vec2f K) :=
  let A := poly.getD i ⟨0, 0⟩
  let B0 := poly.getD ((i + 1) % poly.length) ⟨0, 0⟩
  let u := vec2f.normalize B (B0.sub A)
  let v : vec2f K := ⟨-u.y, u.x⟩
  let A1 := A.sub (u.scale delta)
  let B1 := B0.add (u.scale delta)
  let C := B1.add (v.scale delta)
  let D := A1.add (v.scale delta)
  [A1, B1, C, D]

/-- Body of the loop of lines 91-107 for edge `i`: the corrected rectangle. -/
def half_space (B : Backend K) (poly : List (vec2f K)) (delta : K) (i : Nat) :
    BoostPolygon K :=
  boost_correct { outer := half_space_corners B poly delta i, inners := [] }

/-- The vector `half_spaces` after the loop of lines 91-107. -/
def half_spaces (B : Backend K) (poly : List (vec2f K)) : List (BoostPolygon K) :=
  (List.range poly.length).map (half_space B poly (bbox_delta B poly))

/-- The loop of lines 111-118 started from `kernel_boost`, over the half-spaces still
to be intersected. `ok none` is the early `return 0` ("no kernel"); `ok (some k)` the
value of `kernel_boost` after the loop. -/
def intersect_loop (B : Backend K) :
    BoostPolygon K → List (BoostPolygon K) → Except Fault (Option (BoostPolygon K))
  | kernel_boost, [] => .ok (some kernel_boost)
  | kernel_boost, h :: hs =>
    match B.intersection kernel_boost h with
    | [] => .ok none
    | r :: more =>
      if !B.NDEBUG && !more.isEmpty then .error Fault.assertion_failed
      else intersect_loop B r hs

/-- Lines 110-118: `kernel_boost` starts as `half_spaces.front()` (a read past the end
if there were no half-space, which a non-empty polygon excludes). -/
def kernel_boost (B : Backend K) (poly : List (vec2f K)) :
    Except Fault (Option (BoostPolygon K)) :=
  match half_spaces B poly with
  | [] => .error Fault.out_of_range
  | h :: hs => intersect_loop B h hs

/-- Lines 121-128: the first `size()-1` points of the exterior ring, then reversed.
An empty ring makes the unsigned bound wrap around and the loop read past the end. -/
def ring_to_kernel : BoostRing K → Except Fault (List (vec2f K))
  | [] => .error Fault.out_of_range
  | p :: ps => .ok ((p :: ps).dropLast).reverse

/-- The member `clear()` of `std::vector`: whatever the content, the vector is empty
afterwards. -/
def vector_clear {α : Type} (_v : List α) : List α := []

/-- The 2D `polygon_kernel` (lines 72-131, build with `CINOLIB_USES_BOOST`). The
second argument is the content of the output vector on entry; the result is the
returned area paired with the content of the output vector on return. -/
def polygon_kernel (B : Backend K) (poly : List (vec2f K)) (kernel : List (vec2f K)) :
    Except Fault (K × List (vec2f K)) :=
  let kernel := vector_clear kernel
  match poly with
  | [] => .ok (0, kernel)
  | _ :: _ =>
    match kernel_boost B poly with
    | .error f => .error f
    | .ok none => .ok (0, kernel)
    | .ok (some kb) =>
      match ring_to_kernel kb.outer with
      | .error f => .error f
      | .ok pts => .ok (boost_area kb, kernel ++ pts)

/-- The conversion `vec2f(p)` of line 56: the `z` component is discarded. -/
def vec3d.drop_z (p : vec3d K) : vec2f K := ⟨p.x, p.y⟩

/-- The point `vec3f(p.x(), p.y(), 0)` of line 63. -/
def vec2f.lift_z0 (p : vec2f K) : vec3d K := ⟨p.x, p.y, 0⟩

/-- The 3D `polygon_kernel` (lines 51-66): drops `z`, calls the 2D solver on a fresh
output vector and, only when the area is positive, clears the output vector and fills
it with the lifted points. -/
def polygon_kernel_3d (B : Backend K) (poly : List (vec3d K)) (kernel : List (vec3d K)) :
    Except Fault (K × List (vec3d K)) :=
  let poly_2d : List (vec2f K) := poly.map vec3d.drop_z
  match polygon_kernel B poly_2d [] with
  | .error f => .error f
  | .ok (area, kernel_2d) =>
    if 0 < area then .ok (area, vector_clear kernel ++ kernel_2d.map vec2f.lift_z0)
    else .ok (area, kernel)

/-! ## Reference notions used to state the properties -/

/-- Cross product `p × q` of two position vectors. -/
def cross2 (p q : vec2f K) : K := p.x * q.y - q.x * p.y

/-- Sum of the cross products of the consecutive pairs of a chain of points. -/
def cross_sum : List (vec2f K) → K
  | p1 :: p2 :: rest => cross2 p1 p2 + cross_sum (p2 :: rest)
  | _ => 0

/-- Shoelace signed area of the polygon whose vertices are listed once each (the edge
from the last vertex back to the first is implied); positive for counter-clockwise
order. -/
def shoelace_area : List (vec2f K) → K
  | [] => 0
  | p :: ps => cross_sum (p :: ps ++ [p]) / 2

/-- A ring is closed when it is non-empty and its last stored point repeats the
first. -/
def ring_is_closed (r : BoostRing K) : Prop := r ≠ [] ∧ r.getLast? = r.head?

/-- A closed ring is clockwise when the polygon it describes (the ring without its
closing point) has negative shoelace area. -/
def ring_is_clockwise (r : BoostRing K) : Prop := shoelace_area r.dropLast < 0

instance (r : BoostRing K) : Decidable (ring_is_closed r) := by
  unfold ring_is_closed; infer_instance

instance (r : BoostRing K) : Decidable (ring_is_clockwise r) := by
  unfold ring_is_clockwise; infer_instance

/-- The point `q` lies in every closed half-plane `a*x + b*y + c ≥ 0` that contains all
points of the exterior ring of `p`: `q` is in the convex hull of the ring, which for a
convex polygon is the region it covers. -/
def in_convex_region (p : BoostPolygon K) (q : vec2f K) : Prop :=
  ∀ a b c : K, (∀ v ∈ p.outer, 0 ≤ a * v.x + b * v.y + c) → 0 ≤ a * q.x + b * q.y + c

/-- The intersection routine of the backend returns regions contained in both of its
operands. -/
def intersection_contained (B : Backend K) : Prop :=
  ∀ a b r, r ∈ B.intersection a b →
    ∀ q, in_convex_region r q → in_convex_region a q ∧ in_convex_region b q

end Kernel

/-! ## Triangle mesh and the "Pad Creases" handler (`examples/23_sharp_creases/main.cpp`)

The mesh class (`DrawableTrimesh`) and its members are not part of the given sources;
they are modelled from the specification. The handler itself (lines 71-86) is
transcribed from the source. -/

/-- Modelled from the spec: an edge of the mesh store (absent from the sources), an
"unordered pair of vertex indices" with the "optional boolean attribute `marked`"
(`edge_data(eid).flags[MARKED]`). -/
structure Edge where
  v0 : Nat
  v1 : Nat
  marked : Bool
deriving DecidableEq, Repr

/-- Modelled from the spec: a triangle of the mesh store (absent from the sources), an
"ordered sequence of vertex indices". -/
structure Tri where
  v0 : Nat
  v1 : Nat
  v2 : Nat
deriving DecidableEq, Repr

/-- Modelled from the spec: the triangle mesh (class `Trimesh`, absent from the
sources): "aggregate of vertex/edge/face/poly containers"; entities are referenced by
their index in the container. Adjacency is derived from these containers. -/
structure Trimesh (K : Type) where
  verts : List (vec3d K)
  edges : List Edge
  polys : List Tri

/-- The edge joins the vertices `a` and `b`, in either order. -/
def Edge.joins (e : Edge) (a b : Nat) : Bool :=
  (e.v0 == a && e.v1 == b) || (e.v0 == b && e.v1 == a)

/-- The edge is one of the three sides of the triangle. -/
def Edge.on_poly (e : Edge) (t : Tri) : Bool :=
  e.joins t.v0 t.v1 || e.joins t.v1 t.v2 || e.joins t.v2 t.v0

section Mesh

variable {K : Type}

/-- Modelled from the spec: `num_verts` of the mesh class (absent from the sources). -/
def num_verts (m : Trimesh K) : Nat := m.verts.length

/-- Modelled from the spec: `num_polys` of the mesh class (absent from the sources). -/
def num_polys (m : Trimesh K) : Nat := m.polys.length

/-- Modelled from the spec: `edge_data(eid).flags[MARKED]` of the mesh class (absent
from the sources): the `marked` attribute of edge `eid`. -/
def edge_marked (m : Trimesh K) (eid : Nat) : Bool :=
  (m.edges.getD eid ⟨0, 0, false⟩).marked

/-- Modelled from the spec: `adj_p2e` of the mesh class (absent from the sources), the
face→edges adjacency, "always consistent with the primary connectivity": the ids of
the edges that are sides of poly `pid`, in ascending order. -/
def adj_p2e (m : Trimesh K) (pid : Nat) : List Nat :=
  match m.polys[pid]? with
  | none => []
  | some t => (List.range m.edges.length).filter fun eid =>
      (m.edges.getD eid ⟨0, 0, false⟩).on_poly t

/-- Modelled from the spec: `poly_centroid` of the mesh class (absent from the
sources): the mean of the positions of the three vertices of poly `pid`. -/
def poly_centroid [Field K] (m : Trimesh K) (pid : Nat) : vec3d K :=
  match m.polys[pid]? with
  | none => ⟨0, 0, 0⟩
  | some t =>
    let a := m.verts.getD t.v0 ⟨0, 0, 0⟩
    let b := m.verts.getD t.v1 ⟨0, 0, 0⟩
    let c := m.verts.getD t.v2 ⟨0, 0, 0⟩
    ⟨(a.x + b.x + c.x) / 3, (a.y + b.y + c.y) / 3, (a.z + b.z + c.z) / 3⟩

/-- Modelled from the spec: `poly_split` of the mesh class (absent from the sources):
"subdivides one element by inserting a new vertex and replacing the element with
fan-triangulated children"; "vertex count increases by exactly one"; "all marked-edge
attributes on surviving sub-edges are preserved, newly created interior edges are
unmarked by default". The first child takes the place of the split poly, the other
two are appended; existing vertices, edges and the other polys keep their ids. A
request for a poly that does not exist is rejected and "the mesh is left untouched". -/
def poly_split (m : Trimesh K) (pid : Nat) (p : vec3d K) : Trimesh K :=
  match m.polys[pid]? with
  | none => m
  | some t =>
    let nv := m.verts.length
    { verts := m.verts ++ [p]
      edges := m.edges ++ [⟨t.v0, nv, false⟩, ⟨t.v1, nv, false⟩, ⟨t.v2, nv, false⟩]
      polys := m.polys.set pid ⟨t.v0, t.v1, nv⟩ ++ [⟨t.v1, t.v2, nv⟩, ⟨t.v2, t.v0, nv⟩] }

/-- Modelled from the spec: `SORT_VEC` (container helper, absent from the sources) as
the handler calls it, with second argument `true`. Neither the sources nor the
specification say which order the flag selects; the specification has the candidates
processed in "ascending id" order, and that order is taken here. The statements about
the handler use only that the result holds the same ids as the argument. -/
def SORT_VEC (vec : List Nat) (_flag : Bool) : List Nat :=
  vec.insertionSort (· ≤ ·)

/-- Lines 77-78: the counter `count` after the inner loop over `adj_p2e(pid)`. -/
def marked_count (m : Trimesh K) (pid : Nat) : Nat :=
  (adj_p2e m pid).countP fun eid => edge_marked m eid

/-- Lines 74-80: the vector `to_split` after the loop over all poly ids. -/
def to_split (m : Trimesh K) : List Nat :=
  (List.range (num_polys m)).filter fun pid => 1 < marked_count m pid

/-- Line 82: the range-for over the vector, front to back, each step splitting one
poly of the current mesh at its current centroid. -/
def split_all [Field K] (m : Trimesh K) (pids : List Nat) : Trimesh K :=
  pids.foldl (fun m pid => poly_split m pid (poly_centroid m pid)) m

/-- The sequence of poly ids handed to `poly_split` by the handler (lines 81-82). -/
def split_order (m : Trimesh K) : List Nat := SORT_VEC (to_split m) true

/-- The "Pad Creases" handler (lines 71-86): the mesh it leaves behind. -/
def pad_creases [Field K] (m : Trimesh K) : Trimesh K :=
  split_all m (split_order m)

/-- Well-formed triangle mesh: every index referenced by an edge or a poly exists, no
two edges join the same pair of vertices, and the three vertices of a poly differ. -/
def well_formed (m : Trimesh K) : Prop :=
  (∀ e ∈ m.edges, e.v0 < m.verts.length ∧ e.v1 < m.verts.length) ∧
  m.edges.Pairwise (fun e f => e.joins f.v0 f.v1 = false) ∧
  (∀ t ∈ m.polys, t.v0 < m.verts.length ∧ t.v1 < m.verts.length ∧ t.v2 < m.verts.length) ∧
  (∀ t ∈ m.polys, t.v0 ≠ t.v1 ∧ t.v1 ≠ t.v2 ∧ t.v2 ≠ t.v0)

instance (m : Trimesh K) : Decidable (well_formed m) := by
  unfold well_formed; infer_instance

end Mesh

/-! ## Predicate kernel (`include/cinolib/predicates.h`)

The header declares the predicates and documents their results; their bodies
(`predicates.cpp`) are not part of the given sources and are modelled from the
documentation of the header and from the specification. -/

/-- Location of a point with respect to a simplex (lines 90-109 of `predicates.h`). -/
inductive PointInSimplex where
  | STRICTLY_OUTSIDE
  | STRICTLY_INSIDE
  | ON_VERT0
  | ON_VERT1
  | ON_VERT2
  | ON_VERT3
  | ON_EDGE0
  | ON_EDGE1
  | ON_EDGE2
  | ON_EDGE3
  | ON_EDGE4
  | ON_EDGE5
  | ON_FACE0
  | ON_FACE1
  | ON_FACE2
  | ON_FACE3
deriving DecidableEq, Repr

/-- Intersection types (lines 112-119 of `predicates.h`). -/
inductive SimplexIntersection where
  | DO_NOT_INTERSECT
  | SIMPLICIAL_COMPLEX
  | INTERSECT
  | OVERLAP
deriving DecidableEq, Repr

section Predicates

variable {K : Type} [LinearOrderedField K]

/-- Modelled from the spec: fast (inexact) `orient3d` of `predicates.h`, whose body is
absent from the sources: a "signed value whose sign encodes ... half-space side",
six times the signed volume of the tetrahedron `pa pb pc pd`. -/
def orient3d (pa pb pc pd : vec3d K) : K :=
  (pa.x - pd.x) * ((pb.y - pd.y) * (pc.z - pd.z) - (pb.z - pd.z) * (pc.y - pd.y))
  + (pb.x - pd.x) * ((pc.y - pd.y) * (pa.z - pd.z) - (pc.z - pd.z) * (pa.y - pd.y))
  + (pc.x - pd.x) * ((pa.y - pd.y) * (pb.z - pd.z) - (pa.z - pd.z) * (pb.y - pd.y))

/-- Modelled from the spec: `vec_equals_2d` (body absent from the sources): "returns
true if v0 and v1 are equal". -/
def vec_equals_2d (v0 v1 : vec2f K) : Bool := decide (v0 = v1)

/-- Modelled from the spec: `vec_equals_3d` (body absent from the sources): "returns
true if v0 and v1 are equal". -/
def vec_equals_3d (v0 v1 : vec3d K) : Bool := decide (v0 = v1)

/-- Modelled from the spec: `points_are_colinear_2d` (body absent from the sources):
"true if the area of the triangle p0-p1-p2 is zero". -/
def points_are_colinear_2d (p0 p1 p2 : vec2f K) : Bool := decide (orient2d p0 p1 p2 = 0)

/-- Modelled from the spec: `points_are_colinear_3d` (body absent from the sources):
"true if the area of all the orthogonal 2d projections of the triangle p0-p1-p2 is
zero". The projections drop `x`, `y` and `z` in turn. -/
def points_are_colinear_3d (p0 p1 p2 : vec3d K) : Bool :=
  points_are_colinear_2d (⟨p0.y, p0.z⟩ : vec2f K) ⟨p1.y, p1.z⟩ ⟨p2.y, p2.z⟩ &&
  points_are_colinear_2d (⟨p0.x, p0.z⟩ : vec2f K) ⟨p1.x, p1.z⟩ ⟨p2.x, p2.z⟩ &&
  points_are_colinear_2d (⟨p0.x, p0.y⟩ : vec2f K) ⟨p1.x, p1.y⟩ ⟨p2.x, p2.y⟩

/-- Modelled from the spec: `points_are_coplanar_3d` (body absent from the sources):
"true if the volume of the tetrahedron p0-p1-p2-p3 is zero". -/
def points_are_coplanar_3d (p0 p1 p2 p3 : vec3d K) : Bool :=
  decide (orient3d p0 p1 p2 p3 = 0)

/-- Modelled from the spec: `segment_is_degenerate_2d` (body absent from the sources):
"returns true if s0==s1". -/
def segment_is_degenerate_2d (s0 s1 : vec2f K) : Bool := vec_equals_2d s0 s1

/-- Modelled from the spec: `segment_is_degenerate_3d` (body absent from the sources):
"returns true if s0==s1". -/
def segment_is_degenerate_3d (s0 s1 : vec3d K) : Bool := vec_equals_3d s0 s1

/-- Modelled from the spec: `triangle_is_degenerate_2d` (body absent from the sources):
"returns true if t0, t1 and t2 are colinear". -/
def triangle_is_degenerate_2d (t0 t1 t2 : vec2f K) : Bool := points_are_colinear_2d t0 t1 t2

/-- Modelled from the spec: `triangle_is_degenerate_3d` (body absent from the sources):
"returns true if t0, t1 and t2 are colinear". -/
def triangle_is_degenerate_3d (t0 t1 t2 : vec3d K) : Bool := points_are_colinear_3d t0 t1 t2

/-- Modelled from the spec: `tet_is_degenerate` (body absent from the sources):
"returns true if t0, t1, t2 and t3 are coplanar". -/
def tet_is_degenerate (t0 t1 t2 t3 : vec3d K) : Bool := points_are_coplanar_3d t0 t1 t2 t3

/-- Modelled from the spec: `point_in_segment_2d` (body absent from the sources):
"ON_VERTi if p coincides with the i-th vertex of s, STRICTLY_INSIDE if p lies inside
segment s (endpoints excluded), STRICTLY_OUTSIDE otherwise". A point that is no
endpoint is inside when it is colinear with the endpoints and strictly between them
in `x` or in `y`. -/
def point_in_segment_2d (p s0 s1 : vec2f K) : PointInSimplex :=
  if vec_equals_2d p s0 then .ON_VERT0
  else if vec_equals_2d p s1 then .ON_VERT1
  else if !points_are_colinear_2d s0 s1 p then .STRICTLY_OUTSIDE
  else if (Min.min s0.x s1.x < p.x ∧ p.x < Max.max s0.x s1.x) ∨
      (Min.min s0.y s1.y < p.y ∧ p.y < Max.max s0.y s1.y) then .STRICTLY_INSIDE
  else .STRICTLY_OUTSIDE

/-- Modelled from the spec: `point_in_triangle_2d` (body absent from the sources):
"ON_VERTi if p coincides with the i-th vertex of t, ON_EDGEj if p lies inside the j-th
edge of t (endpoints excluded), STRICTLY_INSIDE if p lies inside triangle t (borders
excluded), STRICTLY_OUTSIDE otherwise"; the tag is the "lowest-dimensional"
sub-simplex containing `p`. Edge `j` joins vertex `j` to vertex `j+1 mod 3`. A point
that is no vertex is in the triangle when the three `orient2d` values of `p` against
the edges have no two opposite signs; it is then on the first edge against which the
value is zero, and strictly inside when none is. -/
def point_in_triangle_2d (p t0 t1 t2 : vec2f K) : PointInSimplex :=
  if vec_equals_2d p t0 then .ON_VERT0
  else if vec_equals_2d p t1 then .ON_VERT1
  else if vec_equals_2d p t2 then .ON_VERT2
  else
    let e0p_area := orient2d t0 t1 p
    let e1p_area := orient2d t1 t2 p
    let e2p_area := orient2d t2 t0 p
    let hit : Bool :=
      decide (0 ≤ e0p_area ∧ 0 ≤ e1p_area ∧ 0 ≤ e2p_area) ||
      decide (e0p_area ≤ 0 ∧ e1p_area ≤ 0 ∧ e2p_area ≤ 0)
    if hit then
      if e0p_area = 0 then .ON_EDGE0
      else if e1p_area = 0 then .ON_EDGE1
      else if e2p_area = 0 then .ON_EDGE2
      else .STRICTLY_INSIDE
    else .STRICTLY_OUTSIDE

/-! ### Reference notions for the predicates -/

/-- The three points lie on a common line `l*x + m*y + n = 0`. -/
def on_common_line (a b c : vec2f K) : Prop :=
  ∃ l m n : K, (l ≠ 0 ∨ m ≠ 0) ∧ l * a.x + m * a.y + n = 0 ∧
    l * b.x + m * b.y + n = 0 ∧ l * c.x + m * c.y + n = 0

/-- The point `p` is `a + s*(b - a)` for some `0 ≤ s ≤ 1`: it lies on the closed
segment `ab`. -/
def on_segment (a b p : vec2f K) : Prop :=
  ∃ s : K, 0 ≤ s ∧ s ≤ 1 ∧ p.x = a.x + s * (b.x - a.x) ∧ p.y = a.y + s * (b.y - a.y)

/-- The point `p` is `a + s*(b - a)` for some `0 < s < 1`: it lies on the segment `ab`,
endpoints excluded. -/
def in_open_segment (a b p : vec2f K) : Prop :=
  ∃ s : K, 0 < s ∧ s < 1 ∧ p.x = a.x + s * (b.x - a.x) ∧ p.y = a.y + s * (b.y - a.y)

/-- The point `p` is a convex combination of the three vertices: it lies in the closed
triangle. -/
def in_closed_triangle (t0 t1 t2 p : vec2f K) : Prop :=
  ∃ a b c : K, 0 ≤ a ∧ 0 ≤ b ∧ 0 ≤ c ∧ a + b + c = 1 ∧
    p.x = a * t0.x + b * t1.x + c * t2.x ∧ p.y = a * t0.y + b * t1.y + c * t2.y

/-- The point `p` is a convex combination of the three vertices with positive weights:
it lies in the triangle, borders excluded. -/
def in_open_triangle (t0 t1 t2 p : vec2f K) : Prop :=
  ∃ a b c : K, 0 < a ∧ 0 < b ∧ 0 < c ∧ a + b + c = 1 ∧
    p.x = a * t0.x + b * t1.x + c * t2.x ∧ p.y = a * t0.y + b * t1.y + c * t2.y

/-- How a tag for the triangle `(t0, t1, t2)` reads for the relabelled triangle
`(t1, t2, t0)`: old vertex `i+1` is new vertex `i`, old edge `j+1` is new edge `j`. -/
def PointInSimplex.relabel_cyclic : PointInSimplex → PointInSimplex
  | .ON_VERT0 => .ON_VERT2
  | .ON_VERT1 => .ON_VERT0
  | .ON_VERT2 => .ON_VERT1
  | .ON_EDGE0 => .ON_EDGE2
  | .ON_EDGE1 => .ON_EDGE0
  | .ON_EDGE2 => .ON_EDGE1
  | tag => tag

end Predicates

section Predicates2

variable {K : Type} [LinearOrderedField K]

/-- Modelled from the spec: the classification computed by
`segment_segment_intersect_2d` once its precondition is passed (body absent from the
sources): "DO_NOT_INTERSECT if segments are fully disjoint, SIMPLICIAL_COMPLEX if
segments coincide or intersect at a shared vertex, INTERSECT if segments intersect at
an inner point (for s0, s1, or both), OVERLAP if segments are colinear and partially
overlapped". Built on `orient2d`: each segment is tested against the line of the
other; colinear segments are compared along their common line. -/
def segment_segment_classify_2d (s00 s01 s10 s11 : vec2f K) : SimplexIntersection :=
  let det_s00 := orient2d s10 s11 s00
  let det_s01 := orient2d s10 s11 s01
  let det_s10 := orient2d s00 s01 s10
  let det_s11 := orient2d s00 s01 s11
  let shared_vertex : Bool :=
    vec_equals_2d s00 s10 || vec_equals_2d s00 s11 ||
    vec_equals_2d s01 s10 || vec_equals_2d s01 s11
  if det_s00 = 0 ∧ det_s01 = 0 ∧ det_s10 = 0 ∧ det_s11 = 0 then
    if (vec_equals_2d s00 s10 && vec_equals_2d s01 s11) ||
        (vec_equals_2d s00 s11 && vec_equals_2d s01 s10) then .SIMPLICIAL_COMPLEX
    else if point_in_segment_2d s00 s10 s11 = .STRICTLY_INSIDE ∨
        point_in_segment_2d s01 s10 s11 = .STRICTLY_INSIDE ∨
        point_in_segment_2d s10 s00 s01 = .STRICTLY_INSIDE ∨
        point_in_segment_2d s11 s00 s01 = .STRICTLY_INSIDE then .OVERLAP
    else if shared_vertex then .SIMPLICIAL_COMPLEX
    else .DO_NOT_INTERSECT
  else if (0 < det_s00 ∧ 0 < det_s01) ∨ (det_s00 < 0 ∧ det_s01 < 0) ∨
      (0 < det_s10 ∧ 0 < det_s11) ∨ (det_s10 < 0 ∧ det_s11 < 0) then .DO_NOT_INTERSECT
  else if shared_vertex then .SIMPLICIAL_COMPLEX
  else .INTERSECT

/-- Modelled from the spec: `segment_segment_intersect_2d` (body absent from the
sources). "Precondition: no input simplex is degenerate"; "if the code is compiled
without defining the NDEBUG symbol, dedicated assertions will make the program stop in
case of zero length edges". -/
def segment_segment_intersect_2d (NDEBUG : Bool) (s00 s01 s10 s11 : vec2f K) :
    Except Fault SimplexIntersection :=
  if !NDEBUG && (segment_is_degenerate_2d s00 s01 || segment_is_degenerate_2d s10 s11) then
    .error Fault.assertion_failed
  else .ok (segment_segment_classify_2d s00 s01 s10 s11)

/-- The two segments have a point in common. -/
def segments_meet (s00 s01 s10 s11 : vec2f K) : Prop :=
  ∃ p, on_segment s00 s01 p ∧ on_segment s10 s11 p

/-- The two segments have the same endpoints. -/
def segments_coincide (s00 s01 s10 s11 : vec2f K) : Prop :=
  (s00 = s10 ∧ s01 = s11) ∨ (s00 = s11 ∧ s01 = s10)

/-- The two segments have an endpoint in common and no other common point. -/
def segments_meet_only_at_shared_endpoint (s00 s01 s10 s11 : vec2f K) : Prop :=
  ∃ e, (e = s00 ∨ e = s01) ∧ (e = s10 ∨ e = s11) ∧
    ∀ p, on_segment s00 s01 p → on_segment s10 s11 p → p = e

/-- The four endpoints lie on a common line. -/
def segments_colinear (s00 s01 s10 s11 : vec2f K) : Prop :=
  ∃ l m n : K, (l ≠ 0 ∨ m ≠ 0) ∧ l * s00.x + m * s00.y + n = 0 ∧
    l * s01.x + m * s01.y + n = 0 ∧ l * s10.x + m * s10.y + n = 0 ∧
    l * s11.x + m * s11.y + n = 0

/-- The two segments do not coincide and have more than one point in common. -/
def segments_partially_overlap (s00 s01 s10 s11 : vec2f K) : Prop :=
  ¬ segments_coincide s00 s01 s10 s11 ∧
    ∃ p q, p ≠ q ∧ on_segment s00 s01 p ∧ on_segment s10 s11 p ∧
      on_segment s00 s01 q ∧ on_segment s10 s11 q

end Predicates2

section Guards

variable {K : Type} [LinearOrderedField K]

/-! ### Guards of the other intersection tests

The bodies of the remaining intersection tests are not part of the given sources. Per
the header, each one starts with a "dedicated assertion" on its input simplices, which
exists only in a build without `NDEBUG`. For the tests of a segment against a triangle
or a tetrahedron the header documents the result `SIMPLICIAL_COMPLEX` "if s is an edge
of t, or s is degenerate and coincides with a vertex of t"; what is computed in the
other cases is left as the parameter `classify`. -/

/-- Both endpoints of the segment are vertices of the triangle: "s is an edge of t, or
s is degenerate and coincides with a vertex of t" (lines 403-412 of `predicates.h`). -/
def segment_on_triangle_vertices_2d (s0 s1 t0 t1 t2 : vec2f K) : Bool :=
  (vec_equals_2d s0 t0 || vec_equals_2d s0 t1 || vec_equals_2d s0 t2) &&
  (vec_equals_2d s1 t0 || vec_equals_2d s1 t1 || vec_equals_2d s1 t2)

/-- Both endpoints of the segment are vertices of the triangle, in space. -/
def segment_on_triangle_vertices_3d (s0 s1 t0 t1 t2 : vec3d K) : Bool :=
  (vec_equals_3d s0 t0 || vec_equals_3d s0 t1 || vec_equals_3d s0 t2) &&
  (vec_equals_3d s1 t0 || vec_equals_3d s1 t1 || vec_equals_3d s1 t2)

/-- Both endpoints of the segment are vertices of the tetrahedron. -/
def segment_on_tet_vertices (s0 s1 t0 t1 t2 t3 : vec3d K) : Bool :=
  (vec_equals_3d s0 t0 || vec_equals_3d s0 t1 || vec_equals_3d s0 t2 ||
    vec_equals_3d s0 t3) &&
  (vec_equals_3d s1 t0 || vec_equals_3d s1 t1 || vec_equals_3d s1 t2 ||
    vec_equals_3d s1 t3)

/-- Modelled from the spec: `segment_segment_intersect_3d` (body absent from the
sources): the assertion that neither segment has zero length, then the
classification. -/
def segment_segment_intersect_3d (NDEBUG : Bool)
    (classify : vec3d K → vec3d K → vec3d K → vec3d K → SimplexIntersection)
    (s00 s01 s10 s11 : vec3d K) : Except Fault SimplexIntersection :=
  if !NDEBUG && (segment_is_degenerate_3d s00 s01 || segment_is_degenerate_3d s10 s11) then
    .error Fault.assertion_failed
  else .ok (classify s00 s01 s10 s11)

/-- Modelled from the spec: `segment_triangle_intersect_2d` (body absent from the
sources): the assertion that the segment has a length and the triangle an area, then
the documented result for a segment on vertices of the triangle, then the rest of the
classification. -/
def segment_triangle_intersect_2d (NDEBUG : Bool)
    (classify : vec2f K → vec2f K → vec2f K → vec2f K → vec2f K → SimplexIntersection)
    (s0 s1 t0 t1 t2 : vec2f K) : Except Fault SimplexIntersection :=
  if !NDEBUG && (segment_is_degenerate_2d s0 s1 || triangle_is_degenerate_2d t0 t1 t2) then
    .error Fault.assertion_failed
  else if segment_on_triangle_vertices_2d s0 s1 t0 t1 t2 then .ok .SIMPLICIAL_COMPLEX
  else .ok (classify s0 s1 t0 t1 t2)

/-- Modelled from the spec: `segment_triangle_intersect_3d` (body absent from the
sources): the assertion that the segment has a length and the triangle an area, then
the documented result for a segment on vertices of the triangle, then the rest of the
classification. -/
def segment_triangle_intersect_3d (NDEBUG : Bool)
    (classify : vec3d K → vec3d K → vec3d K → vec3d K → vec3d K → SimplexIntersection)
    (s0 s1 t0 t1 t2 : vec3d K) : Except Fault SimplexIntersection :=
  if !NDEBUG && (segment_is_degenerate_3d s0 s1 || triangle_is_degenerate_3d t0 t1 t2) then
    .error Fault.assertion_failed
  else if segment_on_triangle_vertices_3d s0 s1 t0 t1 t2 then .ok .SIMPLICIAL_COMPLEX
  else .ok (classify s0 s1 t0 t1 t2)

/-- Modelled from the spec: `segment_tet_intersect_3d` (body absent from the sources):
the assertion that the segment has a length and the tetrahedron a volume, then the
documented result for a segment on vertices of the tetrahedron, then the rest of the
classification. -/
def segment_tet_intersect_3d (NDEBUG : Bool)
    (classify : vec3d K → vec3d K → vec3d K → vec3d K → vec3d K → vec3d K →
      SimplexIntersection)
    (s0 s1 t0 t1 t2 t3 : vec3d K) : Except Fault SimplexIntersection :=
  if !NDEBUG && (segment_is_degenerate_3d s0 s1 || tet_is_degenerate t0 t1 t2 t3) then
    .error Fault.assertion_failed
  else if segment_on_tet_vertices s0 s1 t0 t1 t2 t3 then .ok .SIMPLICIAL_COMPLEX
  else .ok (classify s0 s1 t0 t1 t2 t3)

/-- Modelled from the spec: `triangle_triangle_intersect_2d` (body absent from the
sources): the assertion that both triangles have an area, then the classification. -/
def triangle_triangle_intersect_2d (NDEBUG : Bool)
    (classify : vec2f K → vec2f K → vec2f K → vec2f K → vec2f K → vec2f K →
      SimplexIntersection)
    (t00 t01 t02 t10 t11 t12 : vec2f K) : Except Fault SimplexIntersection :=
  if !NDEBUG &&
      (triangle_is_degenerate_2d t00 t01 t02 || triangle_is_degenerate_2d t10 t11 t12) then
    .error Fault.assertion_failed
  else .ok (classify t00 t01 t02 t10 t11 t12)

/-- Modelled from the spec: `triangle_triangle_intersect_3d` (body absent from the
sources): the assertion that both triangles have an area, then the classification. -/
def triangle_triangle_intersect_3d (NDEBUG : Bool)
    (classify : vec3d K → vec3d K → vec3d K → vec3d K → vec3d K → vec3d K →
      SimplexIntersection)
    (t00 t01 t02 t10 t11 t12 : vec3d K) : Except Fault SimplexIntersection :=
  if !NDEBUG &&
      (triangle_is_degenerate_3d t00 t01 t02 || triangle_is_degenerate_3d t10 t11 t12) then
    .error Fault.assertion_failed
  else .ok (classify t00 t01 t02 t10 t11 t12)

/-! ### Three-dimensional vectors and colinearity -/

/-- Modelled from the spec: `vec3d::operator-` (class `vec3d` is absent from the
sources); componentwise difference. -/
def vec3d.sub (a b : vec3d K) : vec3d K := ⟨a.x - b.x, a.y - b.y, a.z - b.z⟩

/-- Modelled from the spec: `vec3d::operator*(scalar)` (class `vec3d` is absent from
the sources); scaling of the three components. -/
def vec3d.scale (a : vec3d K) (s : K) : vec3d K := ⟨a.x * s, a.y * s, a.z * s⟩

/-- Modelled from the spec: `vec3d::dot` (class `vec3d` is absent from the sources);
scalar product. -/
def vec3d.dot (a b : vec3d K) : K := a.x * b.x + a.y * b.y + a.z * b.z

/-- Modelled from the spec: `vec3d::cross` (class `vec3d` is absent from the sources);
vector product. -/
def vec3d.cross (a b : vec3d K) : vec3d K :=
  ⟨a.y * b.z - a.z * b.y, a.z * b.x - a.x * b.z, a.x * b.y - a.y * b.x⟩

/-- Modelled from the spec: `vec3d::length` (class `vec3d` is absent from the
sources); Euclidean norm, through the square root `sqrt` of the math library. -/
def vec3d.length (sqrt : K → K) (a : vec3d K) : K := sqrt (a.dot a)

/-- Modelled from the spec: `vec3d::normalize` (class `vec3d` is absent from the
sources); the vector divided by its length ("normalized direction"). -/
def vec3d.normalize (sqrt : K → K) (a : vec3d K) : vec3d K :=
  ⟨a.x / vec3d.length sqrt a, a.y / vec3d.length sqrt a, a.z / vec3d.length sqrt a⟩

/-- The three points of space lie on a common line: two of them coincide, or the
third is the first plus a multiple of the step from the first to the second. -/
def colinear_in_space (p0 p1 p2 : vec3d K) : Prop :=
  p0 = p1 ∨ ∃ t : K, p2.x = p0.x + t * (p1.x - p0.x) ∧ p2.y = p0.y + t * (p1.y - p0.y) ∧
    p2.z = p0.z + t * (p1.z - p0.z)

end Guards

/-! ## Rays (`geometry/ray.cpp`) -/

/-- Data members of class `Ray` (`ray.h` is absent from the sources; the members are
those assigned by the constructor). -/
structure Ray (K : Type) where
  start : vec3d K
  direction : vec3d K

section Rays

variable {K : Type} [LinearOrderedField K]

/-- Constructor `Ray::Ray(p, dir)` (lines 30-35 of `ray.cpp`): stores `p`, stores
`dir` and normalizes it in place. (Named `Ray.new`: the name of the class is taken by
the structure.) -/
def Ray.new (sqrt : K → K) (p dir : vec3d K) : Ray K :=
  { start := p, direction := vec3d.normalize sqrt dir }

/-- Accessor `Ray::dir` (lines 56-60 of `ray.cpp`). -/
def Ray.dir (r : Ray K) : vec3d K := r.direction

/-- Accessor `Ray::begin` (lines 63-67 of `ray.cpp`). -/
def Ray.begin (r : Ray K) : vec3d K := r.start

end Rays

section KernelEdges

variable {K : Type} [LinearOrderedField K]

/-! ### Reference notions for the edge rectangles of `polygon_kernel` -/

/-- The square root of the backend is exact at `x`: its value is non-negative and its
square is `x`. -/
def sqrt_exact_at (B : Backend K) (x : K) : Prop := 0 ≤ B.sqrt x ∧ B.sqrt x * B.sqrt x = x

/-- Squared Euclidean norm of a vector. -/
def vec2f.norm2 (a : vec2f K) : K := a.x * a.x + a.y * a.y

/-- The point lies in the axis-aligned bounding box of the polygon. -/
def in_bbox (poly : List (vec2f K)) (q : vec2f K) : Prop :=
  (bbox_min poly).x ≤ q.x ∧ q.x ≤ (bbox_max poly).x ∧
  (bbox_min poly).y ≤ q.y ∧ q.y ≤ (bbox_max poly).y

/-- The point lies in the closed parallelogram given by four corners listed around
its boundary: it is the first corner plus a fraction of the step to the second corner
plus a fraction of the step to the fourth. -/
def in_rectangle (corners : List (vec2f K)) (q : vec2f K) : Prop :=
  match corners with
  | [a, b, _, d] => ∃ s t : K, 0 ≤ s ∧ s ≤ 1 ∧ 0 ≤ t ∧ t ≤ 1 ∧
      q.x = a.x + s * (b.x - a.x) + t * (d.x - a.x) ∧
      q.y = a.y + s * (b.y - a.y) + t * (d.y - a.y)
  | _ => False

/-- Lines 93-98 of `polygon_kernel.cpp` on the endpoints `A`, `B0` of one edge: the
corners `A - u*delta`, `B0 + u*delta`, `B0 + u*delta + v*delta`, `A - u*delta + v*delta`
with `u` the normalized edge direction and `v` its counter-clockwise normal. -/
def edge_rectangle (B : Backend K) (delta : K) (A B0 : vec2f K) : List (vec2f K) :=
  let u := vec2f.normalize B (B0.sub A)
  let v : vec2f K := ⟨-u.y, u.x⟩
  let A1 := A.sub (u.scale delta)
  let B1 := B0.add (u.scale delta)
  let C := B1.add (v.scale delta)
  let D := A1.add (v.scale delta)
  [A1, B1, C, D]

/-- Bounds-checked read `std::vector::at`: the element at index `i`, or a fault when
`i` is past the end. -/
def vector_at {α : Type} (v : List α) (i : Nat) : Except Fault α :=
  match v[i]? with
  | some a => .ok a
  | none => .error Fault.out_of_range

/-- The vector `half_spaces` after `k` rounds of the loop of lines 91-107, with the
two reads `poly.at(i)` and `poly.at((i+1)%poly.size())` bounds-checked as in the
source. -/
def half_spaces_loop (B : Backend K) (poly : List (vec2f K)) (delta : K) :
    Nat → Except Fault (List (BoostPolygon K))
  | 0 => .ok []
  | k + 1 =>
    match half_spaces_loop B poly delta k with
    | .error e => .error e
    | .ok hs =>
      match vector_at poly k, vector_at poly ((k + 1) % poly.length) with
      | .ok A, .ok B0 =>
        .ok (hs ++ [boost_correct { outer := edge_rectangle B delta A B0, inners := [] }])
      | .error e, _ => .error e
      | _, .error e => .error e

/-- The loop of lines 91-107 run to its end, reads bounds-checked. -/
def half_spaces_at (B : Backend K) (poly : List (vec2f K)) :
    Except Fault (List (BoostPolygon K)) :=
  half_spaces_loop B poly (bbox_delta B poly) poly.length

end KernelEdges

section MeshClick

variable {K : Type}

/-- Modelled from the spec: `num_edges` of the mesh class (absent from the sources). -/
def num_edges (m : Trimesh K) : Nat := m.edges.length

/-- Modelled from the spec: assignment to `edge_data(eid).flags[MARKED]` of the mesh
class (absent from the sources): "toggles the `marked` boolean; pure attribute
mutation, no topology change". An id past the end of the edge container is a fault. -/
def set_edge_marked (m : Trimesh K) (eid : Nat) (flag : Bool) : Except Fault (Trimesh K) :=
  match m.edges[eid]? with
  | none => .error Fault.out_of_range
  | some e => .ok { m with edges := m.edges.set eid { e with marked := flag } }

/-- The mouse handler (lines 105-119 of `main.cpp`). `control` tells whether the
modifier of the event is the control key, `unproject` is the result of
`c->unproject(click, p)` (the 3D point when it succeeds), and `pick_edge` is the
picking routine of the mesh class, which is not part of the given sources. -/
def callback_mouse_press (pick_edge : Trimesh K → vec3d K → Nat) (m : Trimesh K)
    (control : Bool) (unproject : Option (vec3d K)) : Except Fault (Trimesh K) :=
  if control then
    match unproject with
    | some p =>
      let eid := pick_edge m p
      set_edge_marked m eid (!edge_marked m eid)
    | none => .ok m
  else .ok m

end MeshClick

/-- Modelled from the spec: class `Plane` (`plane.h` is absent from the sources):
"plane = point + normal"; `Plane(point, normal)` keeps the point and the normal. -/
structure Plane (K : Type) where
  p : vec3d K
  n : vec3d K
deriving DecidableEq, Repr

section RayMethods

variable {K : Type} [LinearOrderedField K]

/-- Modelled from the spec: `vec3d::operator+` (class `vec3d` is absent from the
sources); componentwise sum. -/
def vec3d.add (a b : vec3d K) : vec3d K := ⟨a.x + b.x, a.y + b.y, a.z + b.z⟩

/-- Modelled from the spec: `vec3d::dist` (class `vec3d` is absent from the sources);
Euclidean distance of two points. -/
def vec3d.dist (sqrt : K → K) (a b : vec3d K) : K := vec3d.length sqrt (a.sub b)

/-- Method `Ray::to_planes` (lines 39-52 of `ray.cpp`): three candidate normals, each
orthogonal to the direction; a plane through the start point is kept for the first
and the second when their length is positive, and for the third when its length is
positive and fewer than two planes are there; the assertion on the number of planes
exists only in a build without `NDEBUG`. -/
def Ray.to_planes (NDEBUG : Bool) (sqrt : K → K) (r : Ray K) :
    Except Fault (List (Plane K)) :=
  let n0 : vec3d K := ⟨-r.direction.y, r.direction.x, 0⟩
  let n1 : vec3d K := ⟨-r.direction.z, 0, r.direction.x⟩
  let n2 : vec3d K := ⟨0, -r.direction.z, r.direction.y⟩
  let planes : List (Plane K) := []
  let planes := if 0 < vec3d.length sqrt n0 then planes ++ [⟨r.start, n0⟩] else planes
  let planes := if 0 < vec3d.length sqrt n1 then planes ++ [⟨r.start, n1⟩] else planes
  let planes :=
    if 0 < vec3d.length sqrt n2 then
      if planes.length < 2 then planes ++ [⟨r.start, n2⟩] else planes
    else planes
  if !NDEBUG && planes.length ≠ 2 then .error Fault.assertion_failed else .ok planes

/-- Method `Ray::on_positive_half_space` (lines 71-76 of `ray.cpp`). -/
def Ray.on_positive_half_space (r : Ray K) (p : vec3d K) : Bool :=
  if 0 ≤ (p.sub r.start).dot r.direction then true else false

/-- Method `Ray::dist_to_point` (lines 80-94 of `ray.cpp`) without the narrowing of the
two scalar products and of the quotient to `float`; `Ray.dist_to_point_narrowed` is
the same method with the narrowing. The division of line 91 is checked: a zero divisor
is a fault. -/
def Ray.dist_to_point (sqrt : K → K) (r : Ray K) (p : vec3d K) : Except Fault K :=
  let u := r.direction
  let w := p.sub r.start
  let cos_wv := w.dot u
  let cos_uu := u.dot u
  if cos_wv ≤ 0 then .ok (vec3d.dist sqrt r.start p)
  else if cos_uu = 0 then .error Fault.division_by_zero
  else
    let b := cos_wv / cos_uu
    let Pb := r.start.add (u.scale b)
    .ok (vec3d.length sqrt (p.sub Pb))

/-! ### Reference notions for rays -/

/-- The point lies on the plane: its offset from the point of the plane is orthogonal
to the normal. -/
def Plane.contains (P : Plane K) (x : vec3d K) : Prop := P.n.dot (x.sub P.p) = 0

/-- The point `start + t * direction` of the supporting line of the ray. -/
def Ray.point_at (r : Ray K) (t : K) : vec3d K := r.start.add (r.direction.scale t)

/-- The point lies on the supporting line of the ray. -/
def Ray.on_line (r : Ray K) (x : vec3d K) : Prop := ∃ t : K, x = r.point_at t

/-- The three candidate normals of lines 41-43 of `ray.cpp`. -/
def Ray.candidate_normals (r : Ray K) : List (vec3d K) :=
  [⟨-r.direction.y, r.direction.x, 0⟩, ⟨-r.direction.z, 0, r.direction.x⟩,
    ⟨0, -r.direction.z, r.direction.y⟩]

/-- The square root has the sign of its argument at `x`: it is positive exactly when
`x` is. -/
def sqrt_sign_at (sqrt : K → K) (x : K) : Prop := 0 < sqrt x ↔ 0 < x

/-- The two vectors are linearly independent: their vector product is not zero. -/
def linearly_independent (a b : vec3d K) : Prop := a.cross b ≠ ⟨0, 0, 0⟩

/-- The value `v` is the least distance from `p` to the points `start + t * direction`
with `t >= 0`: it is the distance to one of them and no other one is closer. -/
def Ray.is_min_dist (sqrt : K → K) (r : Ray K) (p : vec3d K) (v : K) : Prop :=
  (∃ t : K, 0 ≤ t ∧ v = vec3d.dist sqrt p (r.point_at t)) ∧
  ∀ t : K, 0 ≤ t → v ≤ vec3d.dist sqrt p (r.point_at t)

/-- The half-space test as the specification words it: the offset of `p` from the
start has a non-negative scalar product with the direction. -/
def Ray.on_positive_half_space_spec (r : Ray K) (p : vec3d K) : Prop :=
  0 ≤ (p.sub r.start).dot r.direction

end RayMethods

/-! ## `polygon_kernel.cpp` in a build without `CINOLIB_USES_BOOST` -/

/-- End of the process by `exit(status)`: the status handed to `exit`, the text written
to the error stream before, and the content of the caller's output vector at that
moment. -/
structure Exit (α : Type) where
  status : Int
  message : String
  output : α
deriving DecidableEq, Repr

/-- The text written to `std::cerr` at line 139. -/
def boost_disabled_message : String :=
  "ERROR : Boost Polygon disabled. Recompile defining symbol CINOLIB_USES_BOOST"

section NoBoost

variable {K : Type} [LinearOrderedField K]

/-- The 2D `polygon_kernel` of lines 135-141 (build without `CINOLIB_USES_BOOST`): the
message goes to the error stream and the process ends with `exit(-1)`; the arguments
are not looked at. -/
def polygon_kernel_no_boost (_poly : List (vec2f K)) (kernel : List (vec2f K)) :
    Except (Exit (List (vec2f K))) (K × List (vec2f K)) :=
  .error { status := -1, message := boost_disabled_message, output := kernel }

/-- The 3D `polygon_kernel` (lines 51-66) in a build without `CINOLIB_USES_BOOST`: the
call of line 58 goes to the definition of lines 135-141; when that call ends the
process, the output vector of the 3D entry point is as the caller passed it. -/
def polygon_kernel_3d_no_boost (poly : List (vec3d K)) (kernel : List (vec3d K)) :
    Except (Exit (List (vec3d K))) (K × List (vec3d K)) :=
  let poly_2d : List (vec2f K) := poly.map vec3d.drop_z
  match polygon_kernel_no_boost poly_2d [] with
  | .error e => .error { status := e.status, message := e.message, output := kernel }
  | .ok (area, kernel_2d) =>
    if 0 < area then .ok (area, vector_clear kernel ++ kernel_2d.map vec2f.lift_z0)
    else .ok (area, kernel)

end NoBoost

/-! ## File converter (`examples/30_file_converter/main.cpp`)

The readers, the writers and `get_file_extension` are not part of the given sources.
A reader or writer is modelled by the fact that it is called; the extension routine is
a parameter. -/

/-- The readers called at lines 31-52. -/
inductive Reader where
  | read_OBJ
  | read_OFF
  | read_STL
  | read_HEDRA
  | read_HYBDRID
  | read_MESH
  | read_TET
  | read_VTU
  | read_VTK
deriving DecidableEq, Repr

/-- The writers called at lines 62-86 (`Trimesh_save` is `tmp.save` of line 69). -/
inductive Writer where
  | write_OBJ
  | write_OFF
  | Trimesh_save
  | write_NODE_ELE
  | write_HEDRA
  | write_MESH
  | write_TET
  | write_VTU
  | write_VTK
deriving DecidableEq, Repr

/-- What a run of the converter did: the value returned by `main`, the reader it
called and the writer it called, if any. -/
structure ConverterRun where
  status : Int
  reader : Option Reader
  writer : Option Writer
deriving DecidableEq, Repr

/-- The chain of comparisons of lines 31-57: the reader chosen for an input
extension, none for an unknown one. -/
def input_reader (ext : String) : Option Reader :=
  if ext = "OBJ" ∨ ext = "obj" then some .read_OBJ
  else if ext = "OFF" ∨ ext = "off" then some .read_OFF
  else if ext = "STL" ∨ ext = "stl" then some .read_STL
  else if ext = "HEDRA" ∨ ext = "hedra" then some .read_HEDRA
  else if ext = "HYBRID" ∨ ext = "hybrid" then some .read_HYBDRID
  else if ext = "MESH" ∨ ext = "mesh" then some .read_MESH
  else if ext = "TET" ∨ ext = "tet" then some .read_TET
  else if ext = "VTU" ∨ ext = "vtu" then some .read_VTU
  else if ext = "VTK" ∨ ext = "vtk" then some .read_VTK
  else none

/-- The chain of comparisons of lines 62-91: the writer chosen for an output
extension, none for an unknown one. -/
def output_writer (ext : String) : Option Writer :=
  if ext = "OBJ" ∨ ext = "obj" then some .write_OBJ
  else if ext = "OFF" ∨ ext = "off" then some .write_OFF
  else if ext = "STL" ∨ ext = "stl" then some .Trimesh_save
  else if ext = "NODE" ∨ ext = "node" ∨ ext = "ELE" ∨ ext = "ele" then some .write_NODE_ELE
  else if ext = "HEDRA" ∨ ext = "hedra" then some .write_HEDRA
  else if ext = "MESH" ∨ ext = "mesh" then some .write_MESH
  else if ext = "TET" ∨ ext = "tet" then some .write_TET
  else if ext = "VTU" ∨ ext = "vtu" then some .write_VTU
  else if ext = "VTK" ∨ ext = "vtk" then some .write_VTK
  else none

/-- Function `main` of the converter (lines 15-94). `argv` holds the program name and
the arguments, so `argc` is its length; readers and writers are taken to return
normally. -/
def file_converter.main (get_file_extension : String → String) (argv : List String) :
    ConverterRun :=
  if argv.length ≠ 3 then { status := -1, reader := none, writer := none }
  else
    match input_reader (get_file_extension (argv.getD 1 "")) with
    | none => { status := -1, reader := none, writer := none }
    | some rd =>
      match output_writer (get_file_extension (argv.getD 2 "")) with
      | none => { status := -1, reader := some rd, writer := none }
      | some wr => { status := 0, reader := some rd, writer := some wr }

/-- The input formats of the converter, each with its all-uppercase and its
all-lowercase spelling. -/
def input_formats : List (String × String) :=
  [("OBJ", "obj"), ("OFF", "off"), ("STL", "stl"), ("HEDRA", "hedra"),
    ("HYBRID", "hybrid"), ("MESH", "mesh"), ("TET", "tet"), ("VTU", "vtu"), ("VTK", "vtk")]

/-- The output formats of the converter, each with its all-uppercase and its
all-lowercase spelling. -/
def output_formats : List (String × String) :=
  [("OBJ", "obj"), ("OFF", "off"), ("STL", "stl"), ("NODE", "node"), ("ELE", "ele"),
    ("HEDRA", "hedra"), ("MESH", "mesh"), ("TET", "tet"), ("VTU", "vtu"), ("VTK", "vtk")]

/-- The extension is one of the formats, spelled all-uppercase or all-lowercase. -/
def recognised (formats : List (String × String)) (ext : String) : Prop :=
  ∃ f ∈ formats, ext = f.1 ∨ ext = f.2

/-! ## Rounding

The coordinate type of `polygon_kernel.cpp` is `float`, and `Ray::dist_to_point` stores
three intermediate values in `float`. A rounding function stands for the storage of a
value in that type: the identity in exact arithmetic, `binary32_round` for IEEE 754
single precision. -/

/-- Rounding of a rational to the nearest integer, a tie going to the even one. -/
def round_half_even (x : ℚ) : ℤ :=
  let f := ⌊x⌋
  if x - f < 1 / 2 then f
  else if 1 / 2 < x - f then f + 1
  else if f % 2 = 0 then f
  else f + 1

/-- Rounding of a positive rational to the nearest `binary32` value (24-bit significand,
least exponent -126, gradual underflow), a tie going to the even significand. Values
beyond the largest finite `binary32` are rounded as if the exponent range were
unbounded above. -/
def binary32_round_pos (x : ℚ) : ℚ :=
  let q : ℚ := 2 ^ (max (Int.log 2 x - 23) (-149))
  round_half_even (x / q) * q

/-- Rounding of a rational to the nearest `binary32` value (IEEE 754 round to nearest,
ties to even); the sign of zero is not modelled. -/
def binary32_round (x : ℚ) : ℚ :=
  if x = 0 then 0
  else if 0 < x then binary32_round_pos x
  else -binary32_round_pos (-x)

section Rounded

variable {K : Type} [LinearOrderedField K]

/-- Modelled from the spec: `vec2f::operator-` (class `vec2f` is absent from the
sources), the result of each subtraction stored in the coordinate type. -/
def vec2f.sub_rounded (rnd : K → K) (a b : vec2f K) : vec2f K :=
  ⟨rnd (a.x - b.x), rnd (a.y - b.y)⟩

/-- Modelled from the spec: `vec2f::operator+` (class `vec2f` is absent from the
sources), the result of each addition stored in the coordinate type. -/
def vec2f.add_rounded (rnd : K → K) (a b : vec2f K) : vec2f K :=
  ⟨rnd (a.x + b.x), rnd (a.y + b.y)⟩

/-- Modelled from the spec: `vec2f::operator*(scalar)` (class `vec2f` is absent from
the sources), the result of each product stored in the coordinate type. -/
def vec2f.scale_rounded (rnd : K → K) (a : vec2f K) (s : K) : vec2f K :=
  ⟨rnd (a.x * s), rnd (a.y * s)⟩

/-- Modelled from the spec: `vec2f::length` (class `vec2f` is absent from the
sources): the two squares, their sum and the square root, each stored in the
coordinate type. -/
def vec2f.length_rounded (rnd : K → K) (B : Backend K) (a : vec2f K) : K :=
  rnd (B.sqrt (rnd (rnd (a.x * a.x) + rnd (a.y * a.y))))

/-- Modelled from the spec: `vec2f::dist` (class `vec2f` is absent from the sources),
with rounded operations. -/
def vec2f.dist_rounded (rnd : K → K) (B : Backend K) (a b : vec2f K) : K :=
  vec2f.length_rounded rnd B (a.sub_rounded rnd b)

/-- Modelled from the spec: `vec2f::normalize` (class `vec2f` is absent from the
sources): each component divided by the length, the quotient stored in the coordinate
type. -/
def vec2f.normalize_rounded (rnd : K → K) (B : Backend K) (a : vec2f K) : vec2f K :=
  ⟨rnd (a.x / vec2f.length_rounded rnd B a), rnd (a.y / vec2f.length_rounded rnd B a)⟩

/-- The value `delta` of line 87, a `float`: distance between the two bounding-box
corners, with rounded operations. -/
def bbox_delta_rounded (rnd : K → K) (B : Backend K) (poly : List (vec2f K)) : K :=
  vec2f.dist_rounded rnd B (bbox_min poly) (bbox_max poly)

/-- The four corners appended for edge `i` (lines 93-104), before `correct`, as the
code computes them: the result of every operation on coordinates is stored in the
coordinate type. -/
def half_space_corners_rounded (rnd : K → K) (B : Backend K) (poly : List (vec2f K))
    (delta : K) (i : Nat) : List (vec2f K) :=
  let A := poly.getD i ⟨0, 0⟩
  let B0 := poly.getD ((i + 1) % poly.length) ⟨0, 0⟩
  let u := vec2f.normalize_rounded rnd B (B0.sub_rounded rnd A)
  let v : vec2f K := ⟨-u.y, u.x⟩
  let A1 := A.sub_rounded rnd (u.scale_rounded rnd delta)
  let B1 := B0.add_rounded rnd (u.scale_rounded rnd delta)
  let C := B1.add_rounded rnd (v.scale_rounded rnd delta)
  let D := A1.add_rounded rnd (v.scale_rounded rnd delta)
  [A1, B1, C, D]

/-- Body of the loop of lines 91-107 for edge `i`, with rounded operations: the
corrected rectangle. -/
def half_space_rounded (rnd : K → K) (B : Backend K) (poly : List (vec2f K)) (delta : K)
    (i : Nat) : BoostPolygon K :=
  boost_correct { outer := half_space_corners_rounded rnd B poly delta i, inners := [] }

/-- The vector `half_spaces` after the loop of lines 91-107, with rounded operations. -/
def half_spaces_rounded (rnd : K → K) (B : Backend K) (poly : List (vec2f K)) :
    List (BoostPolygon K) :=
  (List.range poly.length).map (half_space_rounded rnd B poly (bbox_delta_rounded rnd B poly))

/-- Lines 110-118 on the half-spaces computed with rounded operations. -/
def kernel_boost_rounded (rnd : K → K) (B : Backend K) (poly : List (vec2f K)) :
    Except Fault (Option (BoostPolygon K)) :=
  match half_spaces_rounded rnd B poly with
  | [] => .error Fault.out_of_range
  | h :: hs => intersect_loop B h hs

/-- The 2D `polygon_kernel` (lines 72-131, build with `CINOLIB_USES_BOOST`) with the
operations of lines 87-98 and the returned area (line 130, return type `float`) rounded
to the coordinate type. The second argument is the content of the output vector on
entry; the result is the returned area paired with the content of the output vector on
return. -/
def polygon_kernel_rounded (rnd : K → K) (B : Backend K) (poly : List (vec2f K))
    (kernel : List (vec2f K)) : Except Fault (K × List (vec2f K)) :=
  let kernel := vector_clear kernel
  match poly with
  | [] => .ok (0, kernel)
  | _ :: _ =>
    match kernel_boost_rounded rnd B poly with
    | .error f => .error f
    | .ok none => .ok (0, kernel)
    | .ok (some kb) =>
      match ring_to_kernel kb.outer with
      | .error f => .error f
      | .ok pts => .ok (rnd (boost_area kb), kernel ++ pts)

/-- Method `Ray::dist_to_point` (lines 80-94 of `ray.cpp`) with the narrowing of lines
86, 87 and 91: the two scalar products and the quotient are stored in `float`
variables, `narrow` being that storage. The division of line 91 is checked: a zero
divisor is a fault. -/
def Ray.dist_to_point_narrowed (narrow : K → K) (sqrt : K → K) (r : Ray K) (p : vec3d K) :
    Except Fault K :=
  let u := r.direction
  let w := p.sub r.start
  let cos_wv := narrow (w.dot u)
  let cos_uu := narrow (u.dot u)
  if cos_wv ≤ 0 then .ok (vec3d.dist sqrt r.start p)
  else if cos_uu = 0 then .error Fault.division_by_zero
  else
    let b := narrow (cos_wv / cos_uu)
    let Pb := r.start.add (u.scale b)
    .ok (vec3d.length sqrt (p.sub Pb))

/-! ### Reference notions for degenerate simplices -/

/-- Six times the signed volume of the tetrahedron: the scalar triple product of its
three edge vectors at `t0`. -/
def tet_volume6 (t0 t1 t2 t3 : vec3d K) : K :=
  (t1.sub t0).dot ((t2.sub t0).cross (t3.sub t0))

/-- The triangle of the plane has zero area. -/
def zero_area_2d (t0 t1 t2 : vec2f K) : Prop := shoelace_area [t0, t1, t2] = 0

/-- The triangle of space has zero area: the vector product of two of its edge vectors,
whose length is twice the area, is zero. -/
def zero_area_3d (t0 t1 t2 : vec3d K) : Prop := (t1.sub t0).cross (t2.sub t0) = ⟨0, 0, 0⟩

/-- The tetrahedron has zero volume. -/
def zero_volume (t0 t1 t2 t3 : vec3d K) : Prop := tet_volume6 t0 t1 t2 t3 = 0

/-! ### An intersection routine for axis-aligned boxes -/

/-- The four corners of the bounding box of a ring. -/
def box_corners (r : BoostRing K) : List (vec2f K) :=
  [⟨(bbox_min r).x, (bbox_min r).y⟩, ⟨(bbox_min r).x, (bbox_max r).y⟩,
    ⟨(bbox_max r).x, (bbox_max r).y⟩, ⟨(bbox_max r).x, (bbox_min r).y⟩]

/-- Intersection of two polygons whose rings hold the four corners of their own
bounding boxes: the common part of the two boxes as a closed clockwise ring; no
polygon when the boxes do not meet or when an operand is not of that kind. -/
def box_intersection (a b : BoostPolygon K) : List (BoostPolygon K) :=
  if (box_corners a.outer).all (fun c => decide (c ∈ a.outer)) &&
      (box_corners b.outer).all (fun c => decide (c ∈ b.outer)) then
    let lo := (bbox_min a.outer).max (bbox_min b.outer)
    let hi := (bbox_max a.outer).min (bbox_max b.outer)
    if lo.x ≤ hi.x ∧ lo.y ≤ hi.y then
      [{ outer := [lo, ⟨lo.x, hi.y⟩, hi, ⟨hi.x, lo.y⟩, lo], inners := [] }]
    else []
  else []

end Rounded

section MarkedSides

variable {K : Type}

/-- Edge `eid` exists, is marked and is one of the three sides of poly `pid`. -/
def marked_side (m : Trimesh K) (pid eid : Nat) : Prop :=
  ∃ t e, m.polys[pid]? = some t ∧ m.edges[eid]? = some e ∧ e.marked = true ∧
    e.on_poly t = true

/-- Poly `pid` is incident to more than one marked edge: two different edges are
marked sides of it. -/
def more_than_one_marked_side (m : Trimesh K) (pid : Nat) : Prop :=
  ∃ e1 e2, e1 ≠ e2 ∧ marked_side m pid e1 ∧ marked_side m pid e2

end MarkedSides

/-! ## Concrete backends used to instantiate the statements -/

/-- Square root on the rationals given by a table of exact values. -/
def table_sqrt (x : ℚ) : ℚ :=
  if x = 1 then 1 else if x = 4 then 2 else if x = 9 then 3 else 0

/-- Backend whose intersection routine answers with its first operand. -/
def first_operand_backend : Backend ℚ :=
  { sqrt := table_sqrt, intersection := fun a _ => [a], NDEBUG := false }

/-- Backend whose intersection routine keeps the points of the first operand that are
also points of the second, as a closed ring. -/
def common_points_backend : Backend ℚ :=
  { sqrt := table_sqrt
    intersection := fun a b =>
      match a.outer.filter (fun v => decide (v ∈ b.outer)) with
      | [] => []
      | c :: cs => [{ outer := c :: cs ++ [c], inners := [] }]
    NDEBUG := false }

/-- Backend whose intersection routine never finds a polygon. -/
def empty_backend : Backend ℚ :=
  { sqrt := table_sqrt, intersection := fun _ _ => [], NDEBUG := false }

/-- The two-vertex polygon `(0,0), (1,0)` used to instantiate the statements. -/
def example_segment : List (vec2f ℚ) := [⟨0, 0⟩, ⟨1, 0⟩]

/-- The corrected rectangle built for the edge `(0,0) -> (1,0)` of `example_segment`
(`delta = 1`): a closed clockwise ring. -/
def example_rectangle : BoostPolygon ℚ :=
  { outer := [⟨-1, 0⟩, ⟨-1, 1⟩, ⟨2, 1⟩, ⟨2, 0⟩, ⟨-1, 0⟩], inners := [] }

/-- Two triangles sharing the edge `1-2`; the edges `0-1`, `1-2` and `3-2` are marked,
so both triangles have two marked sides. -/
def example_mesh : Trimesh ℚ :=
  { verts := [⟨0, 0, 0⟩, ⟨3, 0, 0⟩, ⟨0, 3, 0⟩, ⟨3, 3, 0⟩]
    edges := [⟨0, 1, true⟩, ⟨1, 2, true⟩, ⟨2, 0, false⟩, ⟨1, 3, false⟩, ⟨3, 2, true⟩]
    polys := [⟨0, 1, 2⟩, ⟨1, 3, 2⟩] }

/-- Picking routine that always answers edge `1`. -/
def pick_edge_one (_m : Trimesh ℚ) (_p : vec3d ℚ) : Nat := 1

/-- Square root on the rationals given by a second table of exact values. -/
def fifths_sqrt (x : ℚ) : ℚ :=
  if x = 25 then 5 else if x = 9 / 25 then 3 / 5 else if x = 16 / 25 then 4 / 5
  else if x = 1 then 1 else 0

/-- Monotone stand-in for the square root on the rationals: the integer square root
of the integer part; exact at the squares of natural numbers. -/
def floor_sqrt (x : ℚ) : ℚ := (Nat.sqrt ⌊x⌋₊ : ℚ)

/-- The ray from `(5,6,7)` along the first axis. -/
def example_ray : Ray ℚ := { start := ⟨5, 6, 7⟩, direction := ⟨1, 0, 0⟩ }

/-! ## More concrete values used to instantiate the statements -/

/-- Backend with the integer square root and the intersection routine that keeps the
common ring points. -/
def common_points_floor_backend : Backend ℚ :=
  { sqrt := floor_sqrt, intersection := common_points_backend.intersection, NDEBUG := false }

/-- Backend with the integer square root and the intersection routine for boxes. -/
def box_backend : Backend ℚ :=
  { sqrt := floor_sqrt, intersection := box_intersection, NDEBUG := false }

/-- The triangle `(0,0), (3,4), (5,12)`. -/
def example_triangle : List (vec2f ℚ) := [⟨0, 0⟩, ⟨3, 4⟩, ⟨5, 12⟩]

/-- The two-vertex polygon `(0,0), (20,15)`. -/
def example_slanted_segment : List (vec2f ℚ) := [⟨0, 0⟩, ⟨20, 15⟩]

/-- The axis-aligned rectangle `(0,0), (3,0), (3,4), (0,4)`, counter-clockwise. -/
def example_box : List (vec2f ℚ) := [⟨0, 0⟩, ⟨3, 0⟩, ⟨3, 4⟩, ⟨0, 4⟩]

/-- Two triangles sharing the edge `1-2`; the edges `0-1` and `1-2` are marked, so the
first triangle has two marked sides and the second has one. -/
def example_mesh_one_candidate : Trimesh ℚ :=
  { verts := [⟨0, 0, 0⟩, ⟨3, 0, 0⟩, ⟨0, 3, 0⟩, ⟨3, 3, 0⟩]
    edges := [⟨0, 1, true⟩, ⟨1, 2, true⟩, ⟨2, 0, false⟩, ⟨1, 3, false⟩, ⟨3, 2, false⟩]
    polys := [⟨0, 1, 2⟩, ⟨1, 3, 2⟩] }

/-- The ray from the origin along the first axis. -/
def example_origin_ray : Ray ℚ := { start := ⟨0, 0, 0⟩, direction := ⟨1, 0, 0⟩ }

/-! ## Theorems: polygon kernel -/

section KernelTheorems

theorem intersect_loop_append {K : Type} (B : Backend K) (pre post : List (BoostPolygon K)) :
    ∀ k : BoostPolygon K, intersect_loop B k (pre ++ post) =
      match intersect_loop B k pre with
      | .ok (some kb) => intersect_loop B kb post
      | other => other := by
  induction pre with
  | nil => intro k; simp [intersect_loop]
  | cons h hs ih =>
    intro k
    simp only [List.cons_append, intersect_loop]
    cases hres : B.intersection k h with
    | nil => simp
    | cons r more =>
      simp only
      split
      · rfl
      · exact ih r

theorem polygon_kernel_prior_irrelevant {K : Type} [LinearOrderedField K]
    (B : Backend K) (poly prior prior2 : List (vec2f K)) :
    polygon_kernel B poly prior = polygon_kernel B poly prior2 := by
  simp [polygon_kernel, vector_clear]

/-- C1: the 2D `polygon_kernel` returns area 0 and leaves the output vector empty,
whatever the output vector held before, when the polygon is empty or when, after the
half-spaces `first :: pre` have been intersected into `kb`, the next incremental
intersection `kb ∩ h` yields no polygon. -/
theorem polygon_kernel_no_kernel {K : Type} [LinearOrderedField K]
    (B : Backend K) (poly prior : List (vec2f K))
    (h : poly = [] ∨
      ∃ first pre kb h post, half_spaces B poly = first :: (pre ++ h :: post) ∧
        intersect_loop B first pre = .ok (some kb) ∧ B.intersection kb h = []) :
    polygon_kernel B poly prior = .ok (0, []) := by
  rcases h with h | ⟨first, pre, kb, h, post, hhs, hpre, hempty⟩
  · subst h; simp [polygon_kernel, vector_clear]
  · have hkb : kernel_boost B poly = .ok none := by
      simp [kernel_boost, hhs, intersect_loop_append, hpre, intersect_loop, hempty]
    cases poly with
    | nil => simp [polygon_kernel, vector_clear]
    | cons p ps => simp [polygon_kernel, vector_clear, hkb]

/-- Witness for `polygon_kernel_no_kernel`: on the two-vertex polygon `(0,0),(1,0)` the
backend that never finds a polygon empties the first incremental intersection. -/
theorem polygon_kernel_no_kernel_witness :
    polygon_kernel empty_backend [⟨0, 0⟩, ⟨1, 0⟩] [⟨7, 7⟩] = .ok (0, []) :=
  polygon_kernel_no_kernel empty_backend [⟨0, 0⟩, ⟨1, 0⟩] [⟨7, 7⟩]
    (Or.inr ⟨half_space empty_backend [⟨0, 0⟩, ⟨1, 0⟩]
        (bbox_delta empty_backend [⟨0, 0⟩, ⟨1, 0⟩]) 0, [],
      half_space empty_backend [⟨0, 0⟩, ⟨1, 0⟩]
        (bbox_delta empty_backend [⟨0, 0⟩, ⟨1, 0⟩]) 0,
      half_space empty_backend [⟨0, 0⟩, ⟨1, 0⟩]
        (bbox_delta empty_backend [⟨0, 0⟩, ⟨1, 0⟩]) 1, [], rfl, rfl, rfl⟩)

/-- C3 (evaluation at the failing input): on the empty polygon the 3D `polygon_kernel`
returns area 0 but hands back the previous content of the output vector, here the
single point `(1,1,1)`, instead of an empty kernel. -/
theorem polygon_kernel_3d_keeps_stale_kernel (B : Backend ℚ) :
    polygon_kernel_3d B [] [⟨1, 1, 1⟩] = .ok (0, [⟨1, 1, 1⟩]) := by
  simp [polygon_kernel_3d, polygon_kernel, vector_clear]

theorem cross2_antisymm {K : Type} [LinearOrderedField K] (p q : vec2f K) :
    cross2 q p = -cross2 p q := by
  simp only [cross2]; ring

theorem cross_sum_append_singleton {K : Type} [LinearOrderedField K] (q : vec2f K) :
    ∀ (p : vec2f K) (l : List (vec2f K)),
      cross_sum (p :: l ++ [q]) = cross_sum (p :: l) + cross2 ((p :: l).getLast (by simp)) q
  | p, [] => by simp [cross_sum]
  | p, a :: l => by
    have ih := cross_sum_append_singleton q a l
    simp only [List.cons_append] at ih ⊢
    simp only [cross_sum, ih, List.getLast_cons_cons]
    ring

theorem cross_sum_reverse {K : Type} [LinearOrderedField K] :
    ∀ l : List (vec2f K), cross_sum l.reverse = -cross_sum l
  | [] => by simp [cross_sum]
  | [p] => by simp [cross_sum]
  | p :: a :: l => by
    have ih := cross_sum_reverse (a :: l)
    obtain ⟨b, m, hbm⟩ : ∃ b m, (a :: l).reverse = b :: m := by
      cases h : (a :: l).reverse with
      | nil => simp at h
      | cons b m => exact ⟨b, m, rfl⟩
    have hlast : (b :: m).getLast (by simp) = a := by
      have : (b :: m).getLast? = some a := by rw [← hbm]; simp
      rw [List.getLast?_eq_getLast _ (by simp)] at this
      exact Option.some.inj this
    rw [List.reverse_cons, hbm, cross_sum_append_singleton, hlast, ← hbm, ih]
    simp only [cross_sum, cross2_antisymm p a]
    ring

/-- The strategy sum of the engine is a telescoping term minus the cross-product sum. -/
theorem ring_area_sum_eq {K : Type} [LinearOrderedField K] :
    ∀ (p : vec2f K) (l : List (vec2f K)),
      ring_area_sum (p :: l) =
        p.x * p.y - ((p :: l).getLast (by simp)).x * ((p :: l).getLast (by simp)).y
          - cross_sum (p :: l)
  | p, [] => by simp [ring_area_sum, cross_sum]
  | p, a :: l => by
    have ih := ring_area_sum_eq a l
    simp only [ring_area_sum, cross_sum, ih, List.getLast_cons_cons, cross2]
    ring

theorem shoelace_area_reverse {K : Type} [LinearOrderedField K] :
    ∀ l : List (vec2f K), shoelace_area l.reverse = -shoelace_area l
  | [] => by simp [shoelace_area]
  | p :: m => by
    obtain ⟨b, m2, hbm⟩ : ∃ b m2, (p :: m).reverse = b :: m2 := by
      cases h : (p :: m).reverse with
      | nil => simp at h
      | cons b m2 => exact ⟨b, m2, rfl⟩
    have hlast2 : (b :: m2).getLast (by simp) = p := by
      have : (b :: m2).getLast? = some p := by rw [← hbm]; simp
      rw [List.getLast?_eq_getLast _ (by simp)] at this
      exact Option.some.inj this
    have hlast : (p :: m).getLast (by simp) = b := by
      have : (p :: m).getLast? = some b := by
        have h2 := congrArg List.reverse hbm
        rw [List.reverse_reverse] at h2
        rw [h2]; simp
      rw [List.getLast?_eq_getLast _ (by simp)] at this
      exact Option.some.inj this
    have hrev : cross_sum (b :: m2) = -cross_sum (p :: m) := by
      rw [← hbm]; exact cross_sum_reverse (p :: m)
    rw [hbm]
    simp only [shoelace_area]
    rw [cross_sum_append_singleton, cross_sum_append_singleton, hlast, hlast2, hrev,
      cross2_antisymm b p]
    ring

theorem ring_area_sum_closed {K : Type} [LinearOrderedField K] (r : BoostRing K)
    (hclosed : ring_is_closed r) : ring_area_sum r = -cross_sum r := by
  obtain ⟨hne, hlast⟩ := hclosed
  cases r with
  | nil => exact absurd rfl hne
  | cons p l =>
    have h : (p :: l).getLast (by simp) = p := by
      rw [List.getLast?_eq_getLast _ (by simp)] at hlast
      simpa using hlast
    rw [ring_area_sum_eq, h]
    ring

theorem shoelace_area_dropLast_closed {K : Type} [LinearOrderedField K] (r : BoostRing K)
    (hclosed : ring_is_closed r) : shoelace_area r.dropLast = cross_sum r / 2 := by
  obtain ⟨hne, hlast⟩ := hclosed
  cases r with
  | nil => exact absurd rfl hne
  | cons p l =>
    rcases List.eq_nil_or_concat l with hl | ⟨m, q, hl⟩
    · subst hl; simp [shoelace_area, cross_sum]
    · rw [List.concat_eq_append] at hl
      subst hl
      have hq : q = p := by
        rw [← List.cons_append, List.getLast?_append] at hlast
        simpa using hlast
      subst hq
      have : (q :: (m ++ [q])).dropLast = q :: m := by
        rw [← List.cons_append, List.dropLast_concat]
      rw [this]
      simp [shoelace_area]

theorem clockwise_closed_length {K : Type} [LinearOrderedField K] (r : BoostRing K)
    (hclosed : ring_is_closed r) (hcw : ring_is_clockwise r) : 4 ≤ r.length := by
  have hs := shoelace_area_dropLast_closed r hclosed
  unfold ring_is_clockwise at hcw
  rw [hs] at hcw
  obtain ⟨hne, hlast⟩ := hclosed
  by_contra hlen
  match r, hne, hlast, hcw, hlen with
  | [p], _, _, hcw, _ => simp [cross_sum] at hcw
  | [p, q], _, hlast, hcw, _ =>
    have hq : q = p := by simpa using hlast
    subst hq
    simp [cross_sum, cross2] at hcw
  | [p, a, q], _, hlast, hcw, _ =>
    have hq : q = p := by simpa using hlast
    subst hq
    have : cross_sum [q, a, q] = 0 := by simp only [cross_sum, cross2]; ring
    rw [this] at hcw
    simp at hcw
  | _ :: _ :: _ :: _ :: _, _, _, _, hlen => simp at hlen

theorem mem_of_mem_close_ring {K : Type} [LinearOrderedField K] (r : BoostRing K)
    (v : vec2f K) (hv : v ∈ close_ring r) : v ∈ r := by
  cases r with
  | nil => simp [close_ring] at hv
  | cons p rest =>
    simp only [close_ring] at hv
    split at hv
    · rcases List.mem_append.mp hv with h | h
      · exact h
      · simp only [List.mem_singleton] at h
        subst h
        exact List.mem_cons_self _ _
    · exact hv

theorem mem_of_mem_boost_correct_outer {K : Type} [LinearOrderedField K]
    (p : BoostPolygon K) (v : vec2f K) (hv : v ∈ (boost_correct p).outer) : v ∈ p.outer := by
  simp only [boost_correct] at hv
  split at hv
  · exact mem_of_mem_close_ring _ _ (List.mem_reverse.mp hv)
  · exact mem_of_mem_close_ring _ _ hv

theorem in_convex_region_of_mem {K : Type} [LinearOrderedField K]
    (p : BoostPolygon K) (v : vec2f K) (hv : v ∈ p.outer) : in_convex_region p v :=
  fun _ _ _ h => h v hv

theorem intersect_loop_region {K : Type} [LinearOrderedField K] (B : Backend K)
    (hB : intersection_contained B) (kb : BoostPolygon K) :
    ∀ (hs : List (BoostPolygon K)) (k : BoostPolygon K),
      intersect_loop B k hs = .ok (some kb) →
      ∀ q, in_convex_region kb q →
        in_convex_region k q ∧ ∀ h ∈ hs, in_convex_region h q
  | [], k, hloop, q, hq => by
    simp only [intersect_loop, Except.ok.injEq, Option.some.injEq] at hloop
    subst hloop
    exact ⟨hq, by simp⟩
  | h :: hs, k, hloop, q, hq => by
    simp only [intersect_loop] at hloop
    cases hres : B.intersection k h with
    | nil => simp [hres] at hloop
    | cons r more =>
      rw [hres] at hloop
      simp only at hloop
      split at hloop
      · simp at hloop
      · have ih := intersect_loop_region B hB kb hs r hloop q hq
        have hr := hB k h r (by rw [hres]; exact List.mem_cons_self _ _) q ih.1
        refine ⟨hr.1, ?_⟩
        intro h2 hh2
        rcases List.mem_cons.mp hh2 with e | e
        · rw [e]; exact hr.2
        · exact ih.2 h2 e

theorem orient2d_affine {K : Type} [LinearOrderedField K] (a b p : vec2f K) :
    orient2d a b p = (a.y - b.y) * p.x + (b.x - a.x) * p.y + (a.x * b.y - a.y * b.x) := by
  simp only [orient2d]; ring

/-- Every corner of the rectangle built for edge `i` is on or to the left of the line
through the edge. -/
theorem half_space_corners_left {K : Type} [LinearOrderedField K] (B : Backend K)
    (hsqrt : ∀ x, 0 ≤ x → 0 ≤ B.sqrt x) (poly : List (vec2f K)) (delta : K)
    (hdelta : 0 ≤ delta) (i : Nat) (v : vec2f K)
    (hv : v ∈ half_space_corners B poly delta i) :
    0 ≤ orient2d (poly.getD i ⟨0, 0⟩) (poly.getD ((i + 1) % poly.length) ⟨0, 0⟩) v := by
  set A := poly.getD i ⟨0, 0⟩ with hA
  set B0 := poly.getD ((i + 1) % poly.length) ⟨0, 0⟩ with hB0
  have hlen : 0 ≤ vec2f.length B (B0.sub A) :=
    hsqrt _ (add_nonneg (mul_self_nonneg _) (mul_self_nonneg _))
  have ht : 0 ≤ delta / vec2f.length B (B0.sub A) := div_nonneg hdelta hlen
  have hsq : 0 ≤ (B0.x - A.x) * (B0.x - A.x) + (B0.y - A.y) * (B0.y - A.y) :=
    add_nonneg (mul_self_nonneg _) (mul_self_nonneg _)
  simp only [half_space_corners, ← hA, ← hB0, List.mem_cons, List.mem_singleton,
    List.not_mem_nil, or_false] at hv
  rcases hv with h | h | h | h
  · have : orient2d A B0 v = 0 := by
      rw [h]; simp only [orient2d, vec2f.sub, vec2f.add, vec2f.scale, vec2f.normalize]; ring
    rw [this]
  · have : orient2d A B0 v = 0 := by
      rw [h]; simp only [orient2d, vec2f.sub, vec2f.add, vec2f.scale, vec2f.normalize]; ring
    rw [this]
  · have : orient2d A B0 v =
        ((B0.x - A.x) * (B0.x - A.x) + (B0.y - A.y) * (B0.y - A.y)) *
          (delta / vec2f.length B (B0.sub A)) := by
      rw [h]; simp only [orient2d, vec2f.sub, vec2f.add, vec2f.scale, vec2f.normalize]; ring
    rw [this]
    exact mul_nonneg hsq ht
  · have : orient2d A B0 v =
        ((B0.x - A.x) * (B0.x - A.x) + (B0.y - A.y) * (B0.y - A.y)) *
          (delta / vec2f.length B (B0.sub A)) := by
      rw [h]; simp only [orient2d, vec2f.sub, vec2f.add, vec2f.scale, vec2f.normalize]; ring
    rw [this]
    exact mul_nonneg hsq ht

theorem half_space_region_left {K : Type} [LinearOrderedField K] (B : Backend K)
    (hsqrt : ∀ x, 0 ≤ x → 0 ≤ B.sqrt x) (poly : List (vec2f K)) (i : Nat) (q : vec2f K)
    (hq : in_convex_region (half_space B poly (bbox_delta B poly) i) q) :
    0 ≤ orient2d (poly.getD i ⟨0, 0⟩) (poly.getD ((i + 1) % poly.length) ⟨0, 0⟩) q := by
  have hdelta : 0 ≤ bbox_delta B poly :=
    hsqrt _ (add_nonneg (mul_self_nonneg _) (mul_self_nonneg _))
  rw [orient2d_affine]
  apply hq
  intro v hv
  rw [← orient2d_affine]
  exact half_space_corners_left B hsqrt poly _ hdelta i v
    (mem_of_mem_boost_correct_outer _ v hv)

theorem kernel_boost_region {K : Type} [LinearOrderedField K] (B : Backend K)
    (hB : intersection_contained B) (poly : List (vec2f K)) (kb : BoostPolygon K)
    (hkb : kernel_boost B poly = .ok (some kb)) (q : vec2f K)
    (hq : in_convex_region kb q) :
    ∀ h ∈ half_spaces B poly, in_convex_region h q := by
  unfold kernel_boost at hkb
  cases hhs : half_spaces B poly with
  | nil => simp [hhs] at hkb
  | cons h0 hs =>
    rw [hhs] at hkb
    have := intersect_loop_region B hB kb hs h0 hkb q hq
    intro h hh
    rcases List.mem_cons.mp hh with e | e
    · rw [e]; exact this.1
    · exact this.2 h e

/-- Without rounding: with a square root that is non-negative on non-negative
arguments and an intersection routine that returns regions contained in both of its
operands, every vertex of the kernel computed by `polygon_kernel` lies on or to the
left of the supporting line of every directed polygon edge. -/
theorem kernel_vertices_left_of_edges_exact {K : Type} [LinearOrderedField K]
    (B : Backend K) (poly prior : List (vec2f K))
    (hsqrt : ∀ x, 0 ≤ x → 0 ≤ B.sqrt x)
    (hB : intersection_contained B)
    (_hdistinct : ∀ i < poly.length,
      poly.getD i ⟨0, 0⟩ ≠ poly.getD ((i + 1) % poly.length) ⟨0, 0⟩)
    (area : K) (kernel : List (vec2f K))
    (hres : polygon_kernel B poly prior = .ok (area, kernel)) :
    ∀ q ∈ kernel, ∀ i < poly.length,
      0 ≤ orient2d (poly.getD i ⟨0, 0⟩) (poly.getD ((i + 1) % poly.length) ⟨0, 0⟩) q := by
  intro q hq i hi
  cases poly with
  | nil => simp at hi
  | cons p ps =>
    simp only [polygon_kernel, vector_clear] at hres
    cases hkb : kernel_boost B (p :: ps) with
    | error f => simp [hkb] at hres
    | ok o =>
      cases o with
      | none =>
        simp only [hkb, Except.ok.injEq, Prod.mk.injEq] at hres
        rw [← hres.2] at hq
        simp at hq
      | some kb =>
        rw [hkb] at hres
        cases hout : kb.outer with
        | nil => simp [hout, ring_to_kernel] at hres
        | cons r rs =>
          simp only [hout, ring_to_kernel, List.nil_append, Except.ok.injEq,
            Prod.mk.injEq] at hres
          have hmem : q ∈ kb.outer := by
            rw [hout]
            apply List.dropLast_subset
            rw [← hres.2] at hq
            exact List.mem_reverse.mp hq
          have hreg := kernel_boost_region B hB (p :: ps) kb hkb q
            (in_convex_region_of_mem kb q hmem)
          apply half_space_region_left B hsqrt (p :: ps) i q
          apply hreg
          exact List.mem_map.mpr ⟨i, List.mem_range.mpr hi, rfl⟩

theorem common_points_backend_contained : intersection_contained common_points_backend := by
  intro a b r hr q hq
  simp only [common_points_backend] at hr
  split at hr
  · simp at hr
  · rename_i c cs hfilter
    simp only [List.mem_singleton] at hr
    subst hr
    have hsub : ∀ v ∈ c :: cs ++ [c], v ∈ a.outer ∧ v ∈ b.outer := by
      intro v hv
      have hv2 : v ∈ c :: cs := by
        rcases List.mem_append.mp hv with h | h
        · exact h
        · simp only [List.mem_singleton] at h
          rw [h]; exact List.mem_cons_self _ _
      rw [← hfilter] at hv2
      have := List.mem_filter.mp hv2
      exact ⟨this.1, by simpa using this.2⟩
    constructor
    · intro x y z h
      exact hq x y z (fun v hv => h v (hsub v hv).1)
    · intro x y z h
      exact hq x y z (fun v hv => h v (hsub v hv).2)

theorem table_sqrt_nonneg : ∀ x : ℚ, 0 ≤ x → 0 ≤ table_sqrt x := by
  intro x _
  unfold table_sqrt
  split_ifs <;> norm_num

end KernelTheorems

/-! ## Theorems: crease padding -/

section MeshTheorems

theorem map_getD_range {α : Type} (l : List α) (d : α) :
    (List.range l.length).map (fun i => l.getD i d) = l := by
  apply List.ext_getElem
  · simp
  · intro i h1 h2
    simp only [List.getElem_map, List.getElem_range]
    exact List.getD_eq_getElem l d h2

/-- The counter of the handler counts the marked edges among the sides of the poly. -/
theorem marked_count_eq {K : Type} (m : Trimesh K) (pid : Nat) (t : Tri)
    (ht : m.polys[pid]? = some t) :
    marked_count m pid = m.edges.countP (fun e => e.marked && e.on_poly t) := by
  simp only [marked_count, adj_p2e, ht, edge_marked, List.countP_filter]
  conv_rhs => rw [← map_getD_range m.edges ⟨0, 0, false⟩]
  rw [List.countP_map]
  rfl

theorem marked_count_out_of_range {K : Type} (m : Trimesh K) (pid : Nat)
    (ht : m.polys[pid]? = none) : marked_count m pid = 0 := by
  simp [marked_count, adj_p2e, ht]

theorem Edge.joins_iff (e : Edge) (a b : Nat) :
    e.joins a b = true ↔ (e.v0 = a ∧ e.v1 = b) ∨ (e.v0 = b ∧ e.v1 = a) := by
  simp [Edge.joins]

theorem countP_joins_le_one (a b : Nat) :
    ∀ edges : List Edge, edges.Pairwise (fun e f => e.joins f.v0 f.v1 = false) →
      edges.countP (fun e => e.joins a b) ≤ 1
  | [], _ => by simp
  | e :: es, h => by
    rw [List.pairwise_cons] at h
    have ih := countP_joins_le_one a b es h.2
    rw [List.countP_cons]
    by_cases he : e.joins a b = true
    · have hz : es.countP (fun e => e.joins a b) = 0 := by
        rw [List.countP_eq_zero]
        intro f hf hfj
        have hnot := h.1 f hf
        have hyes : e.joins f.v0 f.v1 = true := by
          rw [Edge.joins_iff] at he hfj ⊢
          rcases he with ⟨h1, h2⟩ | ⟨h1, h2⟩ <;> rcases hfj with ⟨h3, h4⟩ | ⟨h3, h4⟩
          · exact Or.inl ⟨h1.trans h3.symm, h2.trans h4.symm⟩
          · exact Or.inr ⟨h1.trans h4.symm, h2.trans h3.symm⟩
          · exact Or.inr ⟨h1.trans h4.symm, h2.trans h3.symm⟩
          · exact Or.inl ⟨h1.trans h3.symm, h2.trans h4.symm⟩
        rw [hyes] at hnot
        exact Bool.noConfusion hnot
      simp [hz, he]
    · simp only [he]
      simpa using ih

/-- The three edges created by a split are unmarked, so they never count. -/
theorem countP_marked_append_new (edges : List Edge) (t : Tri) (x y z nv : Nat) :
    (edges ++ [(⟨x, nv, false⟩ : Edge), ⟨y, nv, false⟩, ⟨z, nv, false⟩]).countP
        (fun e => e.marked && e.on_poly t) =
      edges.countP (fun e => e.marked && e.on_poly t) := by
  simp [List.countP_append, List.countP_cons]

/-- A child `(a, b, nv)` of a split, `nv` being the new vertex, has at most one marked
side among the old edges: only the side `(a, b)` can be an old edge. -/
theorem countP_marked_child_le_one (edges : List Edge) (nv a b : Nat)
    (hrange : ∀ e ∈ edges, e.v0 < nv ∧ e.v1 < nv)
    (hpair : edges.Pairwise (fun e f => e.joins f.v0 f.v1 = false)) :
    edges.countP (fun e => e.marked && e.on_poly ⟨a, b, nv⟩) ≤ 1 := by
  refine le_trans (List.countP_mono_left ?_) (countP_joins_le_one a b edges hpair)
  intro e he hp
  have hr := hrange e he
  simp only [Edge.on_poly, Bool.and_eq_true, Bool.or_eq_true, Edge.joins_iff] at hp
  rw [Edge.joins_iff]
  rcases hp.2 with (h | h) | h
  · exact h
  · rcases h with ⟨_, h2⟩ | ⟨h1, _⟩ <;> omega
  · rcases h with ⟨h1, _⟩ | ⟨_, h2⟩ <;> omega

theorem poly_split_of_none {K : Type} (m : Trimesh K) (pid : Nat) (p : vec3d K)
    (h : m.polys[pid]? = none) : poly_split m pid p = m := by
  simp [poly_split, h]

/-- What a poly of the split mesh is: one of the three children, or a poly of the
old mesh other than the split one, under the same id. -/
theorem poly_split_polys {K : Type} (m : Trimesh K) (pid : Nat) (p : vec3d K) (t : Tri)
    (ht : m.polys[pid]? = some t) (q : Nat) (t2 : Tri)
    (hq : (poly_split m pid p).polys[q]? = some t2) :
    (t2 = ⟨t.v0, t.v1, m.verts.length⟩ ∨ t2 = ⟨t.v1, t.v2, m.verts.length⟩ ∨
      t2 = ⟨t.v2, t.v0, m.verts.length⟩) ∨ (q ≠ pid ∧ m.polys[q]? = some t2) := by
  simp only [poly_split, ht] at hq
  by_cases hlt : q < m.polys.length
  · rw [List.getElem?_append_left (by simpa using hlt), List.getElem?_set] at hq
    by_cases hpq : pid = q
    · subst hpq
      simp only [if_true, hlt] at hq
      exact Or.inl (Or.inl (Option.some.inj hq).symm)
    · simp only [hpq, if_false] at hq
      exact Or.inr ⟨fun h => hpq h.symm, hq⟩
  · rw [List.getElem?_append_right (by simpa using hlt)] at hq
    simp only [List.length_set] at hq
    have hmem := List.getElem?_mem hq
    simp only [List.mem_cons, List.mem_singleton, List.not_mem_nil, or_false] at hmem
    rcases hmem with h | h
    · exact Or.inl (Or.inr (Or.inl h))
    · exact Or.inl (Or.inr (Or.inr h))

/-- A split of a well-formed mesh leaves a well-formed mesh. -/
theorem well_formed_poly_split {K : Type} (m : Trimesh K) (pid : Nat) (p : vec3d K)
    (hwf : well_formed m) : well_formed (poly_split m pid p) := by
  cases ht : m.polys[pid]? with
  | none => rw [poly_split_of_none m pid p ht]; exact hwf
  | some t =>
    obtain ⟨hE, hP, hT, hD⟩ := hwf
    have htm : t ∈ m.polys := List.getElem?_mem ht
    have htr := hT t htm
    have htd := hD t htm
    simp only [poly_split, ht]
    refine ⟨?_, ?_, ?_, ?_⟩
    · intro e he
      simp only [List.mem_append, List.mem_cons, List.mem_singleton, List.not_mem_nil,
        or_false, List.length_append, List.length_singleton] at he ⊢
      rcases he with he | he | he | he
      · have := hE e he; omega
      · subst he; simp; omega
      · subst he; simp; omega
      · subst he; simp; omega
    · rw [List.pairwise_append]
      refine ⟨hP, ?_, ?_⟩
      · simp only [List.pairwise_cons, List.mem_cons, List.mem_singleton, List.not_mem_nil,
          or_false, forall_eq_or_imp, forall_eq, List.Pairwise.nil, and_true,
          IsEmpty.forall_iff, implies_true]
        refine ⟨⟨?_, ?_⟩, ?_⟩ <;>
          · rw [Bool.eq_false_iff]
            intro h
            rw [Edge.joins_iff] at h
            simp only at h
            omega
      · intro e he f hf
        have := hE e he
        simp only [List.mem_cons, List.mem_singleton, List.not_mem_nil, or_false] at hf
        rw [Bool.eq_false_iff]
        intro h
        rw [Edge.joins_iff] at h
        rcases hf with hf | hf | hf <;> subst hf <;> simp only at h <;> omega
    · intro t2 ht2
      simp only [List.mem_append, List.mem_cons, List.mem_singleton, List.not_mem_nil,
        or_false, List.length_append, List.length_singleton] at ht2 ⊢
      rcases ht2 with h | h | h
      · rcases List.mem_or_eq_of_mem_set h with h | h
        · have := hT t2 h; omega
        · subst h; simp; omega
      · subst h; simp; omega
      · subst h; simp; omega
    · intro t2 ht2
      simp only [List.mem_append, List.mem_cons, List.mem_singleton, List.not_mem_nil,
        or_false] at ht2
      rcases ht2 with h | h | h
      · rcases List.mem_or_eq_of_mem_set h with h | h
        · exact hD t2 h
        · subst h; simp; omega
      · subst h; simp; omega
      · subst h; simp; omega

/-- One step of the loop of line 82 keeps the invariant "every poly that is not
waiting to be split has at most one marked side". -/
theorem poly_split_keeps_invariant {K : Type} (m : Trimesh K) (pid : Nat) (p : vec3d K)
    (rest : List Nat) (hwf : well_formed m)
    (hinv : ∀ q, q ∉ pid :: rest → marked_count m q ≤ 1) :
    ∀ q, q ∉ rest → marked_count (poly_split m pid p) q ≤ 1 := by
  intro q hq
  cases ht : m.polys[pid]? with
  | none =>
    rw [poly_split_of_none m pid p ht]
    by_cases hqp : q = pid
    · rw [hqp, marked_count_out_of_range m pid ht]; omega
    · exact hinv q (by simp [hqp, hq])
  | some t =>
    cases ht2 : (poly_split m pid p).polys[q]? with
    | none => rw [marked_count_out_of_range _ q ht2]; omega
    | some t2 =>
      rw [marked_count_eq _ q t2 ht2]
      have hedges : (poly_split m pid p).edges =
          m.edges ++ [(⟨t.v0, m.verts.length, false⟩ : Edge),
            ⟨t.v1, m.verts.length, false⟩, ⟨t.v2, m.verts.length, false⟩] := by
        simp [poly_split, ht]
      rw [hedges, countP_marked_append_new]
      rcases poly_split_polys m pid p t ht q t2 ht2 with (h | h | h) | ⟨hne, hold⟩
      · rw [h]; exact countP_marked_child_le_one _ _ _ _ hwf.1 hwf.2.1
      · rw [h]; exact countP_marked_child_le_one _ _ _ _ hwf.1 hwf.2.1
      · rw [h]; exact countP_marked_child_le_one _ _ _ _ hwf.1 hwf.2.1
      · rw [← marked_count_eq m q t2 hold]
        exact hinv q (by simp [hne, hq])

theorem split_all_invariant {K : Type} [Field K] :
    ∀ (pids : List Nat) (m : Trimesh K), well_formed m →
      (∀ q, q ∉ pids → marked_count m q ≤ 1) →
      ∀ q, marked_count (split_all m pids) q ≤ 1
  | [], m, _, hinv => fun q => by simpa [split_all] using hinv q (by simp)
  | pid :: rest, m, hwf, hinv => by
    have h1 := well_formed_poly_split m pid (poly_centroid m pid) hwf
    have h2 := poly_split_keeps_invariant m pid (poly_centroid m pid) rest hwf hinv
    have := split_all_invariant rest _ h1 h2
    simpa [split_all] using this

theorem mem_split_order {K : Type} (m : Trimesh K) (q : Nat) :
    q ∈ split_order m ↔ q < num_polys m ∧ 1 < marked_count m q := by
  simp only [split_order, SORT_VEC]
  rw [(List.perm_insertionSort (· ≤ ·) (to_split m)).mem_iff]
  simp [to_split]

theorem length_split_order {K : Type} (m : Trimesh K) :
    (split_order m).length = (to_split m).length := by
  simp only [split_order, SORT_VEC]
  exact (List.perm_insertionSort (· ≤ ·) (to_split m)).length_eq

theorem pad_creases_invariant {K : Type} [Field K] (m : Trimesh K) (hwf : well_formed m)
    (q : Nat) : marked_count (pad_creases m) q ≤ 1 := by
  apply split_all_invariant (split_order m) m hwf
  intro q hq
  rw [mem_split_order] at hq
  by_cases hlt : q < num_polys m
  · have : ¬ 1 < marked_count m q := fun h => hq ⟨hlt, h⟩
    omega
  · have hnone : m.polys[q]? = none := by
      rw [List.getElem?_eq_none_iff]
      simpa [num_polys] using hlt
    rw [marked_count_out_of_range m q hnone]; omega

/-- C7: after the crease-padding step on a well-formed triangle mesh, every poly of the
mesh is incident to at most one marked edge. -/
theorem pad_creases_at_most_one_marked {K : Type} [Field K] (m : Trimesh K)
    (hwf : well_formed m) :
    ∀ pid < num_polys (pad_creases m), marked_count (pad_creases m) pid ≤ 1 :=
  fun pid _ => pad_creases_invariant m hwf pid

/-- Witness for `pad_creases_at_most_one_marked`: `example_mesh` is well formed and
both of its triangles are candidates. -/
theorem pad_creases_at_most_one_marked_witness :
    well_formed example_mesh ∧ to_split example_mesh = [0, 1] ∧
      ∀ pid < num_polys (pad_creases example_mesh),
        marked_count (pad_creases example_mesh) pid ≤ 1 :=
  ⟨by decide, by decide, pad_creases_at_most_one_marked example_mesh (by decide)⟩

/-- C8: crease padding is idempotent on a well-formed triangle mesh: in a second run
the candidate list `to_split` is empty, so no poly is split and the mesh is unchanged. -/
theorem pad_creases_idempotent {K : Type} [Field K] (m : Trimesh K)
    (hwf : well_formed m) :
    to_split (pad_creases m) = [] ∧ split_order (pad_creases m) = [] ∧
      pad_creases (pad_creases m) = pad_creases m := by
  have h1 : to_split (pad_creases m) = [] := by
    simp only [to_split, List.filter_eq_nil_iff, List.mem_range, decide_eq_true_eq]
    intro q _
    have := pad_creases_invariant m hwf q
    omega
  have h2 : split_order (pad_creases m) = [] := by
    simp [split_order, SORT_VEC, h1]
  refine ⟨h1, h2, ?_⟩
  conv_lhs => rw [pad_creases, h2]
  rfl

/-- Witness for `pad_creases_idempotent` on `example_mesh`, whose first run splits two
triangles. -/
theorem pad_creases_idempotent_witness :
    well_formed example_mesh ∧ num_polys (pad_creases example_mesh) = 6 ∧
      (to_split (pad_creases example_mesh) = [] ∧ split_order (pad_creases example_mesh) = [] ∧
        pad_creases (pad_creases example_mesh) = pad_creases example_mesh) :=
  ⟨by decide, by decide, pad_creases_idempotent example_mesh (by decide)⟩

theorem poly_split_counts {K : Type} (m : Trimesh K) (pid : Nat) (p : vec3d K)
    (hpid : pid < num_polys m) :
    num_verts (poly_split m pid p) = num_verts m + 1 ∧
      num_polys (poly_split m pid p) = num_polys m + 2 := by
  have : m.polys[pid]? = some (m.polys[pid]) := List.getElem?_eq_getElem hpid
  simp [poly_split, this, num_verts, num_polys]

theorem split_all_counts {K : Type} [Field K] :
    ∀ (pids : List Nat) (m : Trimesh K), (∀ pid ∈ pids, pid < num_polys m) →
      num_verts (split_all m pids) = num_verts m + pids.length ∧
        num_polys (split_all m pids) = num_polys m + 2 * pids.length
  | [], m, _ => by simp [split_all]
  | pid :: rest, m, h => by
    have h1 := poly_split_counts m pid (poly_centroid m pid) (h pid (List.mem_cons_self _ _))
    have h2 := split_all_counts rest (poly_split m pid (poly_centroid m pid)) (by
      intro q hq
      have := h q (List.mem_cons_of_mem _ hq)
      omega)
    simp only [split_all, List.foldl_cons, List.length_cons] at h2 ⊢
    omega

/-- C10: a crease-padding run that finds `k` candidate triangles (`k` the size of
`to_split`) increases the vertex count by exactly `k` and the poly count by exactly
`2k`; each single `poly_split` of an existing triangle adds one vertex and two polys
(one triangle replaced by three children). -/
theorem pad_creases_counts {K : Type} [Field K] (m : Trimesh K) :
    num_verts (pad_creases m) = num_verts m + (to_split m).length ∧
    num_polys (pad_creases m) = num_polys m + 2 * (to_split m).length ∧
    ∀ pid < num_polys m, ∀ p : vec3d K,
      num_verts (poly_split m pid p) = num_verts m + 1 ∧
        num_polys (poly_split m pid p) = num_polys m + 2 := by
  have h := split_all_counts (split_order m) m (fun pid hpid =>
    ((mem_split_order m pid).mp hpid).1)
  rw [length_split_order] at h
  exact ⟨h.1, h.2, fun pid hpid p => poly_split_counts m pid p hpid⟩

end MeshTheorems

/-! ## Theorems: predicates, rays, mouse handler and edge rectangles -/

section PredicateTheorems

theorem orient2d_eq_det {K : Type} [LinearOrderedField K] (a b c : vec2f K) :
    orient2d a b c = (b.x - a.x) * (c.y - a.y) - (b.y - a.y) * (c.x - a.x) := by
  simp only [orient2d]; ring

theorem orient2d_eq_zero_iff_on_common_line {K : Type} [LinearOrderedField K]
    (a b c : vec2f K) : orient2d a b c = 0 ↔ on_common_line a b c := by
  constructor
  · intro h
    rw [orient2d_eq_det] at h
    by_cases hb : b.x - a.x = 0 ∧ b.y - a.y = 0
    · by_cases hc : c.x - a.x = 0 ∧ c.y - a.y = 0
      · refine ⟨1, 0, -a.x, Or.inl one_ne_zero, by ring, ?_, ?_⟩
        · linear_combination hb.1
        · linear_combination hc.1
      · refine ⟨-(c.y - a.y), c.x - a.x, (c.y - a.y) * a.x - (c.x - a.x) * a.y, ?_, by ring,
          ?_, by ring⟩
        · by_contra hcon
          push_neg at hcon
          exact hc ⟨hcon.2, by linear_combination -hcon.1⟩
        · linear_combination (-(c.y - a.y)) * hb.1 + (c.x - a.x) * hb.2
    · refine ⟨-(b.y - a.y), b.x - a.x, (b.y - a.y) * a.x - (b.x - a.x) * a.y, ?_, by ring,
        by ring, ?_⟩
      · by_contra hcon
        push_neg at hcon
        exact hb ⟨hcon.2, by linear_combination -hcon.1⟩
      · linear_combination h
  · rintro ⟨l, m, n, hlm, ha, hb, hc⟩
    rw [orient2d_eq_det]
    have h1 : l * (b.x - a.x) + m * (b.y - a.y) = 0 := by linear_combination hb - ha
    have h2 : l * (c.x - a.x) + m * (c.y - a.y) = 0 := by linear_combination hc - ha
    rcases hlm with hl | hm
    · have : l * ((b.x - a.x) * (c.y - a.y) - (b.y - a.y) * (c.x - a.x)) = 0 := by
        linear_combination (c.y - a.y) * h1 - (b.y - a.y) * h2
      rcases mul_eq_zero.mp this with h | h
      · exact absurd h hl
      · exact h
    · have : m * ((b.x - a.x) * (c.y - a.y) - (b.y - a.y) * (c.x - a.x)) = 0 := by
        linear_combination (b.x - a.x) * h2 - (c.x - a.x) * h1
      rcases mul_eq_zero.mp this with h | h
      · exact absurd h hm
      · exact h

/-- C11: in exact arithmetic `orient2d(a,b,c) = -orient2d(a,c,b)`, `orient2d(a,b,c)` is
twice the shoelace signed area of the triangle `a b c`, it is positive exactly when the
triangle is counter-clockwise (positive signed area) and zero exactly when the three
points lie on a common line. -/
theorem orient2d_antisymm_signed_area {K : Type} [LinearOrderedField K] (a b c : vec2f K) :
    orient2d a b c = -orient2d a c b ∧
    orient2d a b c = 2 * shoelace_area [a, b, c] ∧
    (0 < orient2d a b c ↔ 0 < shoelace_area [a, b, c]) ∧
    (orient2d a b c = 0 ↔ on_common_line a b c) := by
  have harea : orient2d a b c = 2 * shoelace_area [a, b, c] := by
    simp only [orient2d, shoelace_area, cross_sum, cross2, List.cons_append, List.nil_append]
    ring
  refine ⟨?_, harea, ?_, orient2d_eq_zero_iff_on_common_line a b c⟩
  · simp only [orient2d]; ring
  · rw [harea]
    constructor
    · intro h; linarith
    · intro h; linarith

end PredicateTheorems

section PredicateTheorems

variable {K : Type} [LinearOrderedField K]

theorem orient2d_sum (t0 t1 t2 p : vec2f K) :
    orient2d t0 t1 p + orient2d t1 t2 p + orient2d t2 t0 p = orient2d t0 t1 t2 := by
  simp only [orient2d]; ring

theorem orient2d_rotate (t0 t1 t2 : vec2f K) : orient2d t1 t2 t0 = orient2d t0 t1 t2 := by
  simp only [orient2d]; ring

/-- Barycentric weights of a point are read off the three `orient2d` values. -/
theorem orient2d_of_combination (t0 t1 t2 p : vec2f K) (a b c : K) (hsum : a + b + c = 1)
    (hx : p.x = a * t0.x + b * t1.x + c * t2.x) (hy : p.y = a * t0.y + b * t1.y + c * t2.y) :
    orient2d t0 t1 p = c * orient2d t0 t1 t2 ∧ orient2d t1 t2 p = a * orient2d t0 t1 t2 ∧
      orient2d t2 t0 p = b * orient2d t0 t1 t2 := by
  have ha : a = 1 - b - c := by linarith
  subst ha
  simp only [orient2d, hx, hy]
  refine ⟨by ring, by ring, by ring⟩

theorem add_mul_div (a b c x y z d : K) :
    (a * x + b * y + c * z) / d = a / d * x + b / d * y + c / d * z := by
  ring

theorem combination_of_orient2d (t0 t1 t2 p : vec2f K) (hD : orient2d t0 t1 t2 ≠ 0) :
    orient2d t1 t2 p / orient2d t0 t1 t2 + orient2d t2 t0 p / orient2d t0 t1 t2 +
        orient2d t0 t1 p / orient2d t0 t1 t2 = 1 ∧
    p.x = orient2d t1 t2 p / orient2d t0 t1 t2 * t0.x +
        orient2d t2 t0 p / orient2d t0 t1 t2 * t1.x +
        orient2d t0 t1 p / orient2d t0 t1 t2 * t2.x ∧
    p.y = orient2d t1 t2 p / orient2d t0 t1 t2 * t0.y +
        orient2d t2 t0 p / orient2d t0 t1 t2 * t1.y +
        orient2d t0 t1 p / orient2d t0 t1 t2 * t2.y := by
  refine ⟨?_, ?_, ?_⟩
  · rw [← add_div, ← add_div, div_eq_one_iff_eq hD]
    have := orient2d_sum t0 t1 t2 p
    linarith
  · rw [← add_mul_div, eq_div_iff hD]
    simp only [orient2d]
    ring
  · rw [← add_mul_div, eq_div_iff hD]
    simp only [orient2d]
    ring

theorem div_pos_iff_mul_pos (x d : K) (_hd : d ≠ 0) : 0 < x / d ↔ 0 < x * d := by
  rw [div_pos_iff, mul_pos_iff]

theorem div_nonneg_iff_mul_nonneg (x d : K) (hd : d ≠ 0) : 0 ≤ x / d ↔ 0 ≤ x * d := by
  rw [← not_lt, ← not_lt, not_iff_not]
  have h1 : x / d < 0 ↔ 0 < (-x) / d := by rw [neg_div]; constructor <;> intro h <;> linarith
  have h2 : x * d < 0 ↔ 0 < (-x) * d := by rw [neg_mul]; constructor <;> intro h <;> linarith
  rw [h1, h2, div_pos_iff_mul_pos _ _ hd]

theorem mul_pos_of_coeff (c d : K) (hd : d ≠ 0) : 0 < c * d * d ↔ 0 < c := by
  have : 0 < d * d := mul_self_pos.mpr hd
  rw [mul_assoc]
  constructor
  · intro h; exact pos_of_mul_pos_left h this.le
  · intro h; exact mul_pos h this

theorem mul_nonneg_of_coeff (c d : K) (hd : d ≠ 0) : 0 ≤ c * d * d ↔ 0 ≤ c := by
  have : 0 < d * d := mul_self_pos.mpr hd
  rw [mul_assoc]
  constructor
  · intro h; exact nonneg_of_mul_nonneg_left h this
  · intro h; exact mul_nonneg h this.le

theorem in_closed_triangle_iff (t0 t1 t2 p : vec2f K) (hD : orient2d t0 t1 t2 ≠ 0) :
    in_closed_triangle t0 t1 t2 p ↔
      0 ≤ orient2d t0 t1 p * orient2d t0 t1 t2 ∧ 0 ≤ orient2d t1 t2 p * orient2d t0 t1 t2 ∧
        0 ≤ orient2d t2 t0 p * orient2d t0 t1 t2 := by
  constructor
  · rintro ⟨a, b, c, ha, hb, hc, hsum, hx, hy⟩
    obtain ⟨h0, h1, h2⟩ := orient2d_of_combination t0 t1 t2 p a b c hsum hx hy
    rw [h0, h1, h2, mul_nonneg_of_coeff _ _ hD, mul_nonneg_of_coeff _ _ hD,
      mul_nonneg_of_coeff _ _ hD]
    exact ⟨hc, ha, hb⟩
  · rintro ⟨h0, h1, h2⟩
    obtain ⟨hsum, hx, hy⟩ := combination_of_orient2d t0 t1 t2 p hD
    exact ⟨_, _, _, (div_nonneg_iff_mul_nonneg _ _ hD).mpr h1,
      (div_nonneg_iff_mul_nonneg _ _ hD).mpr h2, (div_nonneg_iff_mul_nonneg _ _ hD).mpr h0,
      hsum, hx, hy⟩

theorem in_open_triangle_iff (t0 t1 t2 p : vec2f K) (hD : orient2d t0 t1 t2 ≠ 0) :
    in_open_triangle t0 t1 t2 p ↔
      0 < orient2d t0 t1 p * orient2d t0 t1 t2 ∧ 0 < orient2d t1 t2 p * orient2d t0 t1 t2 ∧
        0 < orient2d t2 t0 p * orient2d t0 t1 t2 := by
  constructor
  · rintro ⟨a, b, c, ha, hb, hc, hsum, hx, hy⟩
    obtain ⟨h0, h1, h2⟩ := orient2d_of_combination t0 t1 t2 p a b c hsum hx hy
    rw [h0, h1, h2, mul_pos_of_coeff _ _ hD, mul_pos_of_coeff _ _ hD, mul_pos_of_coeff _ _ hD]
    exact ⟨hc, ha, hb⟩
  · rintro ⟨h0, h1, h2⟩
    obtain ⟨hsum, hx, hy⟩ := combination_of_orient2d t0 t1 t2 p hD
    exact ⟨_, _, _, (div_pos_iff_mul_pos _ _ hD).mpr h1,
      (div_pos_iff_mul_pos _ _ hD).mpr h2, (div_pos_iff_mul_pos _ _ hD).mpr h0,
      hsum, hx, hy⟩

theorem in_open_segment_iff (t0 t1 t2 p : vec2f K) (hD : orient2d t0 t1 t2 ≠ 0) :
    in_open_segment t0 t1 p ↔
      orient2d t0 t1 p = 0 ∧ 0 < orient2d t1 t2 p * orient2d t0 t1 t2 ∧
        0 < orient2d t2 t0 p * orient2d t0 t1 t2 := by
  constructor
  · rintro ⟨s, hs0, hs1, hx, hy⟩
    obtain ⟨h0, h1, h2⟩ := orient2d_of_combination t0 t1 t2 p (1 - s) s 0 (by ring)
      (by rw [hx]; ring) (by rw [hy]; ring)
    rw [h0, h1, h2, mul_pos_of_coeff _ _ hD, mul_pos_of_coeff _ _ hD]
    exact ⟨by ring, by linarith, hs0⟩
  · rintro ⟨h0, h1, h2⟩
    obtain ⟨hsum, hx, hy⟩ := combination_of_orient2d t0 t1 t2 p hD
    rw [h0, zero_div] at hsum hx hy
    have ha := (div_pos_iff_mul_pos _ _ hD).mpr h1
    have hb := (div_pos_iff_mul_pos _ _ hD).mpr h2
    refine ⟨orient2d t2 t0 p / orient2d t0 t1 t2, hb, by linarith, ?_, ?_⟩
    · rw [hx]
      have : orient2d t1 t2 p / orient2d t0 t1 t2 = 1 - orient2d t2 t0 p / orient2d t0 t1 t2 := by
        linarith
      rw [this]; ring
    · rw [hy]
      have : orient2d t1 t2 p / orient2d t0 t1 t2 = 1 - orient2d t2 t0 p / orient2d t0 t1 t2 := by
        linarith
      rw [this]; ring

theorem eq_vertex_iff (t0 t1 t2 p : vec2f K) (hD : orient2d t0 t1 t2 ≠ 0) :
    p = t0 ↔ orient2d t0 t1 p = 0 ∧ orient2d t2 t0 p = 0 := by
  constructor
  · intro h
    subst h
    simp only [orient2d]
    constructor <;> ring
  · rintro ⟨h0, h2⟩
    obtain ⟨hsum, hx, hy⟩ := combination_of_orient2d t0 t1 t2 p hD
    rw [h0, h2, zero_div, add_zero, add_zero] at hsum
    rw [h0, h2, hsum] at hx hy
    cases p; cases t0
    simp only [vec2f.mk.injEq]
    simp only at hx hy
    constructor
    · rw [hx]; ring
    · rw [hy]; ring

end PredicateTheorems

section PredicateTheorems

variable {K : Type} [LinearOrderedField K]

theorem sign_facts (x : K) :
    (x < 0 ∧ x ≤ 0 ∧ ¬ 0 ≤ x ∧ ¬ 0 < x ∧ ¬ x = 0) ∨ x = 0 ∨
      (0 < x ∧ 0 ≤ x ∧ ¬ x ≤ 0 ∧ ¬ x < 0 ∧ ¬ x = 0) := by
  rcases lt_trichotomy x 0 with h | h | h
  · exact Or.inl ⟨h, h.le, not_le.mpr h, not_lt.mpr h.le, h.ne⟩
  · exact Or.inr (Or.inl h)
  · exact Or.inr (Or.inr ⟨h, h.le, not_le.mpr h, not_lt.mpr h.le, h.ne'⟩)

theorem mul_pos_neg_right (x d : K) (hd : d < 0) : 0 < x * d ↔ x < 0 := by
  constructor
  · intro h
    by_contra hx
    have : x * d ≤ 0 := mul_nonpos_of_nonneg_of_nonpos (not_lt.mp hx) hd.le
    linarith
  · intro h; exact mul_pos_of_neg_of_neg h hd

theorem mul_nonneg_neg_right (x d : K) (hd : d < 0) : 0 ≤ x * d ↔ x ≤ 0 := by
  constructor
  · intro h
    by_contra hx
    have : x * d < 0 := mul_neg_of_pos_of_neg (not_le.mp hx) hd
    linarith
  · intro h; exact mul_nonneg_of_nonpos_of_nonpos h hd.le

/-- The nested tests of `point_in_triangle_2d`, on the three `orient2d` values `x`,
`y`, `z` of the point against the edges and their sum `d`, agree with the signs of the
barycentric weights. -/
theorem triangle_sign_table (x y z d : K) (hsum : x + y + z = d) (hd : d ≠ 0)
    (r : PointInSimplex)
    (hr : r =
      if x = 0 ∧ z = 0 then PointInSimplex.ON_VERT0
      else if y = 0 ∧ x = 0 then PointInSimplex.ON_VERT1
      else if z = 0 ∧ y = 0 then PointInSimplex.ON_VERT2
      else if (0 ≤ x ∧ 0 ≤ y ∧ 0 ≤ z) ∨ (x ≤ 0 ∧ y ≤ 0 ∧ z ≤ 0) then
        if x = 0 then PointInSimplex.ON_EDGE0
        else if y = 0 then PointInSimplex.ON_EDGE1
        else if z = 0 then PointInSimplex.ON_EDGE2
        else PointInSimplex.STRICTLY_INSIDE
      else PointInSimplex.STRICTLY_OUTSIDE) :
    (r = .ON_VERT0 ↔ x = 0 ∧ z = 0) ∧ (r = .ON_VERT1 ↔ y = 0 ∧ x = 0) ∧
    (r = .ON_VERT2 ↔ z = 0 ∧ y = 0) ∧
    (r = .ON_EDGE0 ↔ x = 0 ∧ 0 < y * d ∧ 0 < z * d) ∧
    (r = .ON_EDGE1 ↔ y = 0 ∧ 0 < z * d ∧ 0 < x * d) ∧
    (r = .ON_EDGE2 ↔ z = 0 ∧ 0 < x * d ∧ 0 < y * d) ∧
    (r = .STRICTLY_INSIDE ↔ 0 < x * d ∧ 0 < y * d ∧ 0 < z * d) ∧
    (r = .STRICTLY_OUTSIDE ↔ ¬ (0 ≤ x * d ∧ 0 ≤ y * d ∧ 0 ≤ z * d)) := by
  subst hr
  rcases lt_or_gt_of_ne hd with hneg | hpos
  · simp only [mul_pos_neg_right _ _ hneg, mul_nonneg_neg_right _ _ hneg]
    rcases sign_facts x with ⟨hx1, hx2, hx3, hx4, hx5⟩ | hx | ⟨hx1, hx2, hx3, hx4, hx5⟩ <;>
    rcases sign_facts y with ⟨hy1, hy2, hy3, hy4, hy5⟩ | hy | ⟨hy1, hy2, hy3, hy4, hy5⟩ <;>
    rcases sign_facts z with ⟨hz1, hz2, hz3, hz4, hz5⟩ | hz | ⟨hz1, hz2, hz3, hz4, hz5⟩ <;>
    first
      | (exfalso; subst_vars; linarith)
      | (subst_vars; simp [*])
  · simp only [mul_pos_iff_of_pos_right hpos, mul_nonneg_iff_of_pos_right hpos]
    rcases sign_facts x with ⟨hx1, hx2, hx3, hx4, hx5⟩ | hx | ⟨hx1, hx2, hx3, hx4, hx5⟩ <;>
    rcases sign_facts y with ⟨hy1, hy2, hy3, hy4, hy5⟩ | hy | ⟨hy1, hy2, hy3, hy4, hy5⟩ <;>
    rcases sign_facts z with ⟨hz1, hz2, hz3, hz4, hz5⟩ | hz | ⟨hz1, hz2, hz3, hz4, hz5⟩ <;>
    first
      | (exfalso; subst_vars; linarith)
      | (subst_vars; simp [*])

end PredicateTheorems

section PredicateTheorems

variable {K : Type} [LinearOrderedField K]

theorem triangle_nondegenerate_iff (t0 t1 t2 : vec2f K) :
    triangle_is_degenerate_2d t0 t1 t2 = false ↔ orient2d t0 t1 t2 ≠ 0 := by
  simp [triangle_is_degenerate_2d, points_are_colinear_2d]

/-- All that is used of `point_in_triangle_2d` on a non-degenerate triangle: its tag
against the geometric position of the point. -/
theorem point_in_triangle_2d_table (p t0 t1 t2 : vec2f K)
    (hD : orient2d t0 t1 t2 ≠ 0) :
    (point_in_triangle_2d p t0 t1 t2 = .ON_VERT0 ↔ p = t0) ∧
    (point_in_triangle_2d p t0 t1 t2 = .ON_VERT1 ↔ p = t1) ∧
    (point_in_triangle_2d p t0 t1 t2 = .ON_VERT2 ↔ p = t2) ∧
    (point_in_triangle_2d p t0 t1 t2 = .ON_EDGE0 ↔ in_open_segment t0 t1 p) ∧
    (point_in_triangle_2d p t0 t1 t2 = .ON_EDGE1 ↔ in_open_segment t1 t2 p) ∧
    (point_in_triangle_2d p t0 t1 t2 = .ON_EDGE2 ↔ in_open_segment t2 t0 p) ∧
    (point_in_triangle_2d p t0 t1 t2 = .STRICTLY_INSIDE ↔ in_open_triangle t0 t1 t2 p) ∧
    (point_in_triangle_2d p t0 t1 t2 = .STRICTLY_OUTSIDE ↔ ¬ in_closed_triangle t0 t1 t2 p) := by
  have hD1 : orient2d t1 t2 t0 ≠ 0 := by rwa [orient2d_rotate t0 t1 t2]
  have hD2 : orient2d t2 t0 t1 ≠ 0 := by
    rwa [orient2d_rotate t1 t2 t0, orient2d_rotate t0 t1 t2]
  have v0 := eq_vertex_iff t0 t1 t2 p hD
  have v1 := eq_vertex_iff t1 t2 t0 p hD1
  have v2 := eq_vertex_iff t2 t0 t1 p hD2
  have e0 := in_open_segment_iff t0 t1 t2 p hD
  have e1 := in_open_segment_iff t1 t2 t0 p hD1
  have e2 := in_open_segment_iff t2 t0 t1 p hD2
  rw [orient2d_rotate t0 t1 t2] at e1
  rw [orient2d_rotate t1 t2 t0, orient2d_rotate t0 t1 t2] at e2
  rw [v0, v1, v2, e0, e1, e2, in_open_triangle_iff t0 t1 t2 p hD,
    in_closed_triangle_iff t0 t1 t2 p hD]
  apply triangle_sign_table _ _ _ _ (orient2d_sum t0 t1 t2 p) hD
  simp only [point_in_triangle_2d, vec_equals_2d, decide_eq_true_eq, Bool.or_eq_true, v0, v1, v2]

end PredicateTheorems

section PredicateTheorems

variable {K : Type} [LinearOrderedField K]

theorem point_in_triangle_2d_range (p t0 t1 t2 : vec2f K) :
    point_in_triangle_2d p t0 t1 t2 = .ON_VERT0 ∨ point_in_triangle_2d p t0 t1 t2 = .ON_VERT1 ∨
    point_in_triangle_2d p t0 t1 t2 = .ON_VERT2 ∨ point_in_triangle_2d p t0 t1 t2 = .ON_EDGE0 ∨
    point_in_triangle_2d p t0 t1 t2 = .ON_EDGE1 ∨ point_in_triangle_2d p t0 t1 t2 = .ON_EDGE2 ∨
    point_in_triangle_2d p t0 t1 t2 = .STRICTLY_INSIDE ∨
    point_in_triangle_2d p t0 t1 t2 = .STRICTLY_OUTSIDE := by
  simp only [point_in_triangle_2d]
  split_ifs <;> simp

theorem in_open_triangle_rotate (t0 t1 t2 p : vec2f K) :
    in_open_triangle t1 t2 t0 p ↔ in_open_triangle t0 t1 t2 p := by
  constructor
  · rintro ⟨a, b, c, ha, hb, hc, hsum, hx, hy⟩
    exact ⟨c, a, b, hc, ha, hb, by linarith, by rw [hx]; ring, by rw [hy]; ring⟩
  · rintro ⟨a, b, c, ha, hb, hc, hsum, hx, hy⟩
    exact ⟨b, c, a, hb, hc, ha, by linarith, by rw [hx]; ring, by rw [hy]; ring⟩

theorem in_closed_triangle_rotate (t0 t1 t2 p : vec2f K) :
    in_closed_triangle t1 t2 t0 p ↔ in_closed_triangle t0 t1 t2 p := by
  constructor
  · rintro ⟨a, b, c, ha, hb, hc, hsum, hx, hy⟩
    exact ⟨c, a, b, hc, ha, hb, by linarith, by rw [hx]; ring, by rw [hy]; ring⟩
  · rintro ⟨a, b, c, ha, hb, hc, hsum, hx, hy⟩
    exact ⟨b, c, a, hb, hc, ha, by linarith, by rw [hx]; ring, by rw [hy]; ring⟩

theorem point_in_triangle_2d_rotate (p t0 t1 t2 : vec2f K) (hD : orient2d t0 t1 t2 ≠ 0) :
    point_in_triangle_2d p t1 t2 t0 = (point_in_triangle_2d p t0 t1 t2).relabel_cyclic := by
  have hD1 : orient2d t1 t2 t0 ≠ 0 := by rwa [orient2d_rotate t0 t1 t2]
  obtain ⟨a0, a1, a2, a3, a4, a5, a6, a7⟩ := point_in_triangle_2d_table p t0 t1 t2 hD
  obtain ⟨b0, b1, b2, b3, b4, b5, b6, b7⟩ := point_in_triangle_2d_table p t1 t2 t0 hD1
  rw [in_open_triangle_rotate] at b6
  rw [in_closed_triangle_rotate] at b7
  rcases point_in_triangle_2d_range p t0 t1 t2 with h | h | h | h | h | h | h | h
  · rw [h]; exact b2.mpr (a0.mp h)
  · rw [h]; exact b0.mpr (a1.mp h)
  · rw [h]; exact b1.mpr (a2.mp h)
  · rw [h]; exact b5.mpr (a3.mp h)
  · rw [h]; exact b3.mpr (a4.mp h)
  · rw [h]; exact b4.mpr (a5.mp h)
  · rw [h]; exact b6.mpr (a6.mp h)
  · rw [h]; exact b7.mpr (a7.mp h)

end PredicateTheorems

section SegmentTheorems

variable {K : Type} [LinearOrderedField K]

theorem vec2f_ne_iff {K : Type} (a b : vec2f K) : a ≠ b ↔ a.x ≠ b.x ∨ a.y ≠ b.y := by
  cases a; cases b
  simp only [ne_eq, vec2f.mk.injEq, not_and_or]

/-- Strictly between two distinct numbers means: a proper convex combination. -/
theorem strictly_between_iff (a b x : K) (hab : a ≠ b) :
    (Min.min a b < x ∧ x < Max.max a b) ↔ ∃ s : K, 0 < s ∧ s < 1 ∧ x = a + s * (b - a) := by
  constructor
  · rintro ⟨h1, h2⟩
    refine ⟨(x - a) / (b - a), ?_, ?_, ?_⟩
    · rcases lt_or_gt_of_ne hab with h | h
      · rw [min_eq_left h.le] at h1
        exact div_pos (by linarith) (by linarith)
      · rw [max_eq_left h.le] at h2
        exact div_pos_of_neg_of_neg (by linarith) (by linarith)
    · rcases lt_or_gt_of_ne hab with h | h
      · rw [max_eq_right h.le] at h2
        rw [div_lt_one (by linarith)]; linarith
      · rw [min_eq_right h.le] at h1
        rw [div_lt_one_of_neg (by linarith)]; linarith
    · have : b - a ≠ 0 := sub_ne_zero.mpr (Ne.symm hab)
      field_simp
  · rintro ⟨s, hs0, hs1, hx⟩
    rcases lt_or_gt_of_ne hab with h | h
    · rw [min_eq_left h.le, max_eq_right h.le, hx]
      constructor <;> nlinarith
    · rw [min_eq_right h.le, max_eq_left h.le, hx]
      constructor <;> nlinarith

theorem point_in_segment_2d_inside_iff (p s0 s1 : vec2f K) (hne : s0 ≠ s1) :
    point_in_segment_2d p s0 s1 = .STRICTLY_INSIDE ↔ in_open_segment s0 s1 p := by
  have hdet := orient2d_eq_det s0 s1 p
  constructor
  · intro h
    simp only [point_in_segment_2d, vec_equals_2d, points_are_colinear_2d,
      decide_eq_true_eq, Bool.not_eq_true', decide_eq_false_iff_not] at h
    split_ifs at h with h1 h2 h3 h4
    rw [hdet] at h3
    rcases h4 with hx | hy
    · have hxne : s0.x ≠ s1.x := by
        intro he
        rw [he, min_self, max_self] at hx
        exact lt_irrefl _ (hx.1.trans hx.2)
      obtain ⟨s, hs0, hs1, hs⟩ := (strictly_between_iff _ _ _ hxne).mp hx
      refine ⟨s, hs0, hs1, hs, ?_⟩
      have hd : s1.x - s0.x ≠ 0 := sub_ne_zero.mpr (Ne.symm hxne)
      have : (s1.x - s0.x) * (p.y - (s0.y + s * (s1.y - s0.y))) = 0 := by
        rw [hs] at h3
        linear_combination h3
      rcases mul_eq_zero.mp this with h5 | h5
      · exact absurd h5 hd
      · linarith
    · have hyne : s0.y ≠ s1.y := by
        intro he
        rw [he, min_self, max_self] at hy
        exact lt_irrefl _ (hy.1.trans hy.2)
      obtain ⟨s, hs0, hs1, hs⟩ := (strictly_between_iff _ _ _ hyne).mp hy
      refine ⟨s, hs0, hs1, ?_, hs⟩
      have hd : s1.y - s0.y ≠ 0 := sub_ne_zero.mpr (Ne.symm hyne)
      have : (s1.y - s0.y) * (p.x - (s0.x + s * (s1.x - s0.x))) = 0 := by
        rw [hs] at h3
        linear_combination -h3
      rcases mul_eq_zero.mp this with h5 | h5
      · exact absurd h5 hd
      · linarith
  · rintro ⟨s, hs0, hs1, hx, hy⟩
    have hcol : orient2d s0 s1 p = 0 := by rw [hdet, hx, hy]; ring
    have hp0 : p ≠ s0 := by
      intro he
      rw [he] at hx hy
      have h1 : s * (s1.x - s0.x) = 0 := by linarith
      have h2 : s * (s1.y - s0.y) = 0 := by linarith
      rcases mul_eq_zero.mp h1 with h | h
      · exact absurd h hs0.ne'
      · rcases mul_eq_zero.mp h2 with h' | h'
        · exact absurd h' hs0.ne'
        · apply hne
          cases s0; cases s1
          simp only [vec2f.mk.injEq]
          simp only at h h'
          constructor <;> linarith
    have hp1 : p ≠ s1 := by
      intro he
      rw [he] at hx hy
      have h1 : (1 - s) * (s1.x - s0.x) = 0 := by linarith
      have h2 : (1 - s) * (s1.y - s0.y) = 0 := by linarith
      have hs : (1 - s) ≠ 0 := by intro h; linarith
      rcases mul_eq_zero.mp h1 with h | h
      · exact absurd h hs
      · rcases mul_eq_zero.mp h2 with h' | h'
        · exact absurd h' hs
        · apply hne
          cases s0; cases s1
          simp only [vec2f.mk.injEq]
          simp only at h h'
          constructor <;> linarith
    have hbetween : (Min.min s0.x s1.x < p.x ∧ p.x < Max.max s0.x s1.x) ∨
        (Min.min s0.y s1.y < p.y ∧ p.y < Max.max s0.y s1.y) := by
      rcases (vec2f_ne_iff s0 s1).mp hne with h | h
      · exact Or.inl ((strictly_between_iff _ _ _ h).mpr ⟨s, hs0, hs1, hx⟩)
      · exact Or.inr ((strictly_between_iff _ _ _ h).mpr ⟨s, hs0, hs1, hy⟩)
    have e0 : vec_equals_2d p s0 = false := by simp [vec_equals_2d, hp0]
    have e1 : vec_equals_2d p s1 = false := by simp [vec_equals_2d, hp1]
    have e2 : points_are_colinear_2d s0 s1 p = true := by simp [points_are_colinear_2d, hcol]
    simp only [point_in_segment_2d, e0, e1, e2, Bool.false_eq_true, if_false, Bool.not_true,
      if_pos hbetween]

end SegmentTheorems

section SegmentTheorems

variable {K : Type} [LinearOrderedField K]

theorem orient2d_affine_third (a b s0 s1 p : vec2f K) (t : K)
    (hx : p.x = s0.x + t * (s1.x - s0.x)) (hy : p.y = s0.y + t * (s1.y - s0.y)) :
    orient2d a b p = (1 - t) * orient2d a b s0 + t * orient2d a b s1 := by
  simp only [orient2d, hx, hy]; ring

theorem orient2d_on_own_line (a b p : vec2f K) (s : K)
    (hx : p.x = a.x + s * (b.x - a.x)) (hy : p.y = a.y + s * (b.y - a.y)) :
    orient2d a b p = 0 := by
  simp only [orient2d, hx, hy]; ring

theorem vec2f_eq_of_coords {K : Type} (p q : vec2f K) (hx : p.x = q.x) (hy : p.y = q.y) : p = q := by
  cases p; cases q
  simp only [vec2f.mk.injEq]
  exact ⟨hx, hy⟩

theorem on_segment_left (a b : vec2f K) : on_segment a b a :=
  ⟨0, le_refl 0, zero_le_one, by ring, by ring⟩

theorem on_segment_right (a b : vec2f K) : on_segment a b b :=
  ⟨1, zero_le_one, le_refl 1, by ring, by ring⟩

/-- If both endpoints of one segment lie on the line of the other (non-degenerate)
segment, the endpoints of the other lie on the line of the first. -/
theorem colinear_transfer (s00 s01 s10 s11 : vec2f K) (hne1 : s10 ≠ s11)
    (h0 : orient2d s10 s11 s00 = 0) (h1 : orient2d s10 s11 s01 = 0) :
    orient2d s00 s01 s10 = 0 ∧ orient2d s00 s01 s11 = 0 := by
  have hx : (s11.x - s10.x) * orient2d s00 s01 s10 = 0 := by
    simp only [orient2d] at h0 h1 ⊢
    linear_combination (s00.x - s10.x) * h1 - (s01.x - s10.x) * h0
  have hy : (s11.y - s10.y) * orient2d s00 s01 s10 = 0 := by
    simp only [orient2d] at h0 h1 ⊢
    linear_combination (s00.y - s10.y) * h1 - (s01.y - s10.y) * h0
  have hz : orient2d s00 s01 s10 = 0 := by
    rcases (vec2f_ne_iff s10 s11).mp hne1 with h | h
    · rcases mul_eq_zero.mp hx with h' | h'
      · exact absurd (sub_eq_zero.mp h').symm h
      · exact h'
    · rcases mul_eq_zero.mp hy with h' | h'
      · exact absurd (sub_eq_zero.mp h').symm h
      · exact h'
  refine ⟨hz, ?_⟩
  have : orient2d s00 s01 s11 = orient2d s00 s01 s10 + orient2d s10 s11 s00
      - orient2d s10 s11 s01 := by
    simp only [orient2d]; ring
  rw [this, hz, h0, h1]; ring

theorem prod_nonpos_of_weighted_zero (a b t : K) (ht0 : 0 ≤ t) (ht1 : t ≤ 1)
    (h : (1 - t) * a + t * b = 0) : a * b ≤ 0 := by
  have e : a * b = -(t * b ^ 2 + (1 - t) * a ^ 2) := by linear_combination (a + b) * h
  have h1 : 0 ≤ t * b ^ 2 := mul_nonneg ht0 (sq_nonneg b)
  have h2 : 0 ≤ (1 - t) * a ^ 2 := mul_nonneg (by linarith) (sq_nonneg a)
  rw [e]; linarith

theorem segments_meet_signs (s00 s01 s10 s11 : vec2f K)
    (h : segments_meet s00 s01 s10 s11) :
    orient2d s10 s11 s00 * orient2d s10 s11 s01 ≤ 0 ∧
      orient2d s00 s01 s10 * orient2d s00 s01 s11 ≤ 0 := by
  obtain ⟨p, ⟨t, ht0, ht1, htx, hty⟩, ⟨s, hs0, hs1, hsx, hsy⟩⟩ := h
  constructor
  · apply prod_nonpos_of_weighted_zero _ _ t ht0 ht1
    rw [← orient2d_affine_third s10 s11 s00 s01 p t htx hty]
    exact orient2d_on_own_line s10 s11 p s hsx hsy
  · apply prod_nonpos_of_weighted_zero _ _ s hs0 hs1
    rw [← orient2d_affine_third s00 s01 s10 s11 p s hsx hsy]
    exact orient2d_on_own_line s00 s01 p t htx hty

theorem ratio_in_unit (a b : K) (hab : a * b ≤ 0) (hne : a - b ≠ 0) :
    0 ≤ a / (a - b) ∧ a / (a - b) ≤ 1 := by
  have hpos : 0 < (a - b) ^ 2 := by positivity
  constructor
  · rw [div_nonneg_iff_mul_nonneg _ _ hne]
    nlinarith [sq_nonneg a]
  · have : 1 - a / (a - b) = (-b) / (a - b) := by field_simp
    have h2 : 0 ≤ (-b) / (a - b) := by
      rw [div_nonneg_iff_mul_nonneg _ _ hne]
      nlinarith [sq_nonneg b]
    linarith

theorem cramer_aux (u v a b X c1 c2 : K) (hX : X ≠ 0)
    (h : X * (u - v) + a * c1 + b * c2 = 0) : u + a / X * c1 = v + b / (-X) * c2 := by
  rw [div_neg]
  field_simp
  linear_combination h

theorem segments_meet_of_signs (s00 s01 s10 s11 : vec2f K)
    (hA : ¬ (orient2d s10 s11 s00 = 0 ∧ orient2d s10 s11 s01 = 0))
    (hB : ¬ (orient2d s00 s01 s10 = 0 ∧ orient2d s00 s01 s11 = 0))
    (h0 : orient2d s10 s11 s00 * orient2d s10 s11 s01 ≤ 0)
    (h1 : orient2d s00 s01 s10 * orient2d s00 s01 s11 ≤ 0) :
    segments_meet s00 s01 s10 s11 := by
  have hX : orient2d s10 s11 s00 - orient2d s10 s11 s01 ≠ 0 := by
    intro h
    have e : orient2d s10 s11 s00 = orient2d s10 s11 s01 := sub_eq_zero.mp h
    rw [e] at h0
    have : orient2d s10 s11 s01 = 0 := by
      have := mul_self_nonneg (orient2d s10 s11 s01)
      exact mul_self_eq_zero.mp (le_antisymm h0 this)
    exact hA ⟨by rw [e, this], this⟩
  have hY : orient2d s00 s01 s10 - orient2d s00 s01 s11 ≠ 0 := by
    intro h
    have e : orient2d s00 s01 s10 = orient2d s00 s01 s11 := sub_eq_zero.mp h
    rw [e] at h1
    have : orient2d s00 s01 s11 = 0 := by
      have := mul_self_nonneg (orient2d s00 s01 s11)
      exact mul_self_eq_zero.mp (le_antisymm h1 this)
    exact hB ⟨by rw [e, this], this⟩
  have hXY : orient2d s00 s01 s10 - orient2d s00 s01 s11 =
      -(orient2d s10 s11 s00 - orient2d s10 s11 s01) := by
    simp only [orient2d]; ring
  obtain ⟨ht0, ht1⟩ := ratio_in_unit _ _ h0 hX
  obtain ⟨hs0, hs1⟩ := ratio_in_unit _ _ h1 hY
  refine ⟨⟨s00.x + orient2d s10 s11 s00 / (orient2d s10 s11 s00 - orient2d s10 s11 s01) *
      (s01.x - s00.x),
    s00.y + orient2d s10 s11 s00 / (orient2d s10 s11 s00 - orient2d s10 s11 s01) *
      (s01.y - s00.y)⟩, ⟨_, ht0, ht1, rfl, rfl⟩, ⟨_, hs0, hs1, ?_, ?_⟩⟩
  · rw [hXY]
    apply cramer_aux _ _ _ _ _ _ _ hX
    simp only [orient2d]
    ring
  · rw [hXY]
    apply cramer_aux _ _ _ _ _ _ _ hX
    simp only [orient2d]
    ring

theorem common_point_unique (s00 s01 s10 s11 p q : vec2f K)
    (hA : ¬ (orient2d s10 s11 s00 = 0 ∧ orient2d s10 s11 s01 = 0))
    (hp0 : on_segment s00 s01 p) (hp1 : on_segment s10 s11 p)
    (hq0 : on_segment s00 s01 q) (hq1 : on_segment s10 s11 q) : p = q := by
  obtain ⟨t, -, -, htx, hty⟩ := hp0
  obtain ⟨s, -, -, hsx, hsy⟩ := hp1
  obtain ⟨t2, -, -, htx2, hty2⟩ := hq0
  obtain ⟨s2, -, -, hsx2, hsy2⟩ := hq1
  have e1 : (1 - t) * orient2d s10 s11 s00 + t * orient2d s10 s11 s01 = 0 := by
    rw [← orient2d_affine_third s10 s11 s00 s01 p t htx hty]
    exact orient2d_on_own_line s10 s11 p s hsx hsy
  have e2 : (1 - t2) * orient2d s10 s11 s00 + t2 * orient2d s10 s11 s01 = 0 := by
    rw [← orient2d_affine_third s10 s11 s00 s01 q t2 htx2 hty2]
    exact orient2d_on_own_line s10 s11 q s2 hsx2 hsy2
  have hX : orient2d s10 s11 s00 - orient2d s10 s11 s01 ≠ 0 := by
    intro h
    have e : orient2d s10 s11 s00 = orient2d s10 s11 s01 := sub_eq_zero.mp h
    rw [e] at e1
    have : orient2d s10 s11 s01 = 0 := by linear_combination e1
    exact hA ⟨by rw [e, this], this⟩
  have htt : t = t2 := by
    have : (t - t2) * (orient2d s10 s11 s00 - orient2d s10 s11 s01) = 0 := by
      linear_combination e2 - e1
    rcases mul_eq_zero.mp this with h | h
    · exact sub_eq_zero.mp h
    · exact absurd h hX
  apply vec2f_eq_of_coords
  · rw [htx, htx2, htt]
  · rw [hty, hty2, htt]

end SegmentTheorems

section SegmentTheorems

variable {K : Type} [LinearOrderedField K]

/-- A point on the line of a non-degenerate segment has a parameter on that line. -/
theorem colinear_param (s0 s1 q : vec2f K) (hne : s0 ≠ s1) (h : orient2d s0 s1 q = 0) :
    ∃ t : K, q.x = s0.x + t * (s1.x - s0.x) ∧ q.y = s0.y + t * (s1.y - s0.y) := by
  rw [orient2d_eq_det] at h
  rcases (vec2f_ne_iff s0 s1).mp hne with hx | hy
  · have hd : s1.x - s0.x ≠ 0 := sub_ne_zero.mpr (Ne.symm hx)
    refine ⟨(q.x - s0.x) / (s1.x - s0.x), by field_simp, ?_⟩
    field_simp
    linear_combination h
  · have hd : s1.y - s0.y ≠ 0 := sub_ne_zero.mpr (Ne.symm hy)
    refine ⟨(q.y - s0.y) / (s1.y - s0.y), ?_, by field_simp⟩
    field_simp
    linear_combination -h

/-- Points given by parameters on a common line: equality is equality of parameters. -/
theorem param_eq_iff (ox oy dx dy : K) (hd : dx ≠ 0 ∨ dy ≠ 0) (a b : vec2f K) (α β : K)
    (hax : a.x = ox + α * dx) (hay : a.y = oy + α * dy)
    (hbx : b.x = ox + β * dx) (hby : b.y = oy + β * dy) : a = b ↔ α = β := by
  constructor
  · intro h
    rw [h] at hax hay
    rcases hd with h1 | h1
    · have : (α - β) * dx = 0 := by linear_combination hbx - hax
      rcases mul_eq_zero.mp this with h2 | h2
      · exact sub_eq_zero.mp h2
      · exact absurd h2 h1
    · have : (α - β) * dy = 0 := by linear_combination hby - hay
      rcases mul_eq_zero.mp this with h2 | h2
      · exact sub_eq_zero.mp h2
      · exact absurd h2 h1
  · intro h
    apply vec2f_eq_of_coords
    · rw [hax, hbx, h]
    · rw [hay, hby, h]

theorem param_on_segment_iff (ox oy dx dy : K) (hd : dx ≠ 0 ∨ dy ≠ 0) (a b q : vec2f K)
    (α β τ : K)
    (hax : a.x = ox + α * dx) (hay : a.y = oy + α * dy)
    (hbx : b.x = ox + β * dx) (hby : b.y = oy + β * dy)
    (hqx : q.x = ox + τ * dx) (hqy : q.y = oy + τ * dy) :
    on_segment a b q ↔ ∃ s : K, 0 ≤ s ∧ s ≤ 1 ∧ τ = α + s * (β - α) := by
  constructor
  · rintro ⟨s, hs0, hs1, hx, hy⟩
    refine ⟨s, hs0, hs1, ?_⟩
    rcases hd with h1 | h1
    · have : (τ - (α + s * (β - α))) * dx = 0 := by
        linear_combination hx - hqx + (1 - s) * hax + s * hbx
      rcases mul_eq_zero.mp this with h2 | h2
      · exact sub_eq_zero.mp h2
      · exact absurd h2 h1
    · have : (τ - (α + s * (β - α))) * dy = 0 := by
        linear_combination hy - hqy + (1 - s) * hay + s * hby
      rcases mul_eq_zero.mp this with h2 | h2
      · exact sub_eq_zero.mp h2
      · exact absurd h2 h1
  · rintro ⟨s, hs0, hs1, hτ⟩
    refine ⟨s, hs0, hs1, ?_, ?_⟩
    · rw [hqx, hax, hbx, hτ]; ring
    · rw [hqy, hay, hby, hτ]; ring

theorem param_in_open_segment_iff (ox oy dx dy : K) (hd : dx ≠ 0 ∨ dy ≠ 0) (a b q : vec2f K)
    (α β τ : K)
    (hax : a.x = ox + α * dx) (hay : a.y = oy + α * dy)
    (hbx : b.x = ox + β * dx) (hby : b.y = oy + β * dy)
    (hqx : q.x = ox + τ * dx) (hqy : q.y = oy + τ * dy) :
    in_open_segment a b q ↔ ∃ s : K, 0 < s ∧ s < 1 ∧ τ = α + s * (β - α) := by
  constructor
  · rintro ⟨s, hs0, hs1, hx, hy⟩
    refine ⟨s, hs0, hs1, ?_⟩
    rcases hd with h1 | h1
    · have : (τ - (α + s * (β - α))) * dx = 0 := by
        linear_combination hx - hqx + (1 - s) * hax + s * hbx
      rcases mul_eq_zero.mp this with h2 | h2
      · exact sub_eq_zero.mp h2
      · exact absurd h2 h1
    · have : (τ - (α + s * (β - α))) * dy = 0 := by
        linear_combination hy - hqy + (1 - s) * hay + s * hby
      rcases mul_eq_zero.mp this with h2 | h2
      · exact sub_eq_zero.mp h2
      · exact absurd h2 h1
  · rintro ⟨s, hs0, hs1, hτ⟩
    refine ⟨s, hs0, hs1, ?_, ?_⟩
    · rw [hqx, hax, hbx, hτ]; ring
    · rw [hqy, hay, hby, hτ]; ring

/-- Closed range between two numbers, in either order. -/
theorem between_closed_iff (α β τ : K) :
    (∃ s : K, 0 ≤ s ∧ s ≤ 1 ∧ τ = α + s * (β - α)) ↔
      (α ≤ τ ∧ τ ≤ β) ∨ (β ≤ τ ∧ τ ≤ α) := by
  constructor
  · rintro ⟨s, hs0, hs1, rfl⟩
    rcases le_total α β with h | h
    · left; constructor <;> nlinarith
    · right; constructor <;> nlinarith
  · intro h
    by_cases hab : α = β
    · subst hab
      refine ⟨0, le_refl 0, zero_le_one, ?_⟩
      rcases h with h | h <;> linarith
    · have hne : β - α ≠ 0 := sub_ne_zero.mpr (Ne.symm hab)
      refine ⟨(τ - α) / (β - α), ?_, ?_, by field_simp⟩
      · rcases h with h | h
        · exact div_nonneg (by linarith) (by linarith)
        · exact div_nonneg_of_nonpos (by linarith) (by linarith)
      · rcases h with h | h
        · have : 0 < β - α := lt_of_le_of_ne (by linarith) (Ne.symm hne)
          rw [div_le_one this]; linarith
        · have : β - α < 0 := lt_of_le_of_ne (by linarith) hne
          rw [div_le_one_of_neg this]; linarith

/-- Open range between two distinct numbers, in either order. -/
theorem between_open_iff (α β τ : K) (hab : α ≠ β) :
    (∃ s : K, 0 < s ∧ s < 1 ∧ τ = α + s * (β - α)) ↔
      (α < τ ∧ τ < β) ∨ (β < τ ∧ τ < α) := by
  have h := strictly_between_iff α β τ hab
  rw [← h]
  rcases lt_or_gt_of_ne hab with h1 | h1
  · rw [min_eq_left h1.le, max_eq_right h1.le]
    constructor
    · intro h2; exact Or.inl h2
    · rintro (h2 | h2)
      · exact h2
      · exfalso; linarith [h2.1, h2.2]
  · rw [min_eq_right h1.le, max_eq_left h1.le]
    constructor
    · intro h2; exact Or.inr h2
    · rintro (h2 | h2)
      · exfalso; linarith [h2.1, h2.2]
      · exact h2

end SegmentTheorems

section SegmentTheorems

variable {K : Type} [LinearOrderedField K]

theorem cmp_facts (x c : K) :
    (x < c ∧ x ≤ c ∧ ¬ c ≤ x ∧ ¬ c < x ∧ ¬ x = c ∧ ¬ c = x) ∨ x = c ∨
      (c < x ∧ c ≤ x ∧ ¬ x ≤ c ∧ ¬ x < c ∧ ¬ x = c ∧ ¬ c = x) := by
  rcases lt_trichotomy x c with h | h | h
  · exact Or.inl ⟨h, h.le, not_le.mpr h, not_lt.mpr h.le, h.ne, h.ne'⟩
  · exact Or.inr (Or.inl h)
  · exact Or.inr (Or.inr ⟨h, h.le, not_le.mpr h, not_lt.mpr h.le, h.ne', h.ne⟩)

/-- Two ranges `[0,1]` and `[lo,hi]` of the line meet exactly when `lo ≤ 1` and
`0 ≤ hi`. -/
theorem range_meet_iff (lo hi : K) (h : lo < hi) :
    (∃ τ : K, 0 ≤ τ ∧ τ ≤ 1 ∧ lo ≤ τ ∧ τ ≤ hi) ↔ lo ≤ 1 ∧ 0 ≤ hi := by
  constructor
  · rintro ⟨τ, h0, h1, h2, h3⟩
    exact ⟨by linarith, by linarith⟩
  · rintro ⟨h1, h2⟩
    exact ⟨Max.max 0 lo, le_max_left _ _, max_le zero_le_one h1, le_max_right _ _,
      max_le h2 h.le⟩

theorem range_single_shared_iff (lo hi : K) (h : lo < hi) :
    (∃ τe : K, (τe = 0 ∨ τe = 1) ∧ (τe = lo ∨ τe = hi) ∧
        ∀ τ : K, 0 ≤ τ → τ ≤ 1 → lo ≤ τ → τ ≤ hi → τ = τe) ↔ hi = 0 ∨ lo = 1 := by
  constructor
  · rintro ⟨τe, h1, h2, h3⟩
    rcases h1 with h1 | h1 <;> rcases h2 with h2 | h2
    · -- `τe = 0 = lo`: then `min hi 1` is another common parameter
      exfalso
      have hlo : lo = 0 := by rw [← h2, h1]
      have := h3 (Min.min hi 1) (le_min (by linarith) zero_le_one) (min_le_right _ _)
        (le_min h.le (by linarith)) (min_le_left _ _)
      rw [h1] at this
      rcases min_choice hi 1 with hm | hm
      · rw [hm] at this; linarith
      · rw [hm] at this; exact one_ne_zero this
    · exact Or.inl (by rw [← h2, h1])
    · exact Or.inr (by rw [← h2, h1])
    · exfalso
      have hhi : hi = 1 := by rw [← h2, h1]
      have := h3 (Max.max lo 0) (le_max_right _ _) (max_le (by linarith) zero_le_one)
        (le_max_left _ _) (max_le h.le (by linarith))
      rw [h1] at this
      rcases max_choice lo 0 with hm | hm
      · rw [hm] at this; linarith
      · rw [hm] at this; exact zero_ne_one this
  · rintro (h1 | h1)
    · exact ⟨0, Or.inl rfl, Or.inr h1.symm, fun τ h0 _ _ h4 => by linarith⟩
    · exact ⟨1, Or.inr rfl, Or.inl h1.symm, fun τ _ h3 h4 _ => by linarith⟩

theorem range_two_points_iff (lo hi : K) (h : lo < hi) :
    (∃ τ τ2 : K, τ ≠ τ2 ∧ (0 ≤ τ ∧ τ ≤ 1 ∧ lo ≤ τ ∧ τ ≤ hi) ∧
        (0 ≤ τ2 ∧ τ2 ≤ 1 ∧ lo ≤ τ2 ∧ τ2 ≤ hi)) ↔ lo < 1 ∧ 0 < hi := by
  constructor
  · rintro ⟨τ, τ2, hne, ⟨a0, a1, a2, a3⟩, ⟨b0, b1, b2, b3⟩⟩
    rcases lt_or_gt_of_ne hne with h1 | h1
    · exact ⟨by linarith, by linarith⟩
    · exact ⟨by linarith, by linarith⟩
  · rintro ⟨h1, h2⟩
    have hlt : Max.max 0 lo < Min.min 1 hi :=
      lt_min (max_lt zero_lt_one h1) (max_lt h2 h)
    refine ⟨Max.max 0 lo, Min.min 1 hi, hlt.ne, ⟨le_max_left _ _, ?_, le_max_right _ _, ?_⟩,
      ⟨?_, min_le_left _ _, ?_, min_le_right _ _⟩⟩
    · exact max_le zero_le_one h1.le
    · exact max_le h2.le h.le
    · exact le_min zero_le_one h2.le
    · exact le_min h1.le h.le

/-- The colinear branch of `segment_segment_classify_2d`, on the parameters `α`, `β`
of the endpoints of the second segment along the first, for `α < β`. -/
theorem colinear_table_lt (α β : K) (h : α < β) (r : SimplexIntersection)
    (hr : r =
      if (0 = α ∧ 1 = β) ∨ (0 = β ∧ 1 = α) then SimplexIntersection.SIMPLICIAL_COMPLEX
      else if ((α < 0 ∧ 0 < β) ∨ (β < 0 ∧ 0 < α)) ∨ ((α < 1 ∧ 1 < β) ∨ (β < 1 ∧ 1 < α)) ∨
          ((0 < α ∧ α < 1) ∨ (1 < α ∧ α < 0)) ∨ ((0 < β ∧ β < 1) ∨ (1 < β ∧ β < 0))
        then SimplexIntersection.OVERLAP
      else if 0 = α ∨ 0 = β ∨ 1 = α ∨ 1 = β then SimplexIntersection.SIMPLICIAL_COMPLEX
      else SimplexIntersection.DO_NOT_INTERSECT) :
    (r = .DO_NOT_INTERSECT ↔ ¬ (α ≤ 1 ∧ 0 ≤ β)) ∧
    (r = .SIMPLICIAL_COMPLEX ↔ ((0 = α ∧ 1 = β) ∨ (0 = β ∧ 1 = α)) ∨ (β = 0 ∨ α = 1)) ∧
    (r = .OVERLAP ↔ ¬ ((0 = α ∧ 1 = β) ∨ (0 = β ∧ 1 = α)) ∧ (α < 1 ∧ 0 < β)) ∧
    (r = .INTERSECT ↔ False) := by
  subst hr
  rcases cmp_facts α 0 with ⟨a1, a2, a3, a4, a5, a6⟩ | ha0 | ⟨a1, a2, a3, a4, a5, a6⟩ <;>
  rcases cmp_facts α 1 with ⟨b1, b2, b3, b4, b5, b6⟩ | ha1 | ⟨b1, b2, b3, b4, b5, b6⟩ <;>
  rcases cmp_facts β 0 with ⟨c1, c2, c3, c4, c5, c6⟩ | hb0 | ⟨c1, c2, c3, c4, c5, c6⟩ <;>
  rcases cmp_facts β 1 with ⟨d1, d2, d3, d4, d5, d6⟩ | hb1 | ⟨d1, d2, d3, d4, d5, d6⟩ <;>
  first
    | (exfalso; linarith)
    | (subst_vars; simp [*])

theorem colinear_table_gt (α β : K) (h : β < α) (r : SimplexIntersection)
    (hr : r =
      if (0 = α ∧ 1 = β) ∨ (0 = β ∧ 1 = α) then SimplexIntersection.SIMPLICIAL_COMPLEX
      else if ((α < 0 ∧ 0 < β) ∨ (β < 0 ∧ 0 < α)) ∨ ((α < 1 ∧ 1 < β) ∨ (β < 1 ∧ 1 < α)) ∨
          ((0 < α ∧ α < 1) ∨ (1 < α ∧ α < 0)) ∨ ((0 < β ∧ β < 1) ∨ (1 < β ∧ β < 0))
        then SimplexIntersection.OVERLAP
      else if 0 = α ∨ 0 = β ∨ 1 = α ∨ 1 = β then SimplexIntersection.SIMPLICIAL_COMPLEX
      else SimplexIntersection.DO_NOT_INTERSECT) :
    (r = .DO_NOT_INTERSECT ↔ ¬ (β ≤ 1 ∧ 0 ≤ α)) ∧
    (r = .SIMPLICIAL_COMPLEX ↔ ((0 = α ∧ 1 = β) ∨ (0 = β ∧ 1 = α)) ∨ (α = 0 ∨ β = 1)) ∧
    (r = .OVERLAP ↔ ¬ ((0 = α ∧ 1 = β) ∨ (0 = β ∧ 1 = α)) ∧ (β < 1 ∧ 0 < α)) ∧
    (r = .INTERSECT ↔ False) := by
  subst hr
  rcases cmp_facts α 0 with ⟨a1, a2, a3, a4, a5, a6⟩ | ha0 | ⟨a1, a2, a3, a4, a5, a6⟩ <;>
  rcases cmp_facts α 1 with ⟨b1, b2, b3, b4, b5, b6⟩ | ha1 | ⟨b1, b2, b3, b4, b5, b6⟩ <;>
  rcases cmp_facts β 0 with ⟨c1, c2, c3, c4, c5, c6⟩ | hb0 | ⟨c1, c2, c3, c4, c5, c6⟩ <;>
  rcases cmp_facts β 1 with ⟨d1, d2, d3, d4, d5, d6⟩ | hb1 | ⟨d1, d2, d3, d4, d5, d6⟩ <;>
  first
    | (exfalso; linarith)
    | (subst_vars; simp [*])

end SegmentTheorems

section SegmentTheorems

variable {K : Type} [LinearOrderedField K]

/-- Colinear segments, the second with endpoints at parameters `α`, `β` along the
first (whose endpoints are at `0` and `1`) and `lo < hi` these two parameters in
order: what the segments have in common, read on the parameters. -/
theorem colinear_common (s00 s01 s10 s11 : vec2f K) (hne0 : s00 ≠ s01) (α β lo hi : K)
    (hαx : s10.x = s00.x + α * (s01.x - s00.x)) (hαy : s10.y = s00.y + α * (s01.y - s00.y))
    (hβx : s11.x = s00.x + β * (s01.x - s00.x)) (hβy : s11.y = s00.y + β * (s01.y - s00.y))
    (hlt : lo < hi) (hends : (α = lo ∧ β = hi) ∨ (α = hi ∧ β = lo)) :
    (segments_meet s00 s01 s10 s11 ↔ lo ≤ 1 ∧ 0 ≤ hi) ∧
    (segments_meet_only_at_shared_endpoint s00 s01 s10 s11 ↔ hi = 0 ∨ lo = 1) ∧
    ((∃ p q, p ≠ q ∧ on_segment s00 s01 p ∧ on_segment s10 s11 p ∧
        on_segment s00 s01 q ∧ on_segment s10 s11 q) ↔ lo < 1 ∧ 0 < hi) := by
  have hd : s01.x - s00.x ≠ 0 ∨ s01.y - s00.y ≠ 0 := by
    rcases (vec2f_ne_iff s00 s01).mp hne0 with h | h
    · exact Or.inl (sub_ne_zero.mpr (Ne.symm h))
    · exact Or.inr (sub_ne_zero.mpr (Ne.symm h))
  have p0x : s00.x = s00.x + 0 * (s01.x - s00.x) := by ring
  have p0y : s00.y = s00.y + 0 * (s01.y - s00.y) := by ring
  have p1x : s01.x = s00.x + 1 * (s01.x - s00.x) := by ring
  have p1y : s01.y = s00.y + 1 * (s01.y - s00.y) := by ring
  have hbetween : ∀ τ : K, ((α ≤ τ ∧ τ ≤ β) ∨ (β ≤ τ ∧ τ ≤ α)) ↔ (lo ≤ τ ∧ τ ≤ hi) := by
    intro τ
    rcases hends with ⟨h1, h2⟩ | ⟨h1, h2⟩
    · subst h1 h2
      constructor
      · rintro (h | h)
        · exact h
        · exfalso; linarith [h.1, h.2]
      · intro h; exact Or.inl h
    · subst h1 h2
      constructor
      · rintro (h | h)
        · exfalso; linarith [h.1, h.2]
        · exact h
      · intro h; exact Or.inr h
  -- a point with parameter `τ` along the first segment
  have hon0 : ∀ (p : vec2f K) (τ : K), p.x = s00.x + τ * (s01.x - s00.x) →
      p.y = s00.y + τ * (s01.y - s00.y) → (on_segment s00 s01 p ↔ 0 ≤ τ ∧ τ ≤ 1) := by
    intro p τ hx hy
    rw [param_on_segment_iff _ _ _ _ hd s00 s01 p 0 1 τ p0x p0y p1x p1y hx hy,
      between_closed_iff]
    constructor
    · rintro (h | h)
      · exact h
      · exfalso; linarith [h.1, h.2]
    · intro h; exact Or.inl h
  have hon1 : ∀ (p : vec2f K) (τ : K), p.x = s00.x + τ * (s01.x - s00.x) →
      p.y = s00.y + τ * (s01.y - s00.y) → (on_segment s10 s11 p ↔ lo ≤ τ ∧ τ ≤ hi) := by
    intro p τ hx hy
    rw [param_on_segment_iff _ _ _ _ hd s10 s11 p α β τ hαx hαy hβx hβy hx hy,
      between_closed_iff, hbetween]
  have hparam : ∀ p : vec2f K, on_segment s00 s01 p →
      ∃ τ : K, p.x = s00.x + τ * (s01.x - s00.x) ∧ p.y = s00.y + τ * (s01.y - s00.y) := by
    rintro p ⟨t, -, -, hx, hy⟩
    exact ⟨t, hx, hy⟩
  have hinj : ∀ (p q : vec2f K) (τ τ2 : K), p.x = s00.x + τ * (s01.x - s00.x) →
      p.y = s00.y + τ * (s01.y - s00.y) → q.x = s00.x + τ2 * (s01.x - s00.x) →
      q.y = s00.y + τ2 * (s01.y - s00.y) → (p = q ↔ τ = τ2) := by
    intro p q τ τ2 hpx hpy hqx hqy
    exact param_eq_iff _ _ _ _ hd p q τ τ2 hpx hpy hqx hqy
  refine ⟨?_, ?_, ?_⟩
  · rw [← range_meet_iff lo hi hlt]
    constructor
    · rintro ⟨p, hp0, hp1⟩
      obtain ⟨τ, hx, hy⟩ := hparam p hp0
      have h0 := (hon0 p τ hx hy).mp hp0
      have h1 := (hon1 p τ hx hy).mp hp1
      exact ⟨τ, h0.1, h0.2, h1.1, h1.2⟩
    · rintro ⟨τ, h0, h1, h2, h3⟩
      exact ⟨⟨s00.x + τ * (s01.x - s00.x), s00.y + τ * (s01.y - s00.y)⟩,
        (hon0 _ τ rfl rfl).mpr ⟨h0, h1⟩, (hon1 _ τ rfl rfl).mpr ⟨h2, h3⟩⟩
  · rw [← range_single_shared_iff lo hi hlt]
    constructor
    · rintro ⟨e, he0, he1, hall⟩
      have hes : on_segment s00 s01 e := by
        rcases he0 with h | h
        · rw [h]; exact on_segment_left _ _
        · rw [h]; exact on_segment_right _ _
      obtain ⟨τe, hex, hey⟩ := hparam e hes
      refine ⟨τe, ?_, ?_, ?_⟩
      · rcases he0 with h | h
        · exact Or.inl ((hinj e s00 τe 0 hex hey p0x p0y).mp h)
        · exact Or.inr ((hinj e s01 τe 1 hex hey p1x p1y).mp h)
      · have : τe = α ∨ τe = β := by
          rcases he1 with h | h
          · exact Or.inl ((hinj e s10 τe α hex hey hαx hαy).mp h)
          · exact Or.inr ((hinj e s11 τe β hex hey hβx hβy).mp h)
        rcases hends with ⟨h1, h2⟩ | ⟨h1, h2⟩
        · rw [h1, h2] at this; exact this
        · rw [h1, h2] at this; exact this.symm
      · intro τ h0 h1 h2 h3
        have := hall ⟨s00.x + τ * (s01.x - s00.x), s00.y + τ * (s01.y - s00.y)⟩
          ((hon0 _ τ rfl rfl).mpr ⟨h0, h1⟩) ((hon1 _ τ rfl rfl).mpr ⟨h2, h3⟩)
        exact (hinj _ e τ τe rfl rfl hex hey).mp this
    · rintro ⟨τe, he0, he1, hall⟩
      refine ⟨⟨s00.x + τe * (s01.x - s00.x), s00.y + τe * (s01.y - s00.y)⟩, ?_, ?_, ?_⟩
      · rcases he0 with h | h
        · exact Or.inl ((hinj _ s00 τe 0 rfl rfl p0x p0y).mpr h)
        · exact Or.inr ((hinj _ s01 τe 1 rfl rfl p1x p1y).mpr h)
      · have : τe = α ∨ τe = β := by
          rcases hends with ⟨h1, h2⟩ | ⟨h1, h2⟩
          · rw [h1, h2]; exact he1
          · rw [h1, h2]; exact he1.symm
        rcases this with h | h
        · exact Or.inl ((hinj _ s10 τe α rfl rfl hαx hαy).mpr h)
        · exact Or.inr ((hinj _ s11 τe β rfl rfl hβx hβy).mpr h)
      · intro p hp0 hp1
        obtain ⟨τ, hx, hy⟩ := hparam p hp0
        have h0 := (hon0 p τ hx hy).mp hp0
        have h1 := (hon1 p τ hx hy).mp hp1
        exact (hinj p _ τ τe hx hy rfl rfl).mpr (hall τ h0.1 h0.2 h1.1 h1.2)
  · rw [← range_two_points_iff lo hi hlt]
    constructor
    · rintro ⟨p, q, hpq, hp0, hp1, hq0, hq1⟩
      obtain ⟨τ, hx, hy⟩ := hparam p hp0
      obtain ⟨τ2, hx2, hy2⟩ := hparam q hq0
      have a0 := (hon0 p τ hx hy).mp hp0
      have a1 := (hon1 p τ hx hy).mp hp1
      have b0 := (hon0 q τ2 hx2 hy2).mp hq0
      have b1 := (hon1 q τ2 hx2 hy2).mp hq1
      exact ⟨τ, τ2, fun h => hpq ((hinj p q τ τ2 hx hy hx2 hy2).mpr h),
        ⟨a0.1, a0.2, a1.1, a1.2⟩, ⟨b0.1, b0.2, b1.1, b1.2⟩⟩
    · rintro ⟨τ, τ2, hne, ⟨a0, a1, a2, a3⟩, ⟨b0, b1, b2, b3⟩⟩
      refine ⟨⟨s00.x + τ * (s01.x - s00.x), s00.y + τ * (s01.y - s00.y)⟩,
        ⟨s00.x + τ2 * (s01.x - s00.x), s00.y + τ2 * (s01.y - s00.y)⟩, ?_,
        (hon0 _ τ rfl rfl).mpr ⟨a0, a1⟩, (hon1 _ τ rfl rfl).mpr ⟨a2, a3⟩,
        (hon0 _ τ2 rfl rfl).mpr ⟨b0, b1⟩, (hon1 _ τ2 rfl rfl).mpr ⟨b2, b3⟩⟩
      intro h
      exact hne ((hinj _ _ τ τ2 rfl rfl rfl rfl).mp h)

end SegmentTheorems

section SegmentTheorems

variable {K : Type} [LinearOrderedField K]

theorem segments_colinear_dets (s00 s01 s10 s11 : vec2f K)
    (h : segments_colinear s00 s01 s10 s11) :
    orient2d s10 s11 s00 = 0 ∧ orient2d s10 s11 s01 = 0 ∧
      orient2d s00 s01 s10 = 0 ∧ orient2d s00 s01 s11 = 0 := by
  obtain ⟨l, m, n, hlm, h0, h1, h2, h3⟩ := h
  exact ⟨(orient2d_eq_zero_iff_on_common_line _ _ _).mpr ⟨l, m, n, hlm, h2, h3, h0⟩,
    (orient2d_eq_zero_iff_on_common_line _ _ _).mpr ⟨l, m, n, hlm, h2, h3, h1⟩,
    (orient2d_eq_zero_iff_on_common_line _ _ _).mpr ⟨l, m, n, hlm, h0, h1, h2⟩,
    (orient2d_eq_zero_iff_on_common_line _ _ _).mpr ⟨l, m, n, hlm, h0, h1, h3⟩⟩

theorem segments_colinear_of_dets (s00 s01 s10 s11 : vec2f K) (hne0 : s00 ≠ s01)
    (h10 : orient2d s00 s01 s10 = 0) (h11 : orient2d s00 s01 s11 = 0) :
    segments_colinear s00 s01 s10 s11 := by
  rw [orient2d_eq_det] at h10 h11
  refine ⟨-(s01.y - s00.y), s01.x - s00.x,
    (s01.y - s00.y) * s00.x - (s01.x - s00.x) * s00.y, ?_, by ring, by ring, ?_, ?_⟩
  · by_contra hcon
    push_neg at hcon
    apply hne0
    apply vec2f_eq_of_coords
    · linarith [hcon.2]
    · linarith [hcon.1]
  · linear_combination h10
  · linear_combination h11

/-- The classification of two non-degenerate segments that are not on a common line. -/
theorem segment_table_noncolinear (s00 s01 s10 s11 : vec2f K)
    (hne0 : s00 ≠ s01) (hne1 : s10 ≠ s11)
    (hnc : ¬ (orient2d s10 s11 s00 = 0 ∧ orient2d s10 s11 s01 = 0 ∧
      orient2d s00 s01 s10 = 0 ∧ orient2d s00 s01 s11 = 0)) :
    (segment_segment_classify_2d s00 s01 s10 s11 = .DO_NOT_INTERSECT ↔
      ¬ segments_meet s00 s01 s10 s11) ∧
    (segment_segment_classify_2d s00 s01 s10 s11 = .SIMPLICIAL_COMPLEX ↔
      segments_coincide s00 s01 s10 s11 ∨
        segments_meet_only_at_shared_endpoint s00 s01 s10 s11) ∧
    (segment_segment_classify_2d s00 s01 s10 s11 = .OVERLAP ↔
      segments_colinear s00 s01 s10 s11 ∧ segments_partially_overlap s00 s01 s10 s11) ∧
    (segment_segment_classify_2d s00 s01 s10 s11 = .INTERSECT ↔
      segments_meet s00 s01 s10 s11 ∧
      ¬ (segments_coincide s00 s01 s10 s11 ∨
        segments_meet_only_at_shared_endpoint s00 s01 s10 s11) ∧
      ¬ (segments_colinear s00 s01 s10 s11 ∧ segments_partially_overlap s00 s01 s10 s11)) := by
  have hA : ¬ (orient2d s10 s11 s00 = 0 ∧ orient2d s10 s11 s01 = 0) := by
    rintro ⟨h0, h1⟩
    have := colinear_transfer s00 s01 s10 s11 hne1 h0 h1
    exact hnc ⟨h0, h1, this.1, this.2⟩
  have hB : ¬ (orient2d s00 s01 s10 = 0 ∧ orient2d s00 s01 s11 = 0) := by
    rintro ⟨h0, h1⟩
    have := colinear_transfer s10 s11 s00 s01 hne0 h0 h1
    exact hnc ⟨this.1, this.2, h0, h1⟩
  have hmeet : segments_meet s00 s01 s10 s11 ↔
      (orient2d s10 s11 s00 * orient2d s10 s11 s01 ≤ 0 ∧
        orient2d s00 s01 s10 * orient2d s00 s01 s11 ≤ 0) :=
    ⟨segments_meet_signs s00 s01 s10 s11,
      fun h => segments_meet_of_signs s00 s01 s10 s11 hA hB h.1 h.2⟩
  have hside : ((0 < orient2d s10 s11 s00 ∧ 0 < orient2d s10 s11 s01) ∨
      (orient2d s10 s11 s00 < 0 ∧ orient2d s10 s11 s01 < 0) ∨
      (0 < orient2d s00 s01 s10 ∧ 0 < orient2d s00 s01 s11) ∨
      (orient2d s00 s01 s10 < 0 ∧ orient2d s00 s01 s11 < 0)) ↔
      ¬ segments_meet s00 s01 s10 s11 := by
    rw [hmeet, not_and_or, not_le, not_le, mul_pos_iff, mul_pos_iff, or_assoc]
  have hcoin : ¬ segments_coincide s00 s01 s10 s11 := by
    rintro (⟨h0, h1⟩ | ⟨h0, h1⟩)
    · apply hnc
      subst h0 h1
      simp only [orient2d]
      refine ⟨by ring, by ring, by ring, by ring⟩
    · apply hnc
      subst h0 h1
      simp only [orient2d]
      refine ⟨by ring, by ring, by ring, by ring⟩
  have hcol : ¬ segments_colinear s00 s01 s10 s11 :=
    fun h => hnc (segments_colinear_dets s00 s01 s10 s11 h)
  have honly : segments_meet_only_at_shared_endpoint s00 s01 s10 s11 ↔
      segments_meet s00 s01 s10 s11 ∧
        (s00 = s10 ∨ s00 = s11 ∨ s01 = s10 ∨ s01 = s11) := by
    constructor
    · rintro ⟨e, he0, he1, -⟩
      constructor
      · refine ⟨e, ?_, ?_⟩
        · rcases he0 with h | h <;> rw [h]
          · exact on_segment_left _ _
          · exact on_segment_right _ _
        · rcases he1 with h | h <;> rw [h]
          · exact on_segment_left _ _
          · exact on_segment_right _ _
      · rcases he0 with h0 | h0 <;> rcases he1 with h1 | h1
        · exact Or.inl (h0.symm.trans h1)
        · exact Or.inr (Or.inl (h0.symm.trans h1))
        · exact Or.inr (Or.inr (Or.inl (h0.symm.trans h1)))
        · exact Or.inr (Or.inr (Or.inr (h0.symm.trans h1)))
    · rintro ⟨-, hs⟩
      have huniq := fun p q => common_point_unique s00 s01 s10 s11 p q hA
      rcases hs with h | h | h | h
      · exact ⟨s00, Or.inl rfl, Or.inl h, fun p hp0 hp1 =>
          huniq p s00 hp0 hp1 (on_segment_left _ _) (by rw [h]; exact on_segment_left _ _)⟩
      · exact ⟨s00, Or.inl rfl, Or.inr h, fun p hp0 hp1 =>
          huniq p s00 hp0 hp1 (on_segment_left _ _) (by rw [h]; exact on_segment_right _ _)⟩
      · exact ⟨s01, Or.inr rfl, Or.inl h, fun p hp0 hp1 =>
          huniq p s01 hp0 hp1 (on_segment_right _ _) (by rw [h]; exact on_segment_left _ _)⟩
      · exact ⟨s01, Or.inr rfl, Or.inr h, fun p hp0 hp1 =>
          huniq p s01 hp0 hp1 (on_segment_right _ _) (by rw [h]; exact on_segment_right _ _)⟩
  have hval : segment_segment_classify_2d s00 s01 s10 s11 =
      if ((0 < orient2d s10 s11 s00 ∧ 0 < orient2d s10 s11 s01) ∨
        (orient2d s10 s11 s00 < 0 ∧ orient2d s10 s11 s01 < 0) ∨
        (0 < orient2d s00 s01 s10 ∧ 0 < orient2d s00 s01 s11) ∨
        (orient2d s00 s01 s10 < 0 ∧ orient2d s00 s01 s11 < 0)) then
        SimplexIntersection.DO_NOT_INTERSECT
      else if (s00 = s10 ∨ s00 = s11 ∨ s01 = s10 ∨ s01 = s11) then
        SimplexIntersection.SIMPLICIAL_COMPLEX
      else SimplexIntersection.INTERSECT := by
    simp only [segment_segment_classify_2d, if_neg hnc, vec_equals_2d, Bool.or_eq_true,
      decide_eq_true_eq, or_assoc]
  rw [hval, honly]
  by_cases hSS : ((0 < orient2d s10 s11 s00 ∧ 0 < orient2d s10 s11 s01) ∨
        (orient2d s10 s11 s00 < 0 ∧ orient2d s10 s11 s01 < 0) ∨
        (0 < orient2d s00 s01 s10 ∧ 0 < orient2d s00 s01 s11) ∨
        (orient2d s00 s01 s10 < 0 ∧ orient2d s00 s01 s11 < 0))
  · have hM : ¬ segments_meet s00 s01 s10 s11 := hside.mp hSS
    rw [if_pos hSS]
    simp [hM, hcoin, hcol]
  · have hM : segments_meet s00 s01 s10 s11 := not_not.mp (fun h => hSS (hside.mpr h))
    rw [if_neg hSS]
    by_cases hS : (s00 = s10 ∨ s00 = s11 ∨ s01 = s10 ∨ s01 = s11)
    · rw [if_pos hS]
      simp [hM, hS, hcoin, hcol]
    · rw [if_neg hS]
      simp [hM, hS, hcoin, hcol]

end SegmentTheorems

section SegmentTheorems

variable {K : Type} [LinearOrderedField K]

/-- The classification of two non-degenerate segments lying on a common line. -/
theorem segment_table_colinear (s00 s01 s10 s11 : vec2f K)
    (hne0 : s00 ≠ s01) (hne1 : s10 ≠ s11)
    (hc : orient2d s10 s11 s00 = 0 ∧ orient2d s10 s11 s01 = 0 ∧
      orient2d s00 s01 s10 = 0 ∧ orient2d s00 s01 s11 = 0) :
    (segment_segment_classify_2d s00 s01 s10 s11 = .DO_NOT_INTERSECT ↔
      ¬ segments_meet s00 s01 s10 s11) ∧
    (segment_segment_classify_2d s00 s01 s10 s11 = .SIMPLICIAL_COMPLEX ↔
      segments_coincide s00 s01 s10 s11 ∨
        segments_meet_only_at_shared_endpoint s00 s01 s10 s11) ∧
    (segment_segment_classify_2d s00 s01 s10 s11 = .OVERLAP ↔
      segments_colinear s00 s01 s10 s11 ∧ segments_partially_overlap s00 s01 s10 s11) ∧
    (segment_segment_classify_2d s00 s01 s10 s11 = .INTERSECT ↔
      segments_meet s00 s01 s10 s11 ∧
      ¬ (segments_coincide s00 s01 s10 s11 ∨
        segments_meet_only_at_shared_endpoint s00 s01 s10 s11) ∧
      ¬ (segments_colinear s00 s01 s10 s11 ∧ segments_partially_overlap s00 s01 s10 s11)) := by
  obtain ⟨α, hαx, hαy⟩ := colinear_param s00 s01 s10 hne0 hc.2.2.1
  obtain ⟨β, hβx, hβy⟩ := colinear_param s00 s01 s11 hne0 hc.2.2.2
  have hd : s01.x - s00.x ≠ 0 ∨ s01.y - s00.y ≠ 0 := by
    rcases (vec2f_ne_iff s00 s01).mp hne0 with h | h
    · exact Or.inl (sub_ne_zero.mpr (Ne.symm h))
    · exact Or.inr (sub_ne_zero.mpr (Ne.symm h))
  have p0x : s00.x = s00.x + 0 * (s01.x - s00.x) := by ring
  have p0y : s00.y = s00.y + 0 * (s01.y - s00.y) := by ring
  have p1x : s01.x = s00.x + 1 * (s01.x - s00.x) := by ring
  have p1y : s01.y = s00.y + 1 * (s01.y - s00.y) := by ring
  have hαβ : α ≠ β := fun h =>
    hne1 ((param_eq_iff _ _ _ _ hd s10 s11 α β hαx hαy hβx hβy).mpr h)
  have e1 : s00 = s10 ↔ 0 = α := param_eq_iff _ _ _ _ hd s00 s10 0 α p0x p0y hαx hαy
  have e2 : s00 = s11 ↔ 0 = β := param_eq_iff _ _ _ _ hd s00 s11 0 β p0x p0y hβx hβy
  have e3 : s01 = s10 ↔ 1 = α := param_eq_iff _ _ _ _ hd s01 s10 1 α p1x p1y hαx hαy
  have e4 : s01 = s11 ↔ 1 = β := param_eq_iff _ _ _ _ hd s01 s11 1 β p1x p1y hβx hβy
  have i1 : point_in_segment_2d s00 s10 s11 = .STRICTLY_INSIDE ↔
      (α < 0 ∧ 0 < β) ∨ (β < 0 ∧ 0 < α) := by
    rw [point_in_segment_2d_inside_iff _ _ _ hne1,
      param_in_open_segment_iff _ _ _ _ hd s10 s11 s00 α β 0 hαx hαy hβx hβy p0x p0y,
      between_open_iff _ _ _ hαβ]
  have i2 : point_in_segment_2d s01 s10 s11 = .STRICTLY_INSIDE ↔
      (α < 1 ∧ 1 < β) ∨ (β < 1 ∧ 1 < α) := by
    rw [point_in_segment_2d_inside_iff _ _ _ hne1,
      param_in_open_segment_iff _ _ _ _ hd s10 s11 s01 α β 1 hαx hαy hβx hβy p1x p1y,
      between_open_iff _ _ _ hαβ]
  have i3 : point_in_segment_2d s10 s00 s01 = .STRICTLY_INSIDE ↔
      (0 < α ∧ α < 1) ∨ (1 < α ∧ α < 0) := by
    rw [point_in_segment_2d_inside_iff _ _ _ hne0,
      param_in_open_segment_iff _ _ _ _ hd s00 s01 s10 0 1 α p0x p0y p1x p1y hαx hαy,
      between_open_iff _ _ _ zero_ne_one]
  have i4 : point_in_segment_2d s11 s00 s01 = .STRICTLY_INSIDE ↔
      (0 < β ∧ β < 1) ∨ (1 < β ∧ β < 0) := by
    rw [point_in_segment_2d_inside_iff _ _ _ hne0,
      param_in_open_segment_iff _ _ _ _ hd s00 s01 s11 0 1 β p0x p0y p1x p1y hβx hβy,
      between_open_iff _ _ _ zero_ne_one]
  have hval : segment_segment_classify_2d s00 s01 s10 s11 =
      if (0 = α ∧ 1 = β) ∨ (0 = β ∧ 1 = α) then SimplexIntersection.SIMPLICIAL_COMPLEX
      else if ((α < 0 ∧ 0 < β) ∨ (β < 0 ∧ 0 < α)) ∨ ((α < 1 ∧ 1 < β) ∨ (β < 1 ∧ 1 < α)) ∨
          ((0 < α ∧ α < 1) ∨ (1 < α ∧ α < 0)) ∨ ((0 < β ∧ β < 1) ∨ (1 < β ∧ β < 0))
        then SimplexIntersection.OVERLAP
      else if 0 = α ∨ 0 = β ∨ 1 = α ∨ 1 = β then SimplexIntersection.SIMPLICIAL_COMPLEX
      else SimplexIntersection.DO_NOT_INTERSECT := by
    simp only [segment_segment_classify_2d, if_pos hc, vec_equals_2d, Bool.or_eq_true,
      Bool.and_eq_true, decide_eq_true_eq, e1, e2, e3, e4, i1, i2, i3, i4, or_assoc]
  have hcoin : segments_coincide s00 s01 s10 s11 ↔ (0 = α ∧ 1 = β) ∨ (0 = β ∧ 1 = α) := by
    simp only [segments_coincide, e1, e2, e3, e4]
  have hcol : segments_colinear s00 s01 s10 s11 :=
    segments_colinear_of_dets s00 s01 s10 s11 hne0 hc.2.2.1 hc.2.2.2
  simp only [segments_partially_overlap, hcoin, hcol, true_and]
  rcases lt_or_gt_of_ne hαβ with hlt | hgt
  · obtain ⟨c1, c2, c3⟩ := colinear_common s00 s01 s10 s11 hne0 α β α β hαx hαy hβx hβy hlt
      (Or.inl ⟨rfl, rfl⟩)
    obtain ⟨t1, t2, t3, t4⟩ := colinear_table_lt α β hlt _ hval
    rw [c1, c2, c3, t1, t2, t3, t4]
    refine ⟨Iff.rfl, Iff.rfl, Iff.rfl, ?_⟩
    constructor
    · exact False.elim
    · rintro ⟨⟨m1, m2⟩, n1, n2⟩
      obtain ⟨k1, k2⟩ := not_or.mp n1
      obtain ⟨k3, k4⟩ := not_or.mp k2
      exact n2 ⟨k1, lt_of_le_of_ne m1 k4, lt_of_le_of_ne m2 (Ne.symm k3)⟩
  · obtain ⟨c1, c2, c3⟩ := colinear_common s00 s01 s10 s11 hne0 α β β α hαx hαy hβx hβy hgt
      (Or.inr ⟨rfl, rfl⟩)
    obtain ⟨t1, t2, t3, t4⟩ := colinear_table_gt α β hgt _ hval
    rw [c1, c2, c3, t1, t2, t3, t4]
    refine ⟨Iff.rfl, Iff.rfl, Iff.rfl, ?_⟩
    constructor
    · exact False.elim
    · rintro ⟨⟨m1, m2⟩, n1, n2⟩
      obtain ⟨k1, k2⟩ := not_or.mp n1
      obtain ⟨k3, k4⟩ := not_or.mp k2
      exact n2 ⟨k1, lt_of_le_of_ne m1 k4, lt_of_le_of_ne m2 (Ne.symm k3)⟩

/-- The four classes of `segment_segment_classify_2d` on non-degenerate segments. -/
theorem segment_table (s00 s01 s10 s11 : vec2f K) (hne0 : s00 ≠ s01) (hne1 : s10 ≠ s11) :
    (segment_segment_classify_2d s00 s01 s10 s11 = .DO_NOT_INTERSECT ↔
      ¬ segments_meet s00 s01 s10 s11) ∧
    (segment_segment_classify_2d s00 s01 s10 s11 = .SIMPLICIAL_COMPLEX ↔
      segments_coincide s00 s01 s10 s11 ∨
        segments_meet_only_at_shared_endpoint s00 s01 s10 s11) ∧
    (segment_segment_classify_2d s00 s01 s10 s11 = .OVERLAP ↔
      segments_colinear s00 s01 s10 s11 ∧ segments_partially_overlap s00 s01 s10 s11) ∧
    (segment_segment_classify_2d s00 s01 s10 s11 = .INTERSECT ↔
      segments_meet s00 s01 s10 s11 ∧
      ¬ (segments_coincide s00 s01 s10 s11 ∨
        segments_meet_only_at_shared_endpoint s00 s01 s10 s11) ∧
      ¬ (segments_colinear s00 s01 s10 s11 ∧ segments_partially_overlap s00 s01 s10 s11)) := by
  by_cases hc : orient2d s10 s11 s00 = 0 ∧ orient2d s10 s11 s01 = 0 ∧
      orient2d s00 s01 s10 = 0 ∧ orient2d s00 s01 s11 = 0
  · exact segment_table_colinear s00 s01 s10 s11 hne0 hne1 hc
  · exact segment_table_noncolinear s00 s01 s10 s11 hne0 hne1 hc

end SegmentTheorems

section SegmentTheorems

variable {K : Type} [LinearOrderedField K]

theorem on_segment_cases (a b p : vec2f K) (h : on_segment a b p) :
    p = a ∨ p = b ∨ in_open_segment a b p := by
  obtain ⟨s, hs0, hs1, hx, hy⟩ := h
  rcases eq_or_lt_of_le hs0 with h0 | h0
  · left
    apply vec2f_eq_of_coords
    · rw [hx, ← h0]; ring
    · rw [hy, ← h0]; ring
  · rcases eq_or_lt_of_le hs1 with h1 | h1
    · right; left
      apply vec2f_eq_of_coords
      · rw [hx, h1]; ring
      · rw [hy, h1]; ring
    · exact Or.inr (Or.inr ⟨s, h0, h1, hx, hy⟩)

theorem segment_is_degenerate_2d_eq_false (s0 s1 : vec2f K) :
    segment_is_degenerate_2d s0 s1 = false ↔ s0 ≠ s1 := by
  simp [segment_is_degenerate_2d, vec_equals_2d]

/-- In the remaining class the segments meet at a point interior to one of them. -/
theorem segments_cross_interior (s00 s01 s10 s11 : vec2f K) (hne0 : s00 ≠ s01)
    (hmeet : segments_meet s00 s01 s10 s11)
    (h1 : ¬ (segments_coincide s00 s01 s10 s11 ∨
      segments_meet_only_at_shared_endpoint s00 s01 s10 s11))
    (h2 : ¬ (segments_colinear s00 s01 s10 s11 ∧ segments_partially_overlap s00 s01 s10 s11)) :
    ∃ p, on_segment s00 s01 p ∧ on_segment s10 s11 p ∧
      (in_open_segment s00 s01 p ∨ in_open_segment s10 s11 p) := by
  obtain ⟨p, hp0, hp1⟩ := hmeet
  refine ⟨p, hp0, hp1, ?_⟩
  obtain ⟨k1, k2⟩ := not_or.mp h1
  by_contra hcon
  obtain ⟨c0, c1⟩ := not_or.mp hcon
  have e0 : p = s00 ∨ p = s01 := by
    rcases on_segment_cases _ _ _ hp0 with h | h | h
    · exact Or.inl h
    · exact Or.inr h
    · exact absurd h c0
  have e1 : p = s10 ∨ p = s11 := by
    rcases on_segment_cases _ _ _ hp1 with h | h | h
    · exact Or.inl h
    · exact Or.inr h
    · exact absurd h c1
  apply k2
  refine ⟨p, e0, e1, ?_⟩
  intro q hq0 hq1
  by_contra hne
  by_cases hc : orient2d s10 s11 s00 = 0 ∧ orient2d s10 s11 s01 = 0
  · have ht := colinear_transfer s10 s11 s00 s01 hne0
    by_cases hc2 : orient2d s00 s01 s10 = 0 ∧ orient2d s00 s01 s11 = 0
    · exact h2 ⟨segments_colinear_of_dets s00 s01 s10 s11 hne0 hc2.1 hc2.2,
        k1, q, p, hne, hq0, hq1, hp0, hp1⟩
    · -- the endpoints of the first segment are on the line of the second, but not
      -- conversely: then the second segment is degenerate and `p = q`
      apply hne
      obtain ⟨t, -, -, htx, hty⟩ := hp1
      obtain ⟨t2, -, -, htx2, hty2⟩ := hq1
      have hs : s10 = s11 := by
        by_contra hne1
        exact hc2 (colinear_transfer s00 s01 s10 s11 hne1 hc.1 hc.2)
      apply vec2f_eq_of_coords
      · rw [htx2, htx, hs]; ring
      · rw [hty2, hty, hs]; ring
  · exact hne (common_point_unique s00 s01 s10 s11 q p hc hq0 hq1 hp0 hp1)

end SegmentTheorems

section GuardTheorems

variable {K : Type} [LinearOrderedField K]

theorem vec3d_eq_iff {K : Type} (a b : vec3d K) : a = b ↔ a.x = b.x ∧ a.y = b.y ∧ a.z = b.z := by
  cases a; cases b; simp

theorem points_are_colinear_3d_iff (p0 p1 p2 : vec3d K) :
    points_are_colinear_3d p0 p1 p2 = true ↔
      (p1.sub p0).cross (p2.sub p0) = ⟨0, 0, 0⟩ := by
  simp only [points_are_colinear_3d, points_are_colinear_2d, orient2d, Bool.and_eq_true,
    decide_eq_true_eq, vec3d_eq_iff, vec3d.cross, vec3d.sub]
  constructor
  · rintro ⟨⟨h1, h2⟩, h3⟩
    refine ⟨?_, ?_, ?_⟩
    · linear_combination h1
    · linear_combination -h2
    · linear_combination h3
  · rintro ⟨h1, h2, h3⟩
    refine ⟨⟨?_, ?_⟩, ?_⟩
    · linear_combination h1
    · linear_combination -h2
    · linear_combination h3

theorem eq_div_mul_of_cross (d e f g : K) (hd : d ≠ 0) (h : d * g - f * e = 0) :
    g = e / d * f := by
  field_simp
  linear_combination h

theorem cross_zero_iff_colinear_in_space (p0 p1 p2 : vec3d K) :
    (p1.sub p0).cross (p2.sub p0) = ⟨0, 0, 0⟩ ↔ colinear_in_space p0 p1 p2 := by
  simp only [vec3d_eq_iff, vec3d.cross, vec3d.sub, colinear_in_space]
  constructor
  · rintro ⟨h1, h2, h3⟩
    by_cases hx : p1.x - p0.x = 0
    · by_cases hy : p1.y - p0.y = 0
      · by_cases hz : p1.z - p0.z = 0
        · left
          exact ⟨by linear_combination -hx, by linear_combination -hy,
            by linear_combination -hz⟩
        · right
          refine ⟨(p2.z - p0.z) / (p1.z - p0.z), ?_, ?_, ?_⟩
          · have := eq_div_mul_of_cross _ (p2.z - p0.z) (p1.x - p0.x) (p2.x - p0.x) hz
              (by linear_combination h2)
            linear_combination this
          · have := eq_div_mul_of_cross _ (p2.z - p0.z) (p1.y - p0.y) (p2.y - p0.y) hz
              (by linear_combination -h1)
            linear_combination this
          · have := div_mul_cancel₀ (p2.z - p0.z) hz
            linear_combination -this
      · right
        refine ⟨(p2.y - p0.y) / (p1.y - p0.y), ?_, ?_, ?_⟩
        · have := eq_div_mul_of_cross _ (p2.y - p0.y) (p1.x - p0.x) (p2.x - p0.x) hy
            (by linear_combination -h3)
          linear_combination this
        · have := div_mul_cancel₀ (p2.y - p0.y) hy
          linear_combination -this
        · have := eq_div_mul_of_cross _ (p2.y - p0.y) (p1.z - p0.z) (p2.z - p0.z) hy
            (by linear_combination h1)
          linear_combination this
    · right
      refine ⟨(p2.x - p0.x) / (p1.x - p0.x), ?_, ?_, ?_⟩
      · have := div_mul_cancel₀ (p2.x - p0.x) hx
        linear_combination -this
      · have := eq_div_mul_of_cross _ (p2.x - p0.x) (p1.y - p0.y) (p2.y - p0.y) hx
          (by linear_combination h3)
        linear_combination this
      · have := eq_div_mul_of_cross _ (p2.x - p0.x) (p1.z - p0.z) (p2.z - p0.z) hx
          (by linear_combination -h2)
        linear_combination this
  · rintro (h | ⟨t, hx, hy, hz⟩)
    · obtain ⟨ex, ey, ez⟩ := h
      rw [ex, ey, ez]
      refine ⟨by ring, by ring, by ring⟩
    · rw [hx, hy, hz]
      refine ⟨by ring, by ring, by ring⟩

/-- C17: in exact arithmetic `points_are_colinear_3d p0 p1 p2` (the three axis-aligned
projections of the triangle each have `orient2d = 0`) is true if and only if
`(p1 - p0) x (p2 - p0) = 0`, that is if and only if the three points lie on a common
line of space; `triangle_is_degenerate_3d` returns the same value. -/
theorem points_are_colinear_3d_iff_cross_zero (p0 p1 p2 : vec3d K) :
    (points_are_colinear_3d p0 p1 p2 = true ↔
      (p1.sub p0).cross (p2.sub p0) = ⟨0, 0, 0⟩) ∧
    (points_are_colinear_3d p0 p1 p2 = true ↔ colinear_in_space p0 p1 p2) ∧
    triangle_is_degenerate_3d p0 p1 p2 = points_are_colinear_3d p0 p1 p2 :=
  ⟨points_are_colinear_3d_iff p0 p1 p2,
    (points_are_colinear_3d_iff p0 p1 p2).trans (cross_zero_iff_colinear_in_space p0 p1 p2),
    rfl⟩

end GuardTheorems

section WitnessesPredicates

end WitnessesPredicates

section RayTheorems

variable {K : Type} [LinearOrderedField K]

theorem vec3d_dot_self_pos (d : vec3d K) (hd : d ≠ ⟨0, 0, 0⟩) : 0 < d.dot d := by
  have hx := mul_self_nonneg d.x
  have hy := mul_self_nonneg d.y
  have hz := mul_self_nonneg d.z
  have h0 : 0 ≤ d.dot d := add_nonneg (add_nonneg hx hy) hz
  rcases eq_or_lt_of_le h0 with h | h
  · exfalso
    apply hd
    simp only [vec3d.dot] at h
    have ex : d.x * d.x = 0 := by linarith
    have ey : d.y * d.y = 0 := by linarith
    have ez : d.z * d.z = 0 := by linarith
    rw [vec3d_eq_iff]
    exact ⟨mul_self_eq_zero.mp ex, mul_self_eq_zero.mp ey, mul_self_eq_zero.mp ez⟩
  · exact h

/-- C18: for every point `p` and non-zero direction `d`, with a square root that is
exact at `d.d` and at `1`, the ray built by `Ray(p, d)` has `begin() = p` and
`dir() = d/|d|`; `dir()` has unit length and is `d` times a positive factor, so it has
the orientation of `d`. -/
theorem Ray_begin_dir (sqrt : K → K) (p d : vec3d K) (hd : d ≠ ⟨0, 0, 0⟩)
    (hnonneg : 0 ≤ sqrt (d.dot d)) (hsq : sqrt (d.dot d) * sqrt (d.dot d) = d.dot d)
    (hone : sqrt 1 = 1) :
    (Ray.new sqrt p d).begin = p ∧
    (Ray.new sqrt p d).dir = d.scale (1 / vec3d.length sqrt d) ∧
    0 < 1 / vec3d.length sqrt d ∧
    (Ray.new sqrt p d).dir.dot (Ray.new sqrt p d).dir = 1 ∧
    vec3d.length sqrt (Ray.new sqrt p d).dir = 1 := by
  have hpos := vec3d_dot_self_pos d hd
  have hL : 0 < vec3d.length sqrt d := by
    rcases eq_or_lt_of_le hnonneg with h | h
    · rw [← h] at hsq
      simp only [mul_zero] at hsq
      rw [← hsq] at hpos
      exact absurd hpos (lt_irrefl _)
    · exact h
  have hLne : vec3d.length sqrt d ≠ 0 := ne_of_gt hL
  have hdir : (Ray.new sqrt p d).dir = d.scale (1 / vec3d.length sqrt d) := by
    simp only [Ray.new, Ray.dir, vec3d.normalize, vec3d.scale, vec3d_eq_iff]
    refine ⟨by ring, by ring, by ring⟩
  have hunit : (Ray.new sqrt p d).dir.dot (Ray.new sqrt p d).dir = 1 := by
    have hsq2 : vec3d.length sqrt d * vec3d.length sqrt d = d.x * d.x + d.y * d.y + d.z * d.z :=
      hsq
    simp only [Ray.new, Ray.dir, vec3d.normalize, vec3d.dot]
    field_simp
    linear_combination -hsq2
  refine ⟨rfl, hdir, by positivity, hunit, ?_⟩
  simp only [vec3d.length]
  rw [hunit, hone]

/-- Witness for `Ray_begin_dir`: start `(5,6,7)`, direction `(1,2,2)` of length 3. -/
theorem Ray_begin_dir_witness :
    (⟨1, 2, 2⟩ : vec3d ℚ) ≠ ⟨0, 0, 0⟩ ∧
    0 ≤ table_sqrt ((⟨1, 2, 2⟩ : vec3d ℚ).dot ⟨1, 2, 2⟩) ∧
    table_sqrt ((⟨1, 2, 2⟩ : vec3d ℚ).dot ⟨1, 2, 2⟩) *
        table_sqrt ((⟨1, 2, 2⟩ : vec3d ℚ).dot ⟨1, 2, 2⟩) =
      (⟨1, 2, 2⟩ : vec3d ℚ).dot ⟨1, 2, 2⟩ ∧
    table_sqrt 1 = 1 ∧
    (Ray.new table_sqrt ⟨5, 6, 7⟩ ⟨1, 2, 2⟩).dir = ⟨1 / 3, 2 / 3, 2 / 3⟩ ∧
    ((Ray.new table_sqrt ⟨5, 6, 7⟩ ⟨1, 2, 2⟩).begin = ⟨5, 6, 7⟩ ∧
      (Ray.new table_sqrt ⟨5, 6, 7⟩ ⟨1, 2, 2⟩).dir =
        (⟨1, 2, 2⟩ : vec3d ℚ).scale (1 / vec3d.length table_sqrt ⟨1, 2, 2⟩) ∧
      0 < 1 / vec3d.length table_sqrt (⟨1, 2, 2⟩ : vec3d ℚ) ∧
      (Ray.new table_sqrt ⟨5, 6, 7⟩ ⟨1, 2, 2⟩).dir.dot
        (Ray.new table_sqrt ⟨5, 6, 7⟩ ⟨1, 2, 2⟩).dir = 1 ∧
      vec3d.length table_sqrt (Ray.new table_sqrt ⟨5, 6, 7⟩ ⟨1, 2, 2⟩).dir = 1) :=
  ⟨by simp, by norm_num [vec3d.dot, table_sqrt], by norm_num [vec3d.dot, table_sqrt],
    by norm_num [table_sqrt],
    by norm_num [Ray.new, Ray.dir, vec3d.normalize, vec3d.length, vec3d.dot, table_sqrt],
    Ray_begin_dir table_sqrt ⟨5, 6, 7⟩ ⟨1, 2, 2⟩ (by simp)
      (by norm_num [vec3d.dot, table_sqrt]) (by norm_num [vec3d.dot, table_sqrt])
      (by norm_num [table_sqrt])⟩

end RayTheorems

section ClickTheorems

variable {K : Type}

theorem set_edge_marked_ok (m : Trimesh K) (eid : Nat) (flag : Bool) (e : Edge)
    (he : m.edges[eid]? = some e) :
    set_edge_marked m eid flag =
      .ok ⟨m.verts, m.edges.set eid ⟨e.v0, e.v1, flag⟩, m.polys⟩ := by
  simp only [set_edge_marked, he]

theorem set_set_back (edges : List Edge) (eid : Nat) (e : Edge) (flag : Bool)
    (he : edges[eid]? = some e) :
    (edges.set eid ⟨e.v0, e.v1, flag⟩).set eid ⟨e.v0, e.v1, e.marked⟩ = edges := by
  have hlt : eid < edges.length := by
    rcases Nat.lt_or_ge eid edges.length with h | h
    · exact h
    · rw [List.getElem?_eq_none h] at he
      exact absurd he (by simp)
  rw [List.set_set]
  apply List.ext_getElem?
  intro i
  by_cases hi : i = eid
  · subst hi
    rw [List.getElem?_set_self hlt]
    exact he.symm
  · rw [List.getElem?_set_ne (Ne.symm hi)]

/-- C16: a control-click that picks an existing edge flips the `MARKED` flag of that
edge and of no other edge, leaves the vertices, the polys, the number of edges and
the endpoints of every edge as they were, and a second control-click that picks the
same edge gives back the original mesh; without the control key, or when the click
cannot be unprojected, the mesh stays as it is. -/
theorem callback_mouse_press_toggles (pick_edge : Trimesh K → vec3d K → Nat)
    (m : Trimesh K) (p : vec3d K) (hpick : pick_edge m p < num_edges m) :
    ∃ m1, callback_mouse_press pick_edge m true (some p) = .ok m1 ∧
      edge_marked m1 (pick_edge m p) = !edge_marked m (pick_edge m p) ∧
      (∀ eid, eid ≠ pick_edge m p → edge_marked m1 eid = edge_marked m eid) ∧
      num_verts m1 = num_verts m ∧ num_edges m1 = num_edges m ∧
      num_polys m1 = num_polys m ∧
      m1.verts = m.verts ∧ m1.polys = m.polys ∧
      m1.edges.map (fun e => (e.v0, e.v1)) = m.edges.map (fun e => (e.v0, e.v1)) ∧
      (∀ q, pick_edge m1 q = pick_edge m p →
        callback_mouse_press pick_edge m1 true (some q) = .ok m) ∧
      (∀ u, callback_mouse_press pick_edge m false u = .ok m) ∧
      callback_mouse_press pick_edge m true none = .ok m := by
  have hlt : pick_edge m p < m.edges.length := hpick
  obtain ⟨e, he⟩ : ∃ e, m.edges[pick_edge m p]? = some e :=
    ⟨m.edges[pick_edge m p], List.getElem?_eq_getElem hlt⟩
  have hgetD : m.edges.getD (pick_edge m p) ⟨0, 0, false⟩ = e := by
    rw [List.getD_eq_getElem?_getD, he]; rfl
  have hm : edge_marked m (pick_edge m p) = e.marked := by
    simp only [edge_marked, hgetD]
  generalize hk : pick_edge m p = k at *
  have he1 : (m.edges.set k ⟨e.v0, e.v1, !e.marked⟩)[k]? = some ⟨e.v0, e.v1, !e.marked⟩ :=
    List.getElem?_set_self hlt
  refine ⟨⟨m.verts, m.edges.set k ⟨e.v0, e.v1, !e.marked⟩, m.polys⟩,
    ?_, ?_, ?_, rfl, ?_, rfl, rfl, rfl, ?_, ?_, ?_, ?_⟩
  · simp only [callback_mouse_press, if_true, hk, hm]
    exact set_edge_marked_ok m _ _ e he
  · simp only [edge_marked, List.getD_eq_getElem?_getD, he1, Option.getD_some, he]
  · intro eid hne
    simp only [edge_marked, List.getD_eq_getElem?_getD]
    rw [List.getElem?_set_ne (Ne.symm hne)]
  · simp only [num_edges, List.length_set]
  · apply List.ext_getElem?
    intro i
    simp only [List.getElem?_map]
    by_cases hi : i = k
    · subst hi
      simp only [he1, he, Option.map_some']
    · rw [List.getElem?_set_ne (Ne.symm hi)]
  · intro q hq
    have hm1 : edge_marked ⟨m.verts, m.edges.set k ⟨e.v0, e.v1, !e.marked⟩, m.polys⟩ k =
        !e.marked := by
      simp only [edge_marked, List.getD_eq_getElem?_getD, he1, Option.getD_some]
    simp only [callback_mouse_press, if_true, hq, hm1]
    rw [set_edge_marked_ok _ _ _ _ he1]
    simp only [Bool.not_not]
    rw [set_set_back m.edges k e _ he]
  · intro u
    simp [callback_mouse_press]
  · simp [callback_mouse_press]

/-- Witness for `callback_mouse_press_toggles` on `example_mesh`: the click picks the
marked edge `1`, which becomes unmarked. -/
theorem callback_mouse_press_toggles_witness :
    pick_edge_one example_mesh ⟨0, 0, 0⟩ < num_edges example_mesh ∧
    edge_marked example_mesh 1 = true ∧
    ∃ m1, callback_mouse_press pick_edge_one example_mesh true (some ⟨0, 0, 0⟩) = .ok m1 ∧
      edge_marked m1 (pick_edge_one example_mesh ⟨0, 0, 0⟩) =
        !edge_marked example_mesh (pick_edge_one example_mesh ⟨0, 0, 0⟩) ∧
      (∀ eid, eid ≠ pick_edge_one example_mesh ⟨0, 0, 0⟩ →
        edge_marked m1 eid = edge_marked example_mesh eid) ∧
      num_verts m1 = num_verts example_mesh ∧ num_edges m1 = num_edges example_mesh ∧
      num_polys m1 = num_polys example_mesh ∧
      m1.verts = example_mesh.verts ∧ m1.polys = example_mesh.polys ∧
      m1.edges.map (fun e => (e.v0, e.v1)) =
        example_mesh.edges.map (fun e => (e.v0, e.v1)) ∧
      (∀ q, pick_edge_one m1 q = pick_edge_one example_mesh ⟨0, 0, 0⟩ →
        callback_mouse_press pick_edge_one m1 true (some q) = .ok example_mesh) ∧
      (∀ u, callback_mouse_press pick_edge_one example_mesh false u = .ok example_mesh) ∧
      callback_mouse_press pick_edge_one example_mesh true none = .ok example_mesh :=
  ⟨by decide, by decide,
    callback_mouse_press_toggles pick_edge_one example_mesh ⟨0, 0, 0⟩ (by decide)⟩

end ClickTheorems

section EdgeTheorems

variable {K : Type} [LinearOrderedField K]

theorem half_space_corners_eq (B : Backend K) (poly : List (vec2f K)) (delta : K) (i : Nat) :
    half_space_corners B poly delta i =
      edge_rectangle B delta (poly.getD i ⟨0, 0⟩)
        (poly.getD ((i + 1) % poly.length) ⟨0, 0⟩) := rfl

theorem vector_at_of_lt {α : Type} (v : List α) (i : Nat) (d : α) (hi : i < v.length) :
    vector_at v i = .ok (v.getD i d) := by
  simp only [vector_at, List.getD_eq_getElem?_getD, List.getElem?_eq_getElem hi,
    Option.getD_some]

theorem half_spaces_loop_ok (B : Backend K) (poly : List (vec2f K)) (delta : K) :
    ∀ k, k ≤ poly.length →
      half_spaces_loop B poly delta k = .ok ((List.range k).map (half_space B poly delta)) := by
  intro k
  induction k with
  | zero => intro _; rfl
  | succ k ih =>
    intro hk
    have hk1 : k < poly.length := hk
    have hk2 : (k + 1) % poly.length < poly.length :=
      Nat.mod_lt _ (Nat.lt_of_le_of_lt (Nat.zero_le _) hk1)
    simp only [half_spaces_loop, ih (Nat.le_of_lt hk1),
      vector_at_of_lt poly k ⟨0, 0⟩ hk1, vector_at_of_lt poly _ ⟨0, 0⟩ hk2,
      List.range_succ, List.map_append, List.map_cons, List.map_nil, half_space,
      half_space_corners_eq]

/-- C20: for a polygon of `n >= 1` vertices the loop of the 2D `polygon_kernel`, with
its bounds-checked reads, runs to its end without a fault and leaves exactly `n`
half-planes; the `i`-th is the corrected rectangle of the directed edge from vertex
`i` to vertex `(i+1) mod n`, both of which exist, and the last one is built from the
closing edge, from the last vertex back to the first. -/
theorem half_spaces_one_per_edge (B : Backend K) (poly : List (vec2f K))
    (hn : 0 < poly.length) :
    half_spaces_at B poly = .ok (half_spaces B poly) ∧
    (half_spaces B poly).length = poly.length ∧
    (∀ i, i < poly.length → ∃ A B0, vector_at poly i = .ok A ∧
      vector_at poly ((i + 1) % poly.length) = .ok B0 ∧
      (half_spaces B poly)[i]? = some (boost_correct
        { outer := edge_rectangle B (bbox_delta B poly) A B0, inners := [] })) ∧
    (∃ A B0, poly.getLast? = some A ∧ poly.head? = some B0 ∧
      (half_spaces B poly).getLast? = some (boost_correct
        { outer := edge_rectangle B (bbox_delta B poly) A B0, inners := [] })) := by
  have hall : ∀ i, i < poly.length → ∃ A B0, vector_at poly i = .ok A ∧
      vector_at poly ((i + 1) % poly.length) = .ok B0 ∧
      (half_spaces B poly)[i]? = some (boost_correct
        { outer := edge_rectangle B (bbox_delta B poly) A B0, inners := [] }) := by
    intro i hi
    have hi2 : (i + 1) % poly.length < poly.length := Nat.mod_lt _ hn
    refine ⟨poly.getD i ⟨0, 0⟩, poly.getD ((i + 1) % poly.length) ⟨0, 0⟩,
      vector_at_of_lt poly i _ hi, vector_at_of_lt poly _ _ hi2, ?_⟩
    simp only [half_spaces, List.getElem?_map, List.getElem?_range hi, Option.map_some',
      half_space, half_space_corners_eq]
  have hlen : (half_spaces B poly).length = poly.length := by
    simp only [half_spaces, List.length_map, List.length_range]
  refine ⟨half_spaces_loop_ok B poly _ _ (Nat.le_refl _), hlen, hall, ?_⟩
  obtain ⟨A, B0, hA, hB0, hh⟩ := hall (poly.length - 1) (Nat.sub_lt hn Nat.one_pos)
  have hwrap : (poly.length - 1 + 1) % poly.length = 0 := by
    rw [Nat.sub_add_cancel hn, Nat.mod_self]
  rw [hwrap] at hB0
  refine ⟨A, B0, ?_, ?_, ?_⟩
  · rw [List.getLast?_eq_getElem?]
    simp only [vector_at] at hA
    cases h : poly[poly.length - 1]? with
    | none => rw [h] at hA; simp at hA
    | some a => rw [h] at hA; simp only [Except.ok.injEq] at hA; rw [hA]
  · rw [List.head?_eq_getElem?]
    simp only [vector_at] at hB0
    cases h : poly[0]? with
    | none => rw [h] at hB0; simp at hB0
    | some a => rw [h] at hB0; simp only [Except.ok.injEq] at hB0; rw [hB0]
  · rw [List.getLast?_eq_getElem?, hlen]
    exact hh

/-- Witness for `half_spaces_one_per_edge`: the two-vertex polygon `example_segment`
gets two half-planes. -/
theorem half_spaces_one_per_edge_witness :
    0 < example_segment.length ∧
    (half_spaces_at first_operand_backend example_segment =
        .ok (half_spaces first_operand_backend example_segment) ∧
      (half_spaces first_operand_backend example_segment).length = example_segment.length ∧
      (∀ i, i < example_segment.length → ∃ A B0, vector_at example_segment i = .ok A ∧
        vector_at example_segment ((i + 1) % example_segment.length) = .ok B0 ∧
        (half_spaces first_operand_backend example_segment)[i]? = some (boost_correct
          { outer := edge_rectangle first_operand_backend
              (bbox_delta first_operand_backend example_segment) A B0, inners := [] })) ∧
      (∃ A B0, example_segment.getLast? = some A ∧ example_segment.head? = some B0 ∧
        (half_spaces first_operand_backend example_segment).getLast? = some (boost_correct
          { outer := edge_rectangle first_operand_backend
              (bbox_delta first_operand_backend example_segment) A B0, inners := [] }))) :=
  ⟨by decide, half_spaces_one_per_edge first_operand_backend example_segment (by decide)⟩

end EdgeTheorems

section RectangleTheorems

variable {K : Type} [LinearOrderedField K]

theorem foldl_min_le (ps : List (vec2f K)) :
    ∀ p : vec2f K, ((ps.foldl (fun m q => m.min q) p).x ≤ p.x ∧
      (ps.foldl (fun m q => m.min q) p).y ≤ p.y) ∧
      ∀ q ∈ ps, (ps.foldl (fun m q => m.min q) p).x ≤ q.x ∧
        (ps.foldl (fun m q => m.min q) p).y ≤ q.y := by
  induction ps with
  | nil => intro p; simp
  | cons a ps ih =>
    intro p
    obtain ⟨⟨h1, h2⟩, h3⟩ := ih (p.min a)
    simp only [List.foldl_cons]
    have hx : (p.min a).x ≤ p.x ∧ (p.min a).x ≤ a.x := ⟨min_le_left _ _, min_le_right _ _⟩
    have hy : (p.min a).y ≤ p.y ∧ (p.min a).y ≤ a.y := ⟨min_le_left _ _, min_le_right _ _⟩
    refine ⟨⟨le_trans h1 hx.1, le_trans h2 hy.1⟩, ?_⟩
    intro q hq
    rcases List.mem_cons.mp hq with e | e
    · rw [e]; exact ⟨le_trans h1 hx.2, le_trans h2 hy.2⟩
    · exact h3 q e

theorem le_foldl_max (ps : List (vec2f K)) :
    ∀ p : vec2f K, (p.x ≤ (ps.foldl (fun m q => m.max q) p).x ∧
      p.y ≤ (ps.foldl (fun m q => m.max q) p).y) ∧
      ∀ q ∈ ps, q.x ≤ (ps.foldl (fun m q => m.max q) p).x ∧
        q.y ≤ (ps.foldl (fun m q => m.max q) p).y := by
  induction ps with
  | nil => intro p; simp
  | cons a ps ih =>
    intro p
    obtain ⟨⟨h1, h2⟩, h3⟩ := ih (p.max a)
    simp only [List.foldl_cons]
    have hx : p.x ≤ (p.max a).x ∧ a.x ≤ (p.max a).x := ⟨le_max_left _ _, le_max_right _ _⟩
    have hy : p.y ≤ (p.max a).y ∧ a.y ≤ (p.max a).y := ⟨le_max_left _ _, le_max_right _ _⟩
    refine ⟨⟨le_trans hx.1 h1, le_trans hy.1 h2⟩, ?_⟩
    intro q hq
    rcases List.mem_cons.mp hq with e | e
    · rw [e]; exact ⟨le_trans hx.2 h1, le_trans hy.2 h2⟩
    · exact h3 q e

/-- Every vertex of the polygon lies in its bounding box. -/
theorem in_bbox_of_mem (poly : List (vec2f K)) (q : vec2f K) (hq : q ∈ poly) :
    in_bbox poly q := by
  cases poly with
  | nil => simp at hq
  | cons p ps =>
    obtain ⟨⟨a1, a2⟩, a3⟩ := foldl_min_le ps p
    obtain ⟨⟨b1, b2⟩, b3⟩ := le_foldl_max ps p
    simp only [in_bbox, bbox_min, bbox_max]
    rcases List.mem_cons.mp hq with e | e
    · rw [e]; exact ⟨a1, b1, a2, b2⟩
    · exact ⟨(a3 q e).1, (b3 q e).1, (a3 q e).2, (b3 q e).2⟩

theorem sq_diff_le_of_between (lo hi a b : K) (ha0 : lo ≤ a) (ha1 : a ≤ hi) (hb0 : lo ≤ b)
    (hb1 : b ≤ hi) : (a - b) * (a - b) ≤ (lo - hi) * (lo - hi) := by
  nlinarith [mul_nonneg (sub_nonneg.mpr ha0) (sub_nonneg.mpr hb1),
    mul_nonneg (sub_nonneg.mpr hb0) (sub_nonneg.mpr ha1),
    mul_nonneg (sub_nonneg.mpr ha0) (sub_nonneg.mpr ha1),
    mul_nonneg (sub_nonneg.mpr hb0) (sub_nonneg.mpr hb1)]

/-- Two points of the bounding box are no further apart than its diagonal. -/
theorem norm2_le_diag (poly : List (vec2f K)) (a q : vec2f K) (ha : in_bbox poly a)
    (hq : in_bbox poly q) :
    vec2f.norm2 (q.sub a) ≤ vec2f.norm2 ((bbox_min poly).sub (bbox_max poly)) := by
  obtain ⟨a1, a2, a3, a4⟩ := ha
  obtain ⟨q1, q2, q3, q4⟩ := hq
  simp only [vec2f.norm2, vec2f.sub]
  exact add_le_add (sq_diff_le_of_between _ _ _ _ q1 q2 a1 a2)
    (sq_diff_le_of_between _ _ _ _ q3 q4 a3 a4)

/-- Every point of the rectangle of an edge is on or to the left of the edge line. -/
theorem edge_rectangle_left (B : Backend K) (delta : K) (A B0 : vec2f K)
    (hL : 0 ≤ vec2f.length B (B0.sub A)) (hdelta : 0 ≤ delta) (q : vec2f K)
    (hq : in_rectangle (edge_rectangle B delta A B0) q) : 0 ≤ orient2d A B0 q := by
  simp only [in_rectangle, edge_rectangle] at hq
  obtain ⟨s, t, -, -, ht0, -, hx, hy⟩ := hq
  have key : orient2d A B0 q = t * delta *
      (((B0.x - A.x) * (B0.x - A.x) + (B0.y - A.y) * (B0.y - A.y)) /
        vec2f.length B (B0.sub A)) := by
    simp only [orient2d]
    rw [hx, hy]
    simp only [vec2f.sub, vec2f.add, vec2f.scale, vec2f.normalize]
    ring
  rw [key]
  exact mul_nonneg (mul_nonneg ht0 hdelta)
    (div_nonneg (add_nonneg (mul_self_nonneg _) (mul_self_nonneg _)) hL)

/-- Core of the containment: a point within distance `delta` of `a`, on the left of
the unit direction `(ux, uy)`, is in the rectangle spanned from `a - delta*u` by
`(L + 2*delta)*u` and `delta*v`. -/
theorem rectangle_core (ax ay bx by0 qx qy ux uy L delta : K)
    (hu : ux * ux + uy * uy = 1) (hL : 0 < L) (hdelta : 0 ≤ delta)
    (hbx : bx - ax = L * ux) (hby : by0 - ay = L * uy)
    (hq : (qx - ax) * (qx - ax) + (qy - ay) * (qy - ay) ≤ delta * delta)
    (hleft : 0 ≤ (qy - ay) * ux - (qx - ax) * uy) :
    ∃ s t : K, 0 ≤ s ∧ s ≤ 1 ∧ 0 ≤ t ∧ t ≤ 1 ∧
      qx = (ax - ux * delta) + s * ((bx + ux * delta) - (ax - ux * delta)) +
        t * ((ax - ux * delta + -uy * delta) - (ax - ux * delta)) ∧
      qy = (ay - uy * delta) + s * ((by0 + uy * delta) - (ay - uy * delta)) +
        t * ((ay - uy * delta + ux * delta) - (ay - uy * delta)) := by
  obtain ⟨a, ha⟩ : ∃ a, a = (qx - ax) * ux + (qy - ay) * uy := ⟨_, rfl⟩
  obtain ⟨b, hb⟩ : ∃ b, b = (qy - ay) * ux - (qx - ax) * uy := ⟨_, rfl⟩
  rw [← hb] at hleft
  have hsum : a * a + b * b = (qx - ax) * (qx - ax) + (qy - ay) * (qy - ay) := by
    have : a * a + b * b =
        ((qx - ax) * (qx - ax) + (qy - ay) * (qy - ay)) * (ux * ux + uy * uy) := by
      rw [ha, hb]; ring
    rw [this, hu, mul_one]
  have hab : a * a + b * b ≤ delta * delta := by rw [hsum]; exact hq
  have ha2 : a * a ≤ delta * delta := by linarith [mul_self_nonneg b]
  have hb2 : b * b ≤ delta * delta := by linarith [mul_self_nonneg a]
  have habs : |a| ≤ delta :=
    (mul_self_le_mul_self_iff (abs_nonneg a) hdelta).mpr (by rw [abs_mul_abs_self]; exact ha2)
  have hbbs : |b| ≤ delta :=
    (mul_self_le_mul_self_iff (abs_nonneg b) hdelta).mpr (by rw [abs_mul_abs_self]; exact hb2)
  have ha_le : a ≤ delta := le_trans (le_abs_self a) habs
  have ha_ge : -delta ≤ a := le_trans (neg_le_neg habs) (neg_abs_le a)
  have hb_le : b ≤ delta := le_trans (le_abs_self b) hbbs
  have hden : 0 < L + 2 * delta := by linarith
  have hqx : qx - ax = a * ux - b * uy := by
    have : a * ux - b * uy = (qx - ax) * (ux * ux + uy * uy) := by rw [ha, hb]; ring
    rw [this, hu, mul_one]
  have hqy : qy - ay = a * uy + b * ux := by
    have : a * uy + b * ux = (qy - ay) * (ux * ux + uy * uy) := by rw [ha, hb]; ring
    rw [this, hu, mul_one]
  have hs : (a + delta) / (L + 2 * delta) * (L + 2 * delta) = a + delta :=
    div_mul_cancel₀ _ (ne_of_gt hden)
  have ht : b / delta * delta = b := by
    rcases eq_or_lt_of_le hdelta with h0 | h0
    · have hb0 : b = 0 := by
        rw [← h0] at hb2
        have : b * b = 0 := le_antisymm (by simpa using hb2) (mul_self_nonneg b)
        exact mul_self_eq_zero.mp this
      rw [hb0]; simp
    · exact div_mul_cancel₀ _ (ne_of_gt h0)
  refine ⟨(a + delta) / (L + 2 * delta), b / delta, ?_, ?_, ?_, ?_, ?_, ?_⟩
  · exact div_nonneg (by linarith) (le_of_lt hden)
  · rw [div_le_one hden]; linarith
  · exact div_nonneg hleft hdelta
  · rcases eq_or_lt_of_le hdelta with h0 | h0
    · rw [← h0]; simp
    · rw [div_le_one h0]; exact hb_le
  · have e1 : (bx + ux * delta) - (ax - ux * delta) = (L + 2 * delta) * ux := by
      linear_combination hbx
    have e2 : (ax - ux * delta + -uy * delta) - (ax - ux * delta) = -(delta * uy) := by ring
    rw [e1, e2]
    linear_combination hqx - ux * hs + uy * ht
  · have e1 : (by0 + uy * delta) - (ay - uy * delta) = (L + 2 * delta) * uy := by
      linear_combination hby
    have e2 : (ay - uy * delta + ux * delta) - (ay - uy * delta) = delta * ux := by ring
    rw [e1, e2]
    linear_combination hqy - uy * hs - ux * ht

/-- The rectangle of an edge contains every point on or to the left of the edge line
that is within `delta` of the first endpoint. -/
theorem edge_rectangle_contains (B : Backend K) (delta : K) (A B0 : vec2f K)
    (hAB : A ≠ B0) (hlen : sqrt_exact_at B (vec2f.norm2 (B0.sub A))) (hdelta : 0 ≤ delta)
    (q : vec2f K) (hq : vec2f.norm2 (q.sub A) ≤ delta * delta)
    (hleft : 0 ≤ orient2d A B0 q) : in_rectangle (edge_rectangle B delta A B0) q := by
  obtain ⟨hL0, hLsq⟩ := hlen
  have hL0' : 0 ≤ vec2f.length B (B0.sub A) := hL0
  have hLsq' : vec2f.length B (B0.sub A) * vec2f.length B (B0.sub A) =
      (B0.x - A.x) * (B0.x - A.x) + (B0.y - A.y) * (B0.y - A.y) := hLsq
  have hpos : 0 < (B0.x - A.x) * (B0.x - A.x) + (B0.y - A.y) * (B0.y - A.y) := by
    have h0 : 0 ≤ (B0.x - A.x) * (B0.x - A.x) + (B0.y - A.y) * (B0.y - A.y) :=
      add_nonneg (mul_self_nonneg _) (mul_self_nonneg _)
    rcases eq_or_lt_of_le h0 with h | h
    · exfalso
      apply hAB
      have hx := mul_self_nonneg (B0.x - A.x)
      have hy := mul_self_nonneg (B0.y - A.y)
      have ex : (B0.x - A.x) * (B0.x - A.x) = 0 := by linarith
      have ey : (B0.y - A.y) * (B0.y - A.y) = 0 := by linarith
      apply vec2f_eq_of_coords
      · linear_combination -(mul_self_eq_zero.mp ex)
      · linear_combination -(mul_self_eq_zero.mp ey)
    · exact h
  simp only [vec2f.norm2, vec2f.sub] at hq
  have horient : orient2d A B0 q =
      (q.y - A.y) * (B0.x - A.x) - (q.x - A.x) * (B0.y - A.y) := by
    simp only [orient2d]; ring
  rw [horient] at hleft
  simp only [in_rectangle, edge_rectangle, vec2f.normalize, vec2f.add, vec2f.scale]
  generalize vec2f.length B (B0.sub A) = L at hL0' hLsq' ⊢
  simp only [vec2f.sub]
  have hL : 0 < L := by
    rcases eq_or_lt_of_le hL0' with h | h
    · rw [← h] at hLsq'
      simp only [mul_zero] at hLsq'
      rw [← hLsq'] at hpos
      exact absurd hpos (lt_irrefl _)
    · exact h
  have hLne : L ≠ 0 := ne_of_gt hL
  apply rectangle_core A.x A.y B0.x B0.y q.x q.y ((B0.x - A.x) / L) ((B0.y - A.y) / L) L
    delta ?_ hL hdelta ?_ ?_ hq ?_
  · field_simp
    linear_combination -hLsq'
  · field_simp
  · field_simp
  · have : (q.y - A.y) * ((B0.x - A.x) / L) - (q.x - A.x) * ((B0.y - A.y) / L) =
        ((q.y - A.y) * (B0.x - A.x) - (q.x - A.x) * (B0.y - A.y)) / L := by
      field_simp
    rw [this]
    exact div_nonneg hleft hL0'

/-- A non-zero vector divided by its exact length has squared norm one. -/
theorem normalize_unit (B : Backend K) (d : vec2f K) (hd : d ≠ ⟨0, 0⟩)
    (h : sqrt_exact_at B (vec2f.norm2 d)) : vec2f.norm2 (vec2f.normalize B d) = 1 := by
  obtain ⟨-, hsq⟩ := h
  have hsq2 : vec2f.length B d * vec2f.length B d = d.x * d.x + d.y * d.y := hsq
  have hne : vec2f.length B d ≠ 0 := by
    intro h0
    rw [h0, mul_zero] at hsq2
    apply hd
    have hx := mul_self_nonneg d.x
    have hy := mul_self_nonneg d.y
    have ex : d.x * d.x = 0 := by linarith
    have ey : d.y * d.y = 0 := by linarith
    exact vec2f_eq_of_coords _ _ (mul_self_eq_zero.mp ex) (mul_self_eq_zero.mp ey)
  simp only [vec2f.norm2, vec2f.normalize]
  field_simp
  linear_combination -hsq2

/-- Without rounding, for a polygon edge with distinct endpoints and a square root that
is exact at the squared edge length and at the squared diagonal: the corners of
`half_space_corners` are those of `edge_rectangle`, the normalized direction has unit
length, every point of the rectangle is on or to the left of the edge line, and every
point of the bounding box on or to the left of the edge line is in the rectangle. -/
theorem exact_rectangle_clips_like_half_plane (B : Backend K) (poly : List (vec2f K))
    (i : Nat) (hi : i < poly.length)
    (hAB : poly.getD i ⟨0, 0⟩ ≠ poly.getD ((i + 1) % poly.length) ⟨0, 0⟩)
    (hlen : sqrt_exact_at B (vec2f.norm2
      ((poly.getD ((i + 1) % poly.length) ⟨0, 0⟩).sub (poly.getD i ⟨0, 0⟩))))
    (hdiag : sqrt_exact_at B (vec2f.norm2 ((bbox_min poly).sub (bbox_max poly)))) :
    half_space_corners B poly (bbox_delta B poly) i =
      edge_rectangle B (bbox_delta B poly) (poly.getD i ⟨0, 0⟩)
        (poly.getD ((i + 1) % poly.length) ⟨0, 0⟩) ∧
    vec2f.norm2 (vec2f.normalize B
      ((poly.getD ((i + 1) % poly.length) ⟨0, 0⟩).sub (poly.getD i ⟨0, 0⟩))) = 1 ∧
    (∀ q, in_rectangle (half_space_corners B poly (bbox_delta B poly) i) q →
      0 ≤ orient2d (poly.getD i ⟨0, 0⟩) (poly.getD ((i + 1) % poly.length) ⟨0, 0⟩) q) ∧
    (∀ q, in_bbox poly q →
      0 ≤ orient2d (poly.getD i ⟨0, 0⟩) (poly.getD ((i + 1) % poly.length) ⟨0, 0⟩) q →
      in_rectangle (half_space_corners B poly (bbox_delta B poly) i) q) ∧
    (∀ q, in_bbox poly q →
      (in_rectangle (half_space_corners B poly (bbox_delta B poly) i) q ↔
        0 ≤ orient2d (poly.getD i ⟨0, 0⟩) (poly.getD ((i + 1) % poly.length) ⟨0, 0⟩) q)) := by
  have hdelta : 0 ≤ bbox_delta B poly := hdiag.1
  have hdsq : bbox_delta B poly * bbox_delta B poly =
      vec2f.norm2 ((bbox_min poly).sub (bbox_max poly)) := hdiag.2
  have hA : in_bbox poly (poly.getD i ⟨0, 0⟩) := by
    apply in_bbox_of_mem
    rw [List.getD_eq_getElem?_getD, List.getElem?_eq_getElem hi, Option.getD_some]
    exact List.getElem_mem hi
  have hleft : ∀ q, in_rectangle (half_space_corners B poly (bbox_delta B poly) i) q →
      0 ≤ orient2d (poly.getD i ⟨0, 0⟩) (poly.getD ((i + 1) % poly.length) ⟨0, 0⟩) q := by
    intro q hq
    rw [half_space_corners_eq] at hq
    exact edge_rectangle_left B _ _ _ hlen.1 hdelta q hq
  have hin : ∀ q, in_bbox poly q →
      0 ≤ orient2d (poly.getD i ⟨0, 0⟩) (poly.getD ((i + 1) % poly.length) ⟨0, 0⟩) q →
      in_rectangle (half_space_corners B poly (bbox_delta B poly) i) q := by
    intro q hq hl
    rw [half_space_corners_eq]
    apply edge_rectangle_contains B _ _ _ hAB hlen hdelta q _ hl
    rw [hdsq]
    exact norm2_le_diag poly _ q hA hq
  refine ⟨rfl, ?_, hleft, hin, fun q hq => ⟨hleft q, hin q hq⟩⟩
  apply normalize_unit B _ _ hlen
  intro h0
  apply hAB
  simp only [vec2f.sub, vec2f.mk.injEq] at h0
  apply vec2f_eq_of_coords
  · linear_combination -h0.1
  · linear_combination -h0.2

end RectangleTheorems


/-! ## Theorems: candidates, ray methods, build without the engine, file converter -/

section CandidateTheorems

theorem to_split_nodup {K : Type} (m : Trimesh K) : (to_split m).Nodup := by
  simp only [to_split]
  exact (List.nodup_range _).filter _

end CandidateTheorems

section DeterminismTheorems

/-- C27: the result of the 2D `polygon_kernel` (a fault, or the returned area with the
content of the output vector on return) is the same for two calls with the same
polygon and the same backend, whatever the output vector held before each call; it is
the result of the call with an empty output vector. -/
theorem polygon_kernel_depends_only_on_polygon {K : Type} [LinearOrderedField K]
    (B : Backend K) (poly prior prior2 : List (vec2f K)) :
    polygon_kernel B poly prior = polygon_kernel B poly prior2 ∧
    polygon_kernel B poly prior = polygon_kernel B poly [] ∧
    (∀ area kernel, polygon_kernel B poly prior = .ok (area, kernel) →
      polygon_kernel B poly prior2 = .ok (area, kernel)) := by
  have h := polygon_kernel_prior_irrelevant B poly prior prior2
  refine ⟨h, polygon_kernel_prior_irrelevant B poly prior [], ?_⟩
  intro area kernel hk
  rw [← h]; exact hk

/-- C28: in a build without `CINOLIB_USES_BOOST` the 2D `polygon_kernel` returns for
no input, the empty polygon included: it writes the error message and ends the process
with `exit(-1)`; the 3D entry point ends in the same way, and its output vector is then
as the caller passed it. -/
theorem polygon_kernel_no_boost_exits {K : Type} [LinearOrderedField K]
    (poly2 prior2 : List (vec2f K)) (poly3 prior3 : List (vec3d K)) :
    polygon_kernel_no_boost poly2 prior2 =
      .error { status := -1, message := boost_disabled_message, output := prior2 } ∧
    (∀ res, polygon_kernel_no_boost poly2 prior2 ≠ .ok res) ∧
    polygon_kernel_no_boost ([] : List (vec2f K)) prior2 =
      .error { status := -1, message := boost_disabled_message, output := prior2 } ∧
    polygon_kernel_3d_no_boost poly3 prior3 =
      .error { status := -1, message := boost_disabled_message, output := prior3 } ∧
    (∀ res, polygon_kernel_3d_no_boost poly3 prior3 ≠ .ok res) := by
  refine ⟨rfl, ?_, rfl, rfl, ?_⟩
  · intro res h
    simp [polygon_kernel_no_boost] at h
  · intro res h
    simp [polygon_kernel_3d_no_boost, polygon_kernel_no_boost] at h

end DeterminismTheorems

section ConverterTheorems

theorem input_reader_isSome_iff (ext : String) :
    (input_reader ext).isSome = true ↔ recognised input_formats ext := by
  simp only [recognised, input_formats, List.mem_cons, List.mem_singleton, List.not_mem_nil,
    or_false, exists_eq_or_imp, exists_eq_left, input_reader]
  split_ifs <;> simp_all

theorem output_writer_isSome_iff (ext : String) :
    (output_writer ext).isSome = true ↔ recognised output_formats ext := by
  simp only [recognised, output_formats, List.mem_cons, List.mem_singleton,
    List.not_mem_nil, or_false, exists_eq_or_imp, exists_eq_left, output_writer]
  split_ifs <;> first | (simp_all; done) | (simp_all; tauto)

/-- C29: with readers and writers that return normally, `main` of the file converter
returns 0 if and only if it gets exactly two arguments, the extension of the first is
a recognised input format and the extension of the second a recognised output format,
each spelled all-uppercase or all-lowercase; in every other case it returns -1; when
it returns 0 it has called one reader and one writer; with a wrong argument count or
an unrecognised input extension it calls no reader and no writer; with an
unrecognised output extension only, it has called the reader and no writer. -/
theorem file_converter_main_status (get_file_extension : String → String)
    (argv : List String) :
    ((file_converter.main get_file_extension argv).status = 0 ↔
      argv.length = 3 ∧
      recognised input_formats (get_file_extension (argv.getD 1 "")) ∧
      recognised output_formats (get_file_extension (argv.getD 2 ""))) ∧
    ((file_converter.main get_file_extension argv).status ≠ 0 →
      (file_converter.main get_file_extension argv).status = -1) ∧
    ((file_converter.main get_file_extension argv).status = 0 →
      (file_converter.main get_file_extension argv).reader =
        input_reader (get_file_extension (argv.getD 1 "")) ∧
      (file_converter.main get_file_extension argv).writer =
        output_writer (get_file_extension (argv.getD 2 "")) ∧
      (file_converter.main get_file_extension argv).reader.isSome = true ∧
      (file_converter.main get_file_extension argv).writer.isSome = true) ∧
    (argv.length ≠ 3 ∨ ¬ recognised input_formats (get_file_extension (argv.getD 1 "")) →
      (file_converter.main get_file_extension argv).reader = none ∧
      (file_converter.main get_file_extension argv).writer = none) ∧
    (argv.length = 3 → recognised input_formats (get_file_extension (argv.getD 1 "")) →
      ¬ recognised output_formats (get_file_extension (argv.getD 2 "")) →
      (file_converter.main get_file_extension argv).reader =
        input_reader (get_file_extension (argv.getD 1 "")) ∧
      (file_converter.main get_file_extension argv).writer = none) := by
  rw [← input_reader_isSome_iff, ← output_writer_isSome_iff]
  simp only [file_converter.main]
  generalize get_file_extension (argv.getD 1 "") = e1
  generalize get_file_extension (argv.getD 2 "") = e2
  by_cases hlen : argv.length = 3
  · cases hr : input_reader e1 with
    | none => simp [hlen]
    | some rd =>
      cases hw : output_writer e2 with
      | none => simp [hlen]
      | some wr => simp [hlen]
  · simp [hlen]

end ConverterTheorems

section RayMethodTheorems

variable {K : Type} [LinearOrderedField K]

theorem sum_sq_pos_iff (a b c : K) : 0 < a * a + b * b + c * c ↔ a ≠ 0 ∨ b ≠ 0 ∨ c ≠ 0 := by
  have ha := mul_self_nonneg a
  have hb := mul_self_nonneg b
  have hc := mul_self_nonneg c
  constructor
  · intro h
    by_contra hcon
    obtain ⟨h1, h2⟩ := not_or.mp hcon
    obtain ⟨h3, h4⟩ := not_or.mp h2
    rw [not_not] at h1 h3 h4
    rw [h1, h3, h4] at h
    simp at h
  · rintro (h | h | h)
    · have := mul_self_pos.mpr h
      linarith
    · have := mul_self_pos.mpr h
      linarith
    · have := mul_self_pos.mpr h
      linarith

/-- Every candidate normal is orthogonal to the direction of the ray. -/
theorem candidate_normals_orthogonal (r : Ray K) :
    ∀ n ∈ r.candidate_normals, n.dot r.direction = 0 := by
  intro n hn
  simp only [Ray.candidate_normals, List.mem_cons, List.mem_singleton, List.not_mem_nil,
    or_false] at hn
  rcases hn with h | h | h <;> (rw [h]; simp only [vec3d.dot]; ring)

/-- A plane through the start point whose normal is orthogonal to the direction
contains the supporting line of the ray. -/
theorem plane_contains_line (r : Ray K) (n x : vec3d K) (hn : n.dot r.direction = 0)
    (hx : r.on_line x) : Plane.contains ⟨r.start, n⟩ x := by
  obtain ⟨t, rfl⟩ := hx
  simp only [Plane.contains, Ray.point_at, vec3d.dot, vec3d.sub, vec3d.add, vec3d.scale]
    at hn ⊢
  linear_combination t * hn

/-- The vector product of the first two candidate normals is the direction scaled by
its first component: the two are parallel exactly when that component is zero. -/
theorem candidate_normals_cross (r : Ray K) :
    (⟨-r.direction.y, r.direction.x, 0⟩ : vec3d K).cross
        ⟨-r.direction.z, 0, r.direction.x⟩ = r.direction.scale r.direction.x := by
  simp only [vec3d.cross, vec3d.scale, vec3d_eq_iff]
  refine ⟨by ring, by ring, by ring⟩

/-- The planes returned by `to_planes`, by the components of the direction that
vanish. -/
theorem to_planes_cases (NDEBUG : Bool) (sqrt : K → K) (r : Ray K)
    (hd : r.direction ≠ ⟨0, 0, 0⟩)
    (hsign : ∀ n ∈ r.candidate_normals, sqrt_sign_at sqrt (n.dot n)) :
    (r.direction.x ≠ 0 ∨ (r.direction.y ≠ 0 ∧ r.direction.z ≠ 0) →
      r.to_planes NDEBUG sqrt =
        .ok [⟨r.start, ⟨-r.direction.y, r.direction.x, 0⟩⟩,
          ⟨r.start, ⟨-r.direction.z, 0, r.direction.x⟩⟩]) ∧
    (r.direction.x = 0 ∧ r.direction.z = 0 →
      r.to_planes NDEBUG sqrt =
        .ok [⟨r.start, ⟨-r.direction.y, r.direction.x, 0⟩⟩,
          ⟨r.start, ⟨0, -r.direction.z, r.direction.y⟩⟩]) ∧
    (r.direction.x = 0 ∧ r.direction.y = 0 →
      r.to_planes NDEBUG sqrt =
        .ok [⟨r.start, ⟨-r.direction.z, 0, r.direction.x⟩⟩,
          ⟨r.start, ⟨0, -r.direction.z, r.direction.y⟩⟩]) := by
  have h0 := hsign ⟨-r.direction.y, r.direction.x, 0⟩ (by simp [Ray.candidate_normals])
  have h1 := hsign ⟨-r.direction.z, 0, r.direction.x⟩ (by simp [Ray.candidate_normals])
  have h2 := hsign ⟨0, -r.direction.z, r.direction.y⟩ (by simp [Ray.candidate_normals])
  have p0 : 0 < vec3d.length sqrt (⟨-r.direction.y, r.direction.x, 0⟩ : vec3d K) ↔
      r.direction.y ≠ 0 ∨ r.direction.x ≠ 0 := by
    have := sum_sq_pos_iff (-r.direction.y) r.direction.x 0
    simp only [ne_eq, neg_eq_zero, not_true_eq_false, or_false] at this
    exact h0.trans this
  have p1 : 0 < vec3d.length sqrt (⟨-r.direction.z, 0, r.direction.x⟩ : vec3d K) ↔
      r.direction.z ≠ 0 ∨ r.direction.x ≠ 0 := by
    have := sum_sq_pos_iff (-r.direction.z) 0 r.direction.x
    simp only [ne_eq, neg_eq_zero, not_true_eq_false, false_or] at this
    exact h1.trans this
  have p2 : 0 < vec3d.length sqrt (⟨0, -r.direction.z, r.direction.y⟩ : vec3d K) ↔
      r.direction.z ≠ 0 ∨ r.direction.y ≠ 0 := by
    have := sum_sq_pos_iff 0 (-r.direction.z) r.direction.y
    simp only [ne_eq, neg_eq_zero, not_true_eq_false, false_or] at this
    exact h2.trans this
  have hsome : r.direction.x ≠ 0 ∨ r.direction.y ≠ 0 ∨ r.direction.z ≠ 0 := by
    by_contra hcon
    obtain ⟨e1, e2⟩ := not_or.mp hcon
    obtain ⟨e3, e4⟩ := not_or.mp e2
    rw [not_not] at e1 e3 e4
    exact hd ((vec3d_eq_iff _ _).mpr ⟨e1, e3, e4⟩)
  simp only [Ray.to_planes, p0, p1, p2]
  by_cases hx : r.direction.x = 0 <;> by_cases hy : r.direction.y = 0 <;>
    by_cases hz : r.direction.z = 0 <;> simp_all

/-- C22: for a ray with a non-zero direction, with a square root that is positive
exactly when its argument is at the squared lengths of the three candidate normals,
`Ray::to_planes` returns exactly two planes, in a build with or without `NDEBUG` (the
assertion does not fail); both planes have the start point of the ray as their point
and contain it, both normals are non-zero candidate normals orthogonal to the
direction of the ray, and both planes contain the supporting line of the ray. -/
theorem Ray_to_planes_two_planes (NDEBUG : Bool) (sqrt : K → K) (r : Ray K)
    (hd : r.direction ≠ ⟨0, 0, 0⟩)
    (hsign : ∀ n ∈ r.candidate_normals, sqrt_sign_at sqrt (n.dot n)) :
    ∃ P1 P2, r.to_planes NDEBUG sqrt = .ok [P1, P2] ∧
      P1.p = r.start ∧ P2.p = r.start ∧
      Plane.contains P1 r.start ∧ Plane.contains P2 r.start ∧
      P1.n ∈ r.candidate_normals ∧ P2.n ∈ r.candidate_normals ∧
      P1.n ≠ ⟨0, 0, 0⟩ ∧ P2.n ≠ ⟨0, 0, 0⟩ ∧
      P1.n.dot r.direction = 0 ∧ P2.n.dot r.direction = 0 ∧
      ∀ x, r.on_line x → Plane.contains P1 x ∧ Plane.contains P2 x := by
  obtain ⟨c1, c2, c3⟩ := to_planes_cases NDEBUG sqrt r hd hsign
  have key : ∀ a b : vec3d K, a ∈ r.candidate_normals → b ∈ r.candidate_normals →
      a ≠ ⟨0, 0, 0⟩ → b ≠ ⟨0, 0, 0⟩ →
      r.to_planes NDEBUG sqrt = .ok [⟨r.start, a⟩, ⟨r.start, b⟩] →
      ∃ P1 P2, r.to_planes NDEBUG sqrt = .ok [P1, P2] ∧
        P1.p = r.start ∧ P2.p = r.start ∧
        Plane.contains P1 r.start ∧ Plane.contains P2 r.start ∧
        P1.n ∈ r.candidate_normals ∧ P2.n ∈ r.candidate_normals ∧
        P1.n ≠ ⟨0, 0, 0⟩ ∧ P2.n ≠ ⟨0, 0, 0⟩ ∧
        P1.n.dot r.direction = 0 ∧ P2.n.dot r.direction = 0 ∧
        ∀ x, r.on_line x → Plane.contains P1 x ∧ Plane.contains P2 x := by
    intro a b ha hb ha0 hb0 hres
    have oa := candidate_normals_orthogonal r a ha
    have ob := candidate_normals_orthogonal r b hb
    refine ⟨⟨r.start, a⟩, ⟨r.start, b⟩, hres, rfl, rfl, ?_, ?_, ha, hb, ha0, hb0, oa, ob, ?_⟩
    · simp [Plane.contains, vec3d.dot, vec3d.sub]
    · simp [Plane.contains, vec3d.dot, vec3d.sub]
    · intro x hx
      exact ⟨plane_contains_line r a x oa hx, plane_contains_line r b x ob hx⟩
  by_cases hx : r.direction.x = 0
  · by_cases hy : r.direction.y = 0
    · have hz : r.direction.z ≠ 0 := by
        intro hz
        exact hd ((vec3d_eq_iff _ _).mpr ⟨hx, hy, hz⟩)
      apply key _ _ (by simp [Ray.candidate_normals]) (by simp [Ray.candidate_normals])
        _ _ (c3 ⟨hx, hy⟩)
      · simp [vec3d_eq_iff, hz]
      · simp [vec3d_eq_iff, hz]
    · by_cases hz : r.direction.z = 0
      · apply key _ _ (by simp [Ray.candidate_normals]) (by simp [Ray.candidate_normals])
          _ _ (c2 ⟨hx, hz⟩)
        · simp [vec3d_eq_iff, hy]
        · simp [vec3d_eq_iff, hy]
      · apply key _ _ (by simp [Ray.candidate_normals]) (by simp [Ray.candidate_normals])
          _ _ (c1 (Or.inr ⟨hy, hz⟩))
        · simp [vec3d_eq_iff, hy]
        · simp [vec3d_eq_iff, hz]
  · apply key _ _ (by simp [Ray.candidate_normals]) (by simp [Ray.candidate_normals])
      _ _ (c1 (Or.inl hx))
    · simp [vec3d_eq_iff, hx]
    · simp [vec3d_eq_iff, hx]

/-- Witness for `Ray_to_planes_two_planes`: the ray from `(5,6,7)` along the first
axis gets the planes with normals `(0,1,0)` and `(0,0,1)`. -/
theorem Ray_to_planes_two_planes_witness :
    example_ray.direction ≠ ⟨0, 0, 0⟩ ∧
    (∀ n ∈ example_ray.candidate_normals, sqrt_sign_at table_sqrt (n.dot n)) ∧
    example_ray.to_planes false table_sqrt =
      .ok [⟨⟨5, 6, 7⟩, ⟨0, 1, 0⟩⟩, ⟨⟨5, 6, 7⟩, ⟨0, 0, 1⟩⟩] ∧
    ∃ P1 P2, example_ray.to_planes false table_sqrt = .ok [P1, P2] ∧
      P1.p = example_ray.start ∧ P2.p = example_ray.start ∧
      Plane.contains P1 example_ray.start ∧ Plane.contains P2 example_ray.start ∧
      P1.n ∈ example_ray.candidate_normals ∧ P2.n ∈ example_ray.candidate_normals ∧
      P1.n ≠ ⟨0, 0, 0⟩ ∧ P2.n ≠ ⟨0, 0, 0⟩ ∧
      P1.n.dot example_ray.direction = 0 ∧ P2.n.dot example_ray.direction = 0 ∧
      ∀ x, example_ray.on_line x → Plane.contains P1 x ∧ Plane.contains P2 x :=
  ⟨by simp [example_ray],
    by norm_num [Ray.candidate_normals, example_ray, sqrt_sign_at, vec3d.dot, table_sqrt],
    by norm_num [Ray.to_planes, example_ray, vec3d.length, vec3d.dot, table_sqrt],
    Ray_to_planes_two_planes false table_sqrt example_ray (by simp [example_ray])
      (by norm_num [Ray.candidate_normals, example_ray, sqrt_sign_at, vec3d.dot,
        table_sqrt])⟩

/-- C23, failing input: the ray built from the start `(0,0,0)` and the direction
`(0,3,4)` has the unit direction `(0, 3/5, 4/5)`; `to_planes` returns two planes whose
normals `(-3/5, 0, 0)` and `(-4/5, 0, 0)` are parallel: both planes are the plane
`x = 0`, which contains the point `(0,1,0)` that is not on the line of the ray. -/
theorem Ray_to_planes_parallel_normals :
    (Ray.new fifths_sqrt ⟨0, 0, 0⟩ ⟨0, 3, 4⟩).direction = ⟨0, 3 / 5, 4 / 5⟩ ∧
    (Ray.new fifths_sqrt ⟨0, 0, 0⟩ ⟨0, 3, 4⟩).direction ≠ ⟨0, 0, 0⟩ ∧
    (Ray.new fifths_sqrt ⟨0, 0, 0⟩ ⟨0, 3, 4⟩).to_planes false fifths_sqrt =
      .ok [⟨⟨0, 0, 0⟩, ⟨-(3 / 5), 0, 0⟩⟩, ⟨⟨0, 0, 0⟩, ⟨-(4 / 5), 0, 0⟩⟩] ∧
    ¬ linearly_independent (⟨-(3 / 5), 0, 0⟩ : vec3d ℚ) ⟨-(4 / 5), 0, 0⟩ ∧
    Plane.contains (⟨⟨0, 0, 0⟩, ⟨-(3 / 5), 0, 0⟩⟩ : Plane ℚ) ⟨0, 1, 0⟩ ∧
    Plane.contains (⟨⟨0, 0, 0⟩, ⟨-(4 / 5), 0, 0⟩⟩ : Plane ℚ) ⟨0, 1, 0⟩ ∧
    ¬ (Ray.new fifths_sqrt ⟨0, 0, 0⟩ ⟨0, 3, 4⟩).on_line ⟨0, 1, 0⟩ := by
  have hdir : (Ray.new fifths_sqrt ⟨0, 0, 0⟩ ⟨0, 3, 4⟩).direction = ⟨0, 3 / 5, 4 / 5⟩ := by
    norm_num [Ray.new, vec3d.normalize, vec3d.length, vec3d.dot, fifths_sqrt]
  have hray : Ray.new fifths_sqrt ⟨0, 0, 0⟩ ⟨0, 3, 4⟩ =
      ⟨⟨0, 0, 0⟩, ⟨0, 3 / 5, 4 / 5⟩⟩ := by
    norm_num [Ray.new, vec3d.normalize, vec3d.length, vec3d.dot, fifths_sqrt]
  refine ⟨hdir, ?_, ?_, ?_, ?_, ?_, ?_⟩
  · rw [hdir]; norm_num
  · rw [hray]
    norm_num [Ray.to_planes, vec3d.length, vec3d.dot, fifths_sqrt]
  · norm_num [linearly_independent, vec3d.cross]
  · norm_num [Plane.contains, vec3d.dot, vec3d.sub]
  · norm_num [Plane.contains, vec3d.dot, vec3d.sub]
  · rw [hray]
    rintro ⟨t, ht⟩
    simp only [Ray.point_at, vec3d.add, vec3d.scale, vec3d.mk.injEq] at ht
    obtain ⟨-, h2, h3⟩ := ht
    have : t = 0 := by linarith
    rw [this] at h2
    norm_num at h2

/-- C26: `Ray::on_positive_half_space(p)` is true if and only if
`(p - start).direction >= 0`; it is true for the start point and for every point
`start + t * direction` with `t >= 0`; and whenever it is false `Ray::dist_to_point(p)`
returns the distance between `p` and the start point. -/
theorem Ray_on_positive_half_space_iff (sqrt : K → K) (r : Ray K) (p : vec3d K) :
    (r.on_positive_half_space p = true ↔ r.on_positive_half_space_spec p) ∧
    r.on_positive_half_space r.start = true ∧
    (∀ t, 0 ≤ t → r.on_positive_half_space (r.point_at t) = true) ∧
    (r.on_positive_half_space p = false →
      r.dist_to_point sqrt p = .ok (vec3d.dist sqrt r.start p) ∧
      vec3d.dist sqrt r.start p = vec3d.dist sqrt p r.start) := by
  refine ⟨?_, ?_, ?_, ?_⟩
  · simp [Ray.on_positive_half_space, Ray.on_positive_half_space_spec]
  · simp [Ray.on_positive_half_space, vec3d.dot, vec3d.sub]
  · intro t ht
    have h : (r.point_at t).sub r.start = r.direction.scale t := by
      simp [Ray.point_at, vec3d.add, vec3d.sub, vec3d.scale]
    have h2 : (r.direction.scale t).dot r.direction = t * r.direction.dot r.direction := by
      simp only [vec3d.dot, vec3d.scale]; ring
    have h3 : 0 ≤ r.direction.dot r.direction :=
      add_nonneg (add_nonneg (mul_self_nonneg _) (mul_self_nonneg _)) (mul_self_nonneg _)
    simp only [Ray.on_positive_half_space, h, h2, mul_nonneg ht h3, if_true]
  · intro hf
    have hneg : (p.sub r.start).dot r.direction < 0 := by
      simp only [Ray.on_positive_half_space] at hf
      by_contra hc
      rw [if_pos (not_lt.mp hc)] at hf
      exact absurd hf (by simp)
    constructor
    · simp only [Ray.dist_to_point, if_pos (le_of_lt hneg)]
    · simp only [vec3d.dist, vec3d.length]
      congr 1
      simp only [vec3d.dot, vec3d.sub]
      ring

end RayMethodTheorems

section DistTheorems

variable {K : Type} [LinearOrderedField K]

/-- Squared distance from `p` to the point of the line at parameter `t`, for a unit
direction. -/
theorem norm_sub_point_at (r : Ray K) (p : vec3d K) (t : K)
    (hunit : r.direction.dot r.direction = 1) :
    (p.sub (r.point_at t)).dot (p.sub (r.point_at t)) =
      (p.sub r.start).dot (p.sub r.start) - 2 * t * (p.sub r.start).dot r.direction +
        t * t := by
  have h : (p.sub (r.point_at t)).dot (p.sub (r.point_at t)) =
      (p.sub r.start).dot (p.sub r.start) - 2 * t * (p.sub r.start).dot r.direction +
        t * t * r.direction.dot r.direction := by
    simp only [Ray.point_at, vec3d.dot, vec3d.sub, vec3d.add, vec3d.scale]
    ring
  rw [h, hunit, mul_one]

theorem vec3d_dot_self_nonneg (a : vec3d K) : 0 ≤ a.dot a :=
  add_nonneg (add_nonneg (mul_self_nonneg _) (mul_self_nonneg _)) (mul_self_nonneg _)

/-- The value returned by `dist_to_point` for a unit direction, as a distance to a
point of the ray. -/
theorem dist_to_point_eq (sqrt : K → K) (r : Ray K) (p : vec3d K)
    (hunit : r.direction.dot r.direction = 1) :
    r.dist_to_point sqrt p =
      .ok (vec3d.dist sqrt p (r.point_at
        (if (p.sub r.start).dot r.direction ≤ 0 then 0
          else (p.sub r.start).dot r.direction))) := by
  by_cases hc : (p.sub r.start).dot r.direction ≤ 0
  · simp only [Ray.dist_to_point, if_pos hc, vec3d.dist, vec3d.length]
    congr 2
    simp only [Ray.point_at, vec3d.dot, vec3d.sub, vec3d.add, vec3d.scale]
    ring
  · simp only [Ray.dist_to_point, if_neg hc, hunit, one_ne_zero, if_false, div_one,
      vec3d.dist, Ray.point_at]

/-- Without narrowing, for a unit direction and a square root that is monotone on
non-negative arguments and zero at zero: `Ray.dist_to_point` returns the least
distance from `p` to the points of the ray. -/
theorem exact_dist_to_point_is_min (sqrt : K → K) (r : Ray K) (p : vec3d K)
    (hunit : r.direction.dot r.direction = 1)
    (hmono : ∀ x y : K, 0 ≤ x → x ≤ y → sqrt x ≤ sqrt y) (hzero : sqrt 0 = 0) :
    ∃ v, r.dist_to_point sqrt p = .ok v ∧ r.is_min_dist sqrt p v ∧
      ((p.sub r.start).dot r.direction ≤ 0 → v = vec3d.dist sqrt p r.start) ∧
      (0 < (p.sub r.start).dot r.direction →
        v = vec3d.dist sqrt p (r.point_at ((p.sub r.start).dot r.direction)) ∧
        (p.sub (r.point_at ((p.sub r.start).dot r.direction))).dot r.direction = 0) ∧
      v ≤ vec3d.dist sqrt p r.start ∧
      ∀ t, 0 ≤ t → r.dist_to_point sqrt (r.point_at t) = .ok 0 := by
  have hstart : vec3d.dist sqrt p (r.point_at 0) = vec3d.dist sqrt p r.start := by
    simp only [vec3d.dist, vec3d.length]
    congr 1
    simp only [Ray.point_at, vec3d.dot, vec3d.sub, vec3d.add, vec3d.scale]
    ring
  have hmin : ∀ t, 0 ≤ t → vec3d.dist sqrt p (r.point_at
      (if (p.sub r.start).dot r.direction ≤ 0 then 0
        else (p.sub r.start).dot r.direction)) ≤ vec3d.dist sqrt p (r.point_at t) := by
    intro t ht
    simp only [vec3d.dist, vec3d.length]
    apply hmono _ _ (vec3d_dot_self_nonneg _)
    rw [norm_sub_point_at r p _ hunit, norm_sub_point_at r p t hunit]
    by_cases hc : (p.sub r.start).dot r.direction ≤ 0
    · rw [if_pos hc]
      nlinarith [mul_nonneg ht (neg_nonneg.mpr hc), mul_self_nonneg t]
    · rw [if_neg hc]
      nlinarith [mul_self_nonneg (t - (p.sub r.start).dot r.direction)]
  refine ⟨_, dist_to_point_eq sqrt r p hunit, ⟨⟨_, ?_, rfl⟩, hmin⟩, ?_, ?_, ?_, ?_⟩
  · by_cases hc : (p.sub r.start).dot r.direction ≤ 0
    · rw [if_pos hc]
    · rw [if_neg hc]; exact le_of_lt (not_le.mp hc)
  · intro hc
    rw [if_pos hc, hstart]
  · intro hc
    rw [if_neg (not_le.mpr hc)]
    refine ⟨rfl, ?_⟩
    have : (p.sub (r.point_at ((p.sub r.start).dot r.direction))).dot r.direction =
        (p.sub r.start).dot r.direction -
          (p.sub r.start).dot r.direction * r.direction.dot r.direction := by
      simp only [Ray.point_at, vec3d.dot, vec3d.sub, vec3d.add, vec3d.scale]
      ring
    rw [this, hunit, mul_one, sub_self]
  · rw [← hstart]
    exact hmin 0 (le_refl 0)
  · intro t ht
    rw [dist_to_point_eq sqrt r _ hunit]
    have hc : ((r.point_at t).sub r.start).dot r.direction = t := by
      have : ((r.point_at t).sub r.start).dot r.direction =
          t * r.direction.dot r.direction := by
        simp only [Ray.point_at, vec3d.dot, vec3d.sub, vec3d.add, vec3d.scale]
        ring
      rw [this, hunit, mul_one]
    rw [hc]
    have hpar : (if t ≤ 0 then (0 : K) else t) = t := by
      by_cases h : t ≤ 0
      · rw [if_pos h]; exact le_antisymm ht h
      · rw [if_neg h]
    rw [hpar]
    simp only [vec3d.dist, vec3d.length]
    have hz : ((r.point_at t).sub (r.point_at t)).dot ((r.point_at t).sub (r.point_at t)) =
        0 := by
      simp only [vec3d.dot, vec3d.sub, sub_self, mul_zero, add_zero]
    rw [hz, hzero]

theorem floor_sqrt_mono : ∀ x y : ℚ, 0 ≤ x → x ≤ y → floor_sqrt x ≤ floor_sqrt y := by
  intro x y _ hxy
  simp only [floor_sqrt]
  exact_mod_cast Nat.sqrt_le_sqrt (Nat.floor_mono hxy)

theorem floor_sqrt_zero : floor_sqrt 0 = 0 := by
  simp [floor_sqrt]

theorem floor_sqrt_nine : floor_sqrt 9 = 3 := by
  have h : ⌊(9 : ℚ)⌋₊ = 9 := Nat.floor_ofNat 9
  have h3 : Nat.sqrt 9 = 3 := Nat.sqrt_eq 3
  simp only [floor_sqrt, h, h3]
  norm_num

end DistTheorems

/-! ## Theorems: rounding, rounded kernel, narrowed distance, degenerate inputs, candidates -/

section RoundingTheorems

theorem round_half_even_of_lt (x : ℚ) (n : ℤ) (h1 : (n : ℚ) - 1 / 2 < x)
    (h2 : x < (n : ℚ) + 1 / 2) : round_half_even x = n := by
  unfold round_half_even
  by_cases hx : (n : ℚ) ≤ x
  · have hf : ⌊x⌋ = n := Int.floor_eq_iff.mpr ⟨hx, by linarith⟩
    simp only [hf]
    rw [if_pos (by linarith)]
  · have hx2 : x < n := not_le.mp hx
    have hf : ⌊x⌋ = n - 1 := Int.floor_eq_iff.mpr ⟨by push_cast; linarith, by push_cast; linarith⟩
    simp only [hf]
    rw [if_neg (by push_cast; linarith), if_pos (by push_cast; linarith)]
    ring

theorem round_half_even_tie_down (x : ℚ) (n : ℤ) (h : x = (n : ℚ) + 1 / 2)
    (heven : n % 2 = 0) : round_half_even x = n := by
  unfold round_half_even
  have hf : ⌊x⌋ = n := Int.floor_eq_iff.mpr ⟨by linarith, by linarith⟩
  simp only [hf]
  rw [if_neg (by linarith), if_neg (by linarith), if_pos heven]

theorem round_half_even_tie_up (x : ℚ) (n : ℤ) (h : x = (n : ℚ) - 1 / 2)
    (heven : n % 2 = 0) : round_half_even x = n := by
  unfold round_half_even
  have hf : ⌊x⌋ = n - 1 := Int.floor_eq_iff.mpr ⟨by push_cast; linarith, by push_cast; linarith⟩
  simp only [hf]
  have hodd : ¬ (n - 1) % 2 = 0 := by omega
  rw [if_neg (by push_cast; linarith), if_neg (by push_cast; linarith), if_neg hodd]
  ring

theorem log_two_eq (x : ℚ) (e : ℤ) (h1 : (2 : ℚ) ^ e ≤ x) (h2 : x < (2 : ℚ) ^ (e + 1)) :
    Int.log 2 x = e := by
  have hpos : 0 < x := lt_of_lt_of_le (by positivity) h1
  have a : e ≤ Int.log 2 x := by
    have := (Int.zpow_le_iff_le_log (b := 2) (by norm_num) hpos (x := e)).mp (by exact_mod_cast h1)
    exact this
  have b : Int.log 2 x < e + 1 := by
    have := (Int.lt_zpow_iff_log_lt (b := 2) (by norm_num) hpos (x := e + 1)).mp
      (by exact_mod_cast h2)
    exact this
  omega

theorem binary32_round_pos_eq (x : ℚ) (e n : ℤ) (h1 : (2 : ℚ) ^ e ≤ x)
    (h2 : x < (2 : ℚ) ^ (e + 1)) (he : -126 ≤ e)
    (hr : round_half_even (x / 2 ^ (e - 23)) = n) :
    binary32_round_pos x = n * 2 ^ (e - 23) := by
  unfold binary32_round_pos
  rw [log_two_eq x e h1 h2, max_eq_left (by omega)]
  simp only [hr]

/-- Evaluation of the rounding at a positive value: `y` has the exponent of `x` and is
the nearest multiple of the quantum. -/
theorem binary32_round_of_pos (x y q : ℚ) (e n : ℤ) (h1 : (2 : ℚ) ^ e ≤ x)
    (h2 : x < (2 : ℚ) ^ (e + 1)) (he : -126 ≤ e) (hq : q = 2 ^ (e - 23))
    (hy : y = n * q) (hlo : ((n : ℚ) - 1 / 2) * q < x) (hhi : x < ((n : ℚ) + 1 / 2) * q) :
    binary32_round x = y := by
  have hpos : 0 < x := lt_of_lt_of_le (by positivity) h1
  have hqpos : 0 < q := by rw [hq]; positivity
  unfold binary32_round
  rw [if_neg (ne_of_gt hpos), if_pos hpos, hy, hq]
  apply binary32_round_pos_eq x e n h1 h2 he
  apply round_half_even_of_lt
  · rw [← hq, lt_div_iff₀ hqpos]; exact hlo
  · rw [← hq, div_lt_iff₀ hqpos]; exact hhi

/-- Evaluation of the rounding at a positive value half way between two neighbours:
the one with the even significand is taken. -/
theorem binary32_round_of_pos_tie (x y q : ℚ) (e n : ℤ) (h1 : (2 : ℚ) ^ e ≤ x)
    (h2 : x < (2 : ℚ) ^ (e + 1)) (he : -126 ≤ e) (hq : q = 2 ^ (e - 23))
    (hy : y = n * q) (heven : n % 2 = 0)
    (htie : x = ((n : ℚ) + 1 / 2) * q ∨ x = ((n : ℚ) - 1 / 2) * q) :
    binary32_round x = y := by
  have hpos : 0 < x := lt_of_lt_of_le (by positivity) h1
  have hqpos : 0 < q := by rw [hq]; positivity
  unfold binary32_round
  rw [if_neg (ne_of_gt hpos), if_pos hpos, hy, hq]
  apply binary32_round_pos_eq x e n h1 h2 he
  rcases htie with h | h
  · apply round_half_even_tie_down _ _ _ heven
    rw [← hq, h]; field_simp; ring
  · apply round_half_even_tie_up _ _ _ heven
    rw [← hq, h]; field_simp; ring

theorem binary32_round_zero : binary32_round 0 = 0 := by
  simp [binary32_round]

/-- The rounding is odd: the value at `-x` is the opposite of the value at `x`. -/
theorem binary32_round_neg (x : ℚ) : binary32_round (-x) = -binary32_round x := by
  unfold binary32_round
  rcases lt_trichotomy x 0 with h | h | h
  · rw [if_neg (by linarith), if_pos (by linarith), if_neg (ne_of_lt h), if_neg (by linarith)]
    simp
  · simp [h]
  · rw [if_neg (by linarith), if_neg (by linarith), if_neg (ne_of_gt h), if_pos h]
    simp


/-! ### Values of the rounding used below -/

theorem binary32_round_209715_524288 : binary32_round (209715 / 524288) = 209715 / 524288 := by
  apply binary32_round_of_pos (209715 / 524288) _ (1 / 33554432) (-2) 13421760 <;> norm_num

theorem binary32_round_3_5 : binary32_round (3 / 5) = 5033165 / 8388608 := by
  apply binary32_round_of_pos (3 / 5) _ (1 / 16777216) (-1) 10066330 <;> norm_num

theorem binary32_round_4_5 : binary32_round (4 / 5) = 13421773 / 16777216 := by
  apply binary32_round_of_pos (4 / 5) _ (1 / 16777216) (-1) 13421773 <;> norm_num

theorem binary32_round_1 : binary32_round (1) = 1 := by
  apply binary32_round_of_pos (1) _ (1 / 8388608) (0) 8388608 <;> norm_num

theorem binary32_round_1363149_524288 : binary32_round (1363149 / 524288) = 1363149 / 524288 := by
  apply binary32_round_of_pos (1363149 / 524288) _ (1 / 4194304) (1) 10905192 <;> norm_num

theorem binary32_round_3 : binary32_round (3) = 3 := by
  apply binary32_round_of_pos (3) _ (1 / 4194304) (1) 12582912 <;> norm_num

theorem binary32_round_4 : binary32_round (4) = 4 := by
  apply binary32_round_of_pos (4) _ (1 / 2097152) (2) 8388608 <;> norm_num

theorem binary32_round_5242879_1048576 : binary32_round (5242879 / 1048576) = 5242879 / 1048576 := by
  apply binary32_round_of_pos (5242879 / 1048576) _ (1 / 2097152) (2) 10485758 <;> norm_num

theorem binary32_round_5 : binary32_round (5) = 5 := by
  apply binary32_round_of_pos (5) _ (1 / 2097152) (2) 10485760 <;> norm_num

theorem binary32_round_8178893_1048576 : binary32_round (8178893 / 1048576) = 8178893 / 1048576 := by
  apply binary32_round_of_pos (8178893 / 1048576) _ (1 / 2097152) (2) 16357786 <;> norm_num

theorem binary32_round_65431145_8388608 : binary32_round (65431145 / 8388608) = 8178893 / 1048576 := by
  apply binary32_round_of_pos (65431145 / 8388608) _ (1 / 2097152) (2) 16357786 <;> norm_num

theorem binary32_round_9 : binary32_round (9) = 9 := by
  apply binary32_round_of_pos (9) _ (1 / 1048576) (3) 9437184 <;> norm_num

theorem binary32_round_10 : binary32_round (10) = 10 := by
  apply binary32_round_of_pos (10) _ (1 / 1048576) (3) 10485760 <;> norm_num

theorem binary32_round_174483049_16777216 : binary32_round (174483049 / 16777216) = 10905191 / 1048576 := by
  apply binary32_round_of_pos (174483049 / 16777216) _ (1 / 1048576) (3) 10905191 <;> norm_num

theorem binary32_round_10905191_1048576 : binary32_round (10905191 / 1048576) = 10905191 / 1048576 := by
  apply binary32_round_of_pos (10905191 / 1048576) _ (1 / 1048576) (3) 10905191 <;> norm_num

theorem binary32_round_11324621_1048576 : binary32_round (11324621 / 1048576) = 11324621 / 1048576 := by
  apply binary32_round_of_pos (11324621 / 1048576) _ (1 / 1048576) (3) 11324621 <;> norm_num

theorem binary32_round_12 : binary32_round (12) = 12 := by
  apply binary32_round_of_pos (12) _ (1 / 1048576) (3) 12582912 <;> norm_num

theorem binary32_round_13 : binary32_round (13) = 13 := by
  apply binary32_round_of_pos (13) _ (1 / 1048576) (3) 13631488 <;> norm_num

theorem binary32_round_15099495_1048576 : binary32_round (15099495 / 1048576) = 15099495 / 1048576 := by
  apply binary32_round_of_pos (15099495 / 1048576) _ (1 / 1048576) (3) 15099495 <;> norm_num

theorem binary32_round_15 : binary32_round (15) = 15 := by
  apply binary32_round_of_pos (15) _ (1 / 1048576) (3) 15728640 <;> norm_num

theorem binary32_round_125829125_8388608 : binary32_round (125829125 / 8388608) = 15728641 / 1048576 := by
  apply binary32_round_of_pos (125829125 / 8388608) _ (1 / 1048576) (3) 15728641 <;> norm_num

theorem binary32_round_15728641_1048576 : binary32_round (15728641 / 1048576) = 15728641 / 1048576 := by
  apply binary32_round_of_pos (15728641 / 1048576) _ (1 / 1048576) (3) 15728641 <;> norm_num

theorem binary32_round_16 : binary32_round (16) = 16 := by
  apply binary32_round_of_pos (16) _ (1 / 524288) (4) 8388608 <;> norm_num

theorem binary32_round_4771021_262144 : binary32_round (4771021 / 262144) = 4771021 / 262144 := by
  apply binary32_round_of_pos (4771021 / 262144) _ (1 / 524288) (4) 9542042 <;> norm_num

theorem binary32_round_20 : binary32_round (20) = 20 := by
  apply binary32_round_of_pos (20) _ (1 / 524288) (4) 10485760 <;> norm_num

theorem binary32_round_335544325_16777216 : binary32_round (335544325 / 16777216) = 20 := by
  apply binary32_round_of_pos (335544325 / 16777216) _ (1 / 524288) (4) 10485760 <;> norm_num

theorem binary32_round_5819597_262144 : binary32_round (5819597 / 262144) = 5819597 / 262144 := by
  apply binary32_round_of_pos (5819597 / 262144) _ (1 / 524288) (4) 11639194 <;> norm_num

theorem binary32_round_26214399_1048576 : binary32_round (26214399 / 1048576) = 25 := by
  apply binary32_round_of_pos_tie (26214399 / 1048576) _ (1 / 524288) (4) 13107200 <;> norm_num

theorem binary32_round_25 : binary32_round (25) = 25 := by
  apply binary32_round_of_pos (25) _ (1 / 524288) (4) 13107200 <;> norm_num

theorem binary32_round_31457281_1048576 : binary32_round (31457281 / 1048576) = 30 := by
  apply binary32_round_of_pos_tie (31457281 / 1048576) _ (1 / 524288) (4) 15728640 <;> norm_num

theorem binary32_round_36700161_1048576 : binary32_round (36700161 / 1048576) = 35 := by
  apply binary32_round_of_pos (36700161 / 1048576) _ (1 / 262144) (5) 9175040 <;> norm_num

theorem binary32_round_40 : binary32_round (40) = 40 := by
  apply binary32_round_of_pos (40) _ (1 / 262144) (5) 10485760 <;> norm_num

theorem binary32_round_50 : binary32_round (50) = 50 := by
  apply binary32_round_of_pos (50) _ (1 / 262144) (5) 13107200 <;> norm_num

theorem binary32_round_57671681_1048576 : binary32_round (57671681 / 1048576) = 55 := by
  apply binary32_round_of_pos (57671681 / 1048576) _ (1 / 262144) (5) 14417920 <;> norm_num

theorem binary32_round_144 : binary32_round (144) = 144 := by
  apply binary32_round_of_pos (144) _ (1 / 65536) (7) 9437184 <;> norm_num

theorem binary32_round_169 : binary32_round (169) = 169 := by
  apply binary32_round_of_pos (169) _ (1 / 65536) (7) 11075584 <;> norm_num

theorem binary32_round_225 : binary32_round (225) = 225 := by
  apply binary32_round_of_pos (225) _ (1 / 65536) (7) 14745600 <;> norm_num

theorem binary32_round_400 : binary32_round (400) = 400 := by
  apply binary32_round_of_pos (400) _ (1 / 32768) (8) 13107200 <;> norm_num

theorem binary32_round_625 : binary32_round (625) = 625 := by
  apply binary32_round_of_pos (625) _ (1 / 16384) (9) 10240000 <;> norm_num

theorem binary32_round_16777216 : binary32_round (16777216) = 16777216 := by
  apply binary32_round_of_pos (16777216) _ (2) (24) 8388608 <;> norm_num

theorem binary32_round_16777217 : binary32_round (16777217) = 16777216 := by
  apply binary32_round_of_pos_tie (16777217) _ (2) (24) 8388608 <;> norm_num

theorem floor_sqrt_sq (n : ℕ) : floor_sqrt ((n : ℚ) * n) = n := by
  have h : ⌊((n : ℚ) * n)⌋₊ = n * n := by
    have : ((n : ℚ) * n) = ((n * n : ℕ) : ℚ) := by push_cast; ring
    rw [this, Nat.floor_natCast]
  simp only [floor_sqrt, h, Nat.sqrt_eq]

theorem floor_sqrt_one : floor_sqrt 1 = 1 := by
  have := floor_sqrt_sq 1
  norm_num at this; exact this

theorem floor_sqrt_sixteen : floor_sqrt 16 = 4 := by
  have := floor_sqrt_sq 4
  norm_num at this; exact this

theorem floor_sqrt_25 : floor_sqrt 25 = 5 := by
  have := floor_sqrt_sq 5
  norm_num at this; exact this

theorem floor_sqrt_169 : floor_sqrt 169 = 13 := by
  have := floor_sqrt_sq 13
  norm_num at this; exact this

theorem floor_sqrt_625 : floor_sqrt 625 = 25 := by
  have := floor_sqrt_sq 25
  norm_num at this; exact this

theorem floor_sqrt_nonneg : ∀ x : ℚ, 0 ≤ x → 0 ≤ floor_sqrt x := by
  intro x _
  simp only [floor_sqrt]
  exact Nat.cast_nonneg _

end RoundingTheorems

section RoundedKernelTheorems

variable {K : Type} [LinearOrderedField K]


/-- A rounding that changes no value is the identity function. -/
theorem rounding_exact {K : Type} (rnd : K → K) (h : ∀ x, rnd x = x) : rnd = fun x => x :=
  funext h

theorem bbox_delta_rounded_id (B : Backend K) (poly : List (vec2f K)) :
    bbox_delta_rounded (fun x => x) B poly = bbox_delta B poly := rfl

theorem half_space_corners_rounded_id (B : Backend K) (poly : List (vec2f K)) (delta : K)
    (i : Nat) :
    half_space_corners_rounded (fun x => x) B poly delta i =
      half_space_corners B poly delta i := rfl

theorem half_spaces_rounded_id (B : Backend K) (poly : List (vec2f K)) :
    half_spaces_rounded (fun x => x) B poly = half_spaces B poly := rfl

theorem kernel_boost_rounded_id (B : Backend K) (poly : List (vec2f K)) :
    kernel_boost_rounded (fun x => x) B poly = kernel_boost B poly := rfl

theorem polygon_kernel_rounded_id (B : Backend K) (poly kernel : List (vec2f K)) :
    polygon_kernel_rounded (fun x => x) B poly kernel = polygon_kernel B poly kernel := rfl

/-- C19, amended: in exact arithmetic (storing a coordinate changes no value), for a
polygon edge `A -> B` with `A != B`, with `delta` the length of the diagonal of the
polygon's bounding box and a square root that is exact at the squared edge length and
at the squared diagonal: the four corners built for the edge are `A - u*delta`,
`B + u*delta`, `B + u*delta + v*delta`, `A - u*delta + v*delta` with `u` the unit edge
direction and `v` its counter-clockwise normal; every point of that rectangle is on or
to the left of the edge line; every point of the bounding box that is on or to the
left of the edge line is in the rectangle; so inside the bounding box the rectangle
and the closed left half-plane have the same points. -/
theorem edge_rectangle_clips_like_half_plane (rnd : K → K) (B : Backend K)
    (poly : List (vec2f K)) (i : Nat) (hexact : ∀ x, rnd x = x) (hi : i < poly.length)
    (hAB : poly.getD i ⟨0, 0⟩ ≠ poly.getD ((i + 1) % poly.length) ⟨0, 0⟩)
    (hlen : sqrt_exact_at B (vec2f.norm2
      ((poly.getD ((i + 1) % poly.length) ⟨0, 0⟩).sub (poly.getD i ⟨0, 0⟩))))
    (hdiag : sqrt_exact_at B (vec2f.norm2 ((bbox_min poly).sub (bbox_max poly)))) :
    half_space_corners_rounded rnd B poly (bbox_delta_rounded rnd B poly) i =
      edge_rectangle B (bbox_delta B poly) (poly.getD i ⟨0, 0⟩)
        (poly.getD ((i + 1) % poly.length) ⟨0, 0⟩) ∧
    bbox_delta_rounded rnd B poly * bbox_delta_rounded rnd B poly =
      vec2f.norm2 ((bbox_max poly).sub (bbox_min poly)) ∧
    vec2f.norm2 (vec2f.normalize B
      ((poly.getD ((i + 1) % poly.length) ⟨0, 0⟩).sub (poly.getD i ⟨0, 0⟩))) = 1 ∧
    (∀ q, in_rectangle
        (half_space_corners_rounded rnd B poly (bbox_delta_rounded rnd B poly) i) q →
      0 ≤ orient2d (poly.getD i ⟨0, 0⟩) (poly.getD ((i + 1) % poly.length) ⟨0, 0⟩) q) ∧
    (∀ q, in_bbox poly q →
      0 ≤ orient2d (poly.getD i ⟨0, 0⟩) (poly.getD ((i + 1) % poly.length) ⟨0, 0⟩) q →
      in_rectangle
        (half_space_corners_rounded rnd B poly (bbox_delta_rounded rnd B poly) i) q) ∧
    (∀ q, in_bbox poly q →
      (in_rectangle
          (half_space_corners_rounded rnd B poly (bbox_delta_rounded rnd B poly) i) q ↔
        0 ≤ orient2d (poly.getD i ⟨0, 0⟩) (poly.getD ((i + 1) % poly.length) ⟨0, 0⟩) q)) := by
  rw [rounding_exact rnd hexact, bbox_delta_rounded_id, half_space_corners_rounded_id]
  obtain ⟨h1, h2, h3, h4, h5⟩ :=
    exact_rectangle_clips_like_half_plane B poly i hi hAB hlen hdiag
  refine ⟨h1, ?_, h2, h3, h4, h5⟩
  have hd : bbox_delta B poly * bbox_delta B poly =
      vec2f.norm2 ((bbox_min poly).sub (bbox_max poly)) := hdiag.2
  rw [hd]
  simp only [vec2f.norm2, vec2f.sub]
  ring

/-- Witness for `edge_rectangle_clips_like_half_plane`: edge 0 of the triangle
`(0,0), (3,4), (5,12)` without rounding; `delta = 13` and the rectangle has the corners
`(-39/5, -52/5)`, `(54/5, 72/5)`, `(2/5, 111/5)`, `(-91/5, -13/5)`. -/
theorem edge_rectangle_clips_like_half_plane_witness :
    (∀ x : ℚ, (fun y : ℚ => y) x = x) ∧
    0 < example_triangle.length ∧
    example_triangle.getD 0 ⟨0, 0⟩ ≠
      example_triangle.getD ((0 + 1) % example_triangle.length) ⟨0, 0⟩ ∧
    sqrt_exact_at common_points_floor_backend (vec2f.norm2
      ((example_triangle.getD ((0 + 1) % example_triangle.length) ⟨0, 0⟩).sub
        (example_triangle.getD 0 ⟨0, 0⟩))) ∧
    sqrt_exact_at common_points_floor_backend
      (vec2f.norm2 ((bbox_min example_triangle).sub (bbox_max example_triangle))) ∧
    half_space_corners_rounded (fun y : ℚ => y) common_points_floor_backend example_triangle
      (bbox_delta_rounded (fun y : ℚ => y) common_points_floor_backend example_triangle) 0 =
        [⟨-39 / 5, -52 / 5⟩, ⟨54 / 5, 72 / 5⟩, ⟨2 / 5, 111 / 5⟩, ⟨-91 / 5, -13 / 5⟩] ∧
    (half_space_corners_rounded (fun y : ℚ => y) common_points_floor_backend example_triangle
        (bbox_delta_rounded (fun y : ℚ => y) common_points_floor_backend example_triangle) 0 =
      edge_rectangle common_points_floor_backend
        (bbox_delta common_points_floor_backend example_triangle)
        (example_triangle.getD 0 ⟨0, 0⟩)
        (example_triangle.getD ((0 + 1) % example_triangle.length) ⟨0, 0⟩) ∧
    bbox_delta_rounded (fun y : ℚ => y) common_points_floor_backend example_triangle *
        bbox_delta_rounded (fun y : ℚ => y) common_points_floor_backend example_triangle =
      vec2f.norm2 ((bbox_max example_triangle).sub (bbox_min example_triangle)) ∧
    vec2f.norm2 (vec2f.normalize common_points_floor_backend
      ((example_triangle.getD ((0 + 1) % example_triangle.length) ⟨0, 0⟩).sub
        (example_triangle.getD 0 ⟨0, 0⟩))) = 1 ∧
    (∀ q, in_rectangle (half_space_corners_rounded (fun y : ℚ => y)
        common_points_floor_backend example_triangle
        (bbox_delta_rounded (fun y : ℚ => y) common_points_floor_backend example_triangle)
        0) q →
      0 ≤ orient2d (example_triangle.getD 0 ⟨0, 0⟩)
        (example_triangle.getD ((0 + 1) % example_triangle.length) ⟨0, 0⟩) q) ∧
    (∀ q, in_bbox example_triangle q →
      0 ≤ orient2d (example_triangle.getD 0 ⟨0, 0⟩)
        (example_triangle.getD ((0 + 1) % example_triangle.length) ⟨0, 0⟩) q →
      in_rectangle (half_space_corners_rounded (fun y : ℚ => y)
        common_points_floor_backend example_triangle
        (bbox_delta_rounded (fun y : ℚ => y) common_points_floor_backend example_triangle)
        0) q) ∧
    (∀ q, in_bbox example_triangle q →
      (in_rectangle (half_space_corners_rounded (fun y : ℚ => y)
          common_points_floor_backend example_triangle
          (bbox_delta_rounded (fun y : ℚ => y) common_points_floor_backend
            example_triangle) 0) q ↔
        0 ≤ orient2d (example_triangle.getD 0 ⟨0, 0⟩)
          (example_triangle.getD ((0 + 1) % example_triangle.length) ⟨0, 0⟩) q))) :=
  ⟨fun _ => rfl, by decide, by simp [example_triangle],
    by norm_num [sqrt_exact_at, vec2f.norm2, vec2f.sub, example_triangle,
      common_points_floor_backend, floor_sqrt_25],
    by norm_num [sqrt_exact_at, vec2f.norm2, vec2f.sub, example_triangle, bbox_min, bbox_max,
      vec2f.min, vec2f.max, common_points_floor_backend, floor_sqrt_169],
    by norm_num [half_space_corners_rounded, bbox_delta_rounded, bbox_min, bbox_max,
      vec2f.dist_rounded, vec2f.length_rounded, vec2f.normalize_rounded, vec2f.sub_rounded,
      vec2f.add_rounded, vec2f.scale_rounded, vec2f.min, vec2f.max, example_triangle,
      common_points_floor_backend, floor_sqrt_25, floor_sqrt_169],
    edge_rectangle_clips_like_half_plane (fun y : ℚ => y) common_points_floor_backend
      example_triangle 0 (fun _ => rfl) (by decide) (by simp [example_triangle])
      (by norm_num [sqrt_exact_at, vec2f.norm2, vec2f.sub, example_triangle,
        common_points_floor_backend, floor_sqrt_25])
      (by norm_num [sqrt_exact_at, vec2f.norm2, vec2f.sub, example_triangle, bbox_min,
        bbox_max, vec2f.min, vec2f.max, common_points_floor_backend, floor_sqrt_169])⟩

/-- C19, counterexample: with `binary32` coordinates, for edge 0 of the triangle
`(0,0), (3,4), (5,12)` (edge length 5 and `delta = 13`, both square roots exact), the
first corner `A - u*delta` of the rectangle is computed as
`(-8178893/2^20, -10905191/2^20)`, about `(-7.8000002, -10.4000006)`; it is a point of
the rectangle and lies strictly to the right of the edge line:
`orient2d = -2^-20`. -/
theorem edge_rectangle_corner_right_of_edge :
    example_triangle.getD 0 ⟨0, 0⟩ ≠
      example_triangle.getD ((0 + 1) % example_triangle.length) ⟨0, 0⟩ ∧
    sqrt_exact_at common_points_floor_backend (vec2f.norm2
      ((example_triangle.getD ((0 + 1) % example_triangle.length) ⟨0, 0⟩).sub
        (example_triangle.getD 0 ⟨0, 0⟩))) ∧
    sqrt_exact_at common_points_floor_backend
      (vec2f.norm2 ((bbox_min example_triangle).sub (bbox_max example_triangle))) ∧
    bbox_delta_rounded binary32_round common_points_floor_backend example_triangle = 13 ∧
    half_space_corners_rounded binary32_round common_points_floor_backend example_triangle
      (bbox_delta_rounded binary32_round common_points_floor_backend example_triangle) 0 =
        [⟨-8178893 / 1048576, -10905191 / 1048576⟩, ⟨11324621 / 1048576, 15099495 / 1048576⟩,
          ⟨209715 / 524288, 5819597 / 262144⟩, ⟨-4771021 / 262144, -1363149 / 524288⟩] ∧
    in_rectangle
      (half_space_corners_rounded binary32_round common_points_floor_backend
        example_triangle
        (bbox_delta_rounded binary32_round common_points_floor_backend example_triangle) 0)
      ⟨-8178893 / 1048576, -10905191 / 1048576⟩ ∧
    orient2d (example_triangle.getD 0 ⟨0, 0⟩)
      (example_triangle.getD ((0 + 1) % example_triangle.length) ⟨0, 0⟩)
      ⟨-8178893 / 1048576, -10905191 / 1048576⟩ = -1 / 1048576 ∧
    orient2d (example_triangle.getD 0 ⟨0, 0⟩)
      (example_triangle.getD ((0 + 1) % example_triangle.length) ⟨0, 0⟩)
      ⟨-8178893 / 1048576, -10905191 / 1048576⟩ < 0 := by
  have hdelta : bbox_delta_rounded binary32_round common_points_floor_backend
      example_triangle = 13 := by
    norm_num [bbox_delta_rounded, bbox_min, bbox_max, vec2f.dist_rounded,
      vec2f.length_rounded, vec2f.sub_rounded, vec2f.min, vec2f.max, example_triangle,
      common_points_floor_backend, floor_sqrt_169, binary32_round_neg, binary32_round_209715_524288, binary32_round_3_5, binary32_round_4_5, binary32_round_1, binary32_round_1363149_524288, binary32_round_3, binary32_round_4, binary32_round_5242879_1048576, binary32_round_5, binary32_round_8178893_1048576, binary32_round_65431145_8388608, binary32_round_9, binary32_round_10, binary32_round_174483049_16777216, binary32_round_10905191_1048576, binary32_round_11324621_1048576, binary32_round_12, binary32_round_13, binary32_round_15099495_1048576, binary32_round_15, binary32_round_125829125_8388608, binary32_round_15728641_1048576, binary32_round_16, binary32_round_4771021_262144, binary32_round_20, binary32_round_335544325_16777216, binary32_round_5819597_262144, binary32_round_26214399_1048576, binary32_round_25, binary32_round_31457281_1048576, binary32_round_36700161_1048576, binary32_round_40, binary32_round_50, binary32_round_57671681_1048576, binary32_round_144, binary32_round_169, binary32_round_225, binary32_round_400, binary32_round_625, binary32_round_16777216, binary32_round_16777217]
  have hcorners : half_space_corners_rounded binary32_round common_points_floor_backend
      example_triangle
      (bbox_delta_rounded binary32_round common_points_floor_backend example_triangle) 0 =
        [⟨-8178893 / 1048576, -10905191 / 1048576⟩, ⟨11324621 / 1048576, 15099495 / 1048576⟩,
          ⟨209715 / 524288, 5819597 / 262144⟩, ⟨-4771021 / 262144, -1363149 / 524288⟩] := by
    rw [hdelta]
    norm_num [half_space_corners_rounded, vec2f.length_rounded, vec2f.normalize_rounded,
      vec2f.sub_rounded, vec2f.add_rounded, vec2f.scale_rounded, example_triangle,
      common_points_floor_backend, floor_sqrt_25, binary32_round_neg, binary32_round_zero,
      binary32_round_209715_524288, binary32_round_3_5, binary32_round_4_5, binary32_round_1, binary32_round_1363149_524288, binary32_round_3, binary32_round_4, binary32_round_5242879_1048576, binary32_round_5, binary32_round_8178893_1048576, binary32_round_65431145_8388608, binary32_round_9, binary32_round_10, binary32_round_174483049_16777216, binary32_round_10905191_1048576, binary32_round_11324621_1048576, binary32_round_12, binary32_round_13, binary32_round_15099495_1048576, binary32_round_15, binary32_round_125829125_8388608, binary32_round_15728641_1048576, binary32_round_16, binary32_round_4771021_262144, binary32_round_20, binary32_round_335544325_16777216, binary32_round_5819597_262144, binary32_round_26214399_1048576, binary32_round_25, binary32_round_31457281_1048576, binary32_round_36700161_1048576, binary32_round_40, binary32_round_50, binary32_round_57671681_1048576, binary32_round_144, binary32_round_169, binary32_round_225, binary32_round_400, binary32_round_625, binary32_round_16777216, binary32_round_16777217]
  refine ⟨by simp [example_triangle], ?_, ?_, hdelta, hcorners, ?_, ?_, ?_⟩
  · norm_num [sqrt_exact_at, vec2f.norm2, vec2f.sub, example_triangle,
      common_points_floor_backend, floor_sqrt_25]
  · norm_num [sqrt_exact_at, vec2f.norm2, vec2f.sub, example_triangle, bbox_min, bbox_max,
      vec2f.min, vec2f.max, common_points_floor_backend, floor_sqrt_169]
  · rw [hcorners]
    exact ⟨0, 0, le_refl 0, zero_le_one, le_refl 0, zero_le_one, by ring, by ring⟩
  · norm_num [orient2d, example_triangle]
  · norm_num [orient2d, example_triangle]

end RoundedKernelTheorems

section RoundedKernelTheorems2

/-- An affine function that is non-negative at the four corners of an axis-aligned box
is non-negative at every point of the box. -/
theorem affine_nonneg_in_box {K : Type} [LinearOrderedField K]
    (a b c x0 x1 y0 y1 x y : K)
    (hx0 : x0 ≤ x) (hx1 : x ≤ x1) (hy0 : y0 ≤ y) (hy1 : y ≤ y1)
    (h00 : 0 ≤ a * x0 + b * y0 + c) (h01 : 0 ≤ a * x0 + b * y1 + c)
    (h10 : 0 ≤ a * x1 + b * y0 + c) (h11 : 0 ≤ a * x1 + b * y1 + c) :
    0 ≤ a * x + b * y + c := by
  rcases le_total 0 a with ha | ha <;> rcases le_total 0 b with hb | hb
  · have h1 := mul_le_mul_of_nonneg_left hx0 ha
    have h2 := mul_le_mul_of_nonneg_left hy0 hb
    linarith
  · have h1 := mul_le_mul_of_nonneg_left hx0 ha
    have h2 := mul_le_mul_of_nonpos_left hy1 hb
    linarith
  · have h1 := mul_le_mul_of_nonpos_left hx1 ha
    have h2 := mul_le_mul_of_nonneg_left hy0 hb
    linarith
  · have h1 := mul_le_mul_of_nonpos_left hx1 ha
    have h2 := mul_le_mul_of_nonpos_left hy1 hb
    linarith

/-- A half-plane that holds a ring with the four corners of its own bounding box holds
every point between the two bounding-box corners. -/
theorem box_ring_half_plane {K : Type} [LinearOrderedField K] (r : BoostRing K)
    (hcorners : (box_corners r).all (fun c => decide (c ∈ r)) = true)
    (a b c : K) (hall : ∀ v ∈ r, 0 ≤ a * v.x + b * v.y + c) (x y : K)
    (hx0 : (bbox_min r).x ≤ x) (hx1 : x ≤ (bbox_max r).x)
    (hy0 : (bbox_min r).y ≤ y) (hy1 : y ≤ (bbox_max r).y) :
    0 ≤ a * x + b * y + c := by
  simp only [box_corners, List.all_cons, List.all_nil, Bool.and_true, Bool.and_eq_true,
    decide_eq_true_eq] at hcorners
  obtain ⟨h00, h01, h11, h10⟩ := hcorners
  exact affine_nonneg_in_box a b c _ _ _ _ x y hx0 hx1 hy0 hy1
    (hall _ h00) (hall _ h01) (hall _ h10) (hall _ h11)

/-- The points of the ring of a box lie between the corners of any box around it. -/
theorem box_ring_bounds {K : Type} [LinearOrderedField K] (lo hi : vec2f K)
    (x0 x1 y0 y1 : K) (hx : lo.x ≤ hi.x) (hy : lo.y ≤ hi.y)
    (h1 : x0 ≤ lo.x) (h2 : hi.x ≤ x1) (h3 : y0 ≤ lo.y) (h4 : hi.y ≤ y1) :
    ∀ v ∈ ([lo, ⟨lo.x, hi.y⟩, hi, ⟨hi.x, lo.y⟩, lo] : List (vec2f K)),
      x0 ≤ v.x ∧ v.x ≤ x1 ∧ y0 ≤ v.y ∧ v.y ≤ y1 := by
  intro v hv
  simp only [List.mem_cons, List.mem_singleton, List.not_mem_nil, or_false] at hv
  rcases hv with h | h | h | h | h <;> subst h <;>
    exact ⟨by linarith, by linarith, by linarith, by linarith⟩

/-- The intersection routine for boxes returns regions contained in both operands. -/
theorem box_intersection_contained {K : Type} [LinearOrderedField K]
    (a b r : BoostPolygon K) (hr : r ∈ box_intersection a b) (q : vec2f K)
    (hq : in_convex_region r q) : in_convex_region a q ∧ in_convex_region b q := by
  unfold box_intersection at hr
  by_cases hc : ((box_corners a.outer).all (fun c => decide (c ∈ a.outer)) &&
      (box_corners b.outer).all (fun c => decide (c ∈ b.outer))) = true
  · rw [if_pos hc] at hr
    by_cases hlo : ((bbox_min a.outer).max (bbox_min b.outer)).x ≤
        ((bbox_max a.outer).min (bbox_max b.outer)).x ∧
        ((bbox_min a.outer).max (bbox_min b.outer)).y ≤
        ((bbox_max a.outer).min (bbox_max b.outer)).y
    · simp only [hlo, and_self, if_true, List.mem_singleton] at hr
      rw [Bool.and_eq_true] at hc
      obtain ⟨hca, hcb⟩ := hc
      obtain ⟨hlox, hloy⟩ := hlo
      have ha := box_ring_bounds _ _ (bbox_min a.outer).x (bbox_max a.outer).x
        (bbox_min a.outer).y (bbox_max a.outer).y hlox hloy
        (le_max_left _ _) (min_le_left _ _) (le_max_left _ _) (min_le_left _ _)
      have hb := box_ring_bounds _ _ (bbox_min b.outer).x (bbox_max b.outer).x
        (bbox_min b.outer).y (bbox_max b.outer).y hlox hloy
        (le_max_right _ _) (min_le_right _ _) (le_max_right _ _) (min_le_right _ _)
      constructor
      · intro α β γ hall
        apply hq α β γ
        intro v hv
        rw [hr] at hv
        obtain ⟨v1, v2, v3, v4⟩ := ha v hv
        exact box_ring_half_plane a.outer hca α β γ hall v.x v.y v1 v2 v3 v4
      · intro α β γ hall
        apply hq α β γ
        intro v hv
        rw [hr] at hv
        obtain ⟨v1, v2, v3, v4⟩ := hb v hv
        exact box_ring_half_plane b.outer hcb α β γ hall v.x v.y v1 v2 v3 v4
    · simp only [hlo, if_false, List.not_mem_nil] at hr
  · rw [if_neg hc] at hr
    simp at hr

/-- The backend with the intersection routine for boxes returns contained regions. -/
theorem box_backend_contained : intersection_contained box_backend := by
  intro a b r hr q hq
  exact box_intersection_contained a b r hr q hq

/-- The result of the rounded 2D `polygon_kernel` on a non-empty polygon whose loop ends
with `kernel_boost`. -/
theorem polygon_kernel_rounded_of_kernel_boost {K : Type} [LinearOrderedField K]
    (rnd : K → K) (B : Backend K) (poly prior : List (vec2f K)) (kb : BoostPolygon K)
    (pts : List (vec2f K)) (hne : poly ≠ [])
    (hkb : kernel_boost_rounded rnd B poly = .ok (some kb))
    (hpts : ring_to_kernel kb.outer = .ok pts) :
    polygon_kernel_rounded rnd B poly prior = .ok (rnd (boost_area kb), pts) := by
  cases poly with
  | nil => exact absurd rfl hne
  | cons p ps => simp [polygon_kernel_rounded, hkb, hpts, vector_clear]

/-- Value of the intersection routine for boxes on two rings that hold the corners of
their bounding boxes and whose boxes meet. -/
theorem box_intersection_eq {K : Type} [LinearOrderedField K] (a b : BoostPolygon K)
    (lo hi : vec2f K)
    (hca : ∀ c ∈ box_corners a.outer, c ∈ a.outer)
    (hcb : ∀ c ∈ box_corners b.outer, c ∈ b.outer)
    (hlo : (bbox_min a.outer).max (bbox_min b.outer) = lo)
    (hhi : (bbox_max a.outer).min (bbox_max b.outer) = hi)
    (hx : lo.x ≤ hi.x) (hy : lo.y ≤ hi.y) :
    box_intersection a b =
      [{ outer := [lo, ⟨lo.x, hi.y⟩, hi, ⟨hi.x, lo.y⟩, lo], inners := [] }] := by
  have h1 : (box_corners a.outer).all (fun c => decide (c ∈ a.outer)) = true := by
    rw [List.all_eq_true]
    intro c hc
    exact decide_eq_true (hca c hc)
  have h2 : (box_corners b.outer).all (fun c => decide (c ∈ b.outer)) = true := by
    rw [List.all_eq_true]
    intro c hc
    exact decide_eq_true (hcb c hc)
  unfold box_intersection
  rw [h1, h2, hlo, hhi]
  simp [hx, hy]

/-- The kernel computed without rounding for the rectangle `(0,0), (3,0), (3,4), (0,4)`
with the intersection routine for boxes. -/
theorem example_box_kernel :
    polygon_kernel_rounded (fun y : ℚ => y) box_backend example_box [] =
      .ok (12, [⟨3, 0⟩, ⟨3, 4⟩, ⟨0, 4⟩, ⟨0, 0⟩]) := by
  have hdelta : bbox_delta_rounded (fun y : ℚ => y) box_backend example_box = 5 := by
    norm_num [bbox_delta_rounded, bbox_min, bbox_max, vec2f.dist_rounded,
      vec2f.length_rounded, vec2f.sub_rounded, vec2f.min, vec2f.max, example_box,
      box_backend, floor_sqrt_25]
  have h0 : half_space_rounded (fun y : ℚ => y) box_backend example_box 5 0 =
      { outer := [⟨-5, 0⟩, ⟨-5, 5⟩, ⟨8, 5⟩, ⟨8, 0⟩, ⟨-5, 0⟩], inners := [] } := by
    norm_num [half_space_rounded, half_space_corners_rounded, vec2f.length_rounded,
      vec2f.normalize_rounded, vec2f.sub_rounded, vec2f.add_rounded, vec2f.scale_rounded,
      example_box, box_backend, floor_sqrt_nine, floor_sqrt_sixteen, boost_correct,
      close_ring, ring_area, ring_area_sum]
  have h1 : half_space_rounded (fun y : ℚ => y) box_backend example_box 5 1 =
      { outer := [⟨3, -5⟩, ⟨-2, -5⟩, ⟨-2, 9⟩, ⟨3, 9⟩, ⟨3, -5⟩], inners := [] } := by
    norm_num [half_space_rounded, half_space_corners_rounded, vec2f.length_rounded,
      vec2f.normalize_rounded, vec2f.sub_rounded, vec2f.add_rounded, vec2f.scale_rounded,
      example_box, box_backend, floor_sqrt_nine, floor_sqrt_sixteen, boost_correct,
      close_ring, ring_area, ring_area_sum]
  have h2 : half_space_rounded (fun y : ℚ => y) box_backend example_box 5 2 =
      { outer := [⟨8, 4⟩, ⟨8, -1⟩, ⟨-5, -1⟩, ⟨-5, 4⟩, ⟨8, 4⟩], inners := [] } := by
    norm_num [half_space_rounded, half_space_corners_rounded, vec2f.length_rounded,
      vec2f.normalize_rounded, vec2f.sub_rounded, vec2f.add_rounded, vec2f.scale_rounded,
      example_box, box_backend, floor_sqrt_nine, floor_sqrt_sixteen, boost_correct,
      close_ring, ring_area, ring_area_sum]
  have h3 : half_space_rounded (fun y : ℚ => y) box_backend example_box 5 3 =
      { outer := [⟨0, 9⟩, ⟨5, 9⟩, ⟨5, -5⟩, ⟨0, -5⟩, ⟨0, 9⟩], inners := [] } := by
    norm_num [half_space_rounded, half_space_corners_rounded, vec2f.length_rounded,
      vec2f.normalize_rounded, vec2f.sub_rounded, vec2f.add_rounded, vec2f.scale_rounded,
      example_box, box_backend, floor_sqrt_nine, floor_sqrt_sixteen, boost_correct,
      close_ring, ring_area, ring_area_sum]
  have hhs : half_spaces_rounded (fun y : ℚ => y) box_backend example_box =
      [{ outer := [⟨-5, 0⟩, ⟨-5, 5⟩, ⟨8, 5⟩, ⟨8, 0⟩, ⟨-5, 0⟩], inners := [] },
        { outer := [⟨3, -5⟩, ⟨-2, -5⟩, ⟨-2, 9⟩, ⟨3, 9⟩, ⟨3, -5⟩], inners := [] },
        { outer := [⟨8, 4⟩, ⟨8, -1⟩, ⟨-5, -1⟩, ⟨-5, 4⟩, ⟨8, 4⟩], inners := [] },
        { outer := [⟨0, 9⟩, ⟨5, 9⟩, ⟨5, -5⟩, ⟨0, -5⟩, ⟨0, 9⟩], inners := [] }] := by
    have hr : List.range example_box.length = [0, 1, 2, 3] := rfl
    rw [half_spaces_rounded, hdelta, hr]
    simp only [List.map_cons, List.map_nil, h0, h1, h2, h3]
  have hi1 : box_intersection
      ({ outer := [⟨-5, 0⟩, ⟨-5, 5⟩, ⟨8, 5⟩, ⟨8, 0⟩, ⟨-5, 0⟩], inners := [] } : BoostPolygon ℚ)
      { outer := [⟨3, -5⟩, ⟨-2, -5⟩, ⟨-2, 9⟩, ⟨3, 9⟩, ⟨3, -5⟩], inners := [] } =
      [{ outer := [⟨-2, 0⟩, ⟨-2, 5⟩, ⟨3, 5⟩, ⟨3, 0⟩, ⟨-2, 0⟩], inners := [] }] := by
    apply box_intersection_eq _ _ ⟨-2, 0⟩ ⟨3, 5⟩
    · norm_num [box_corners, bbox_min, bbox_max, vec2f.min, vec2f.max]
    · norm_num [box_corners, bbox_min, bbox_max, vec2f.min, vec2f.max]
    · norm_num [bbox_min, vec2f.min, vec2f.max]
    · norm_num [bbox_max, vec2f.min, vec2f.max]
    · norm_num
    · norm_num
  have hi2 : box_intersection
      ({ outer := [⟨-2, 0⟩, ⟨-2, 5⟩, ⟨3, 5⟩, ⟨3, 0⟩, ⟨-2, 0⟩], inners := [] } : BoostPolygon ℚ)
      { outer := [⟨8, 4⟩, ⟨8, -1⟩, ⟨-5, -1⟩, ⟨-5, 4⟩, ⟨8, 4⟩], inners := [] } =
      [{ outer := [⟨-2, 0⟩, ⟨-2, 4⟩, ⟨3, 4⟩, ⟨3, 0⟩, ⟨-2, 0⟩], inners := [] }] := by
    apply box_intersection_eq _ _ ⟨-2, 0⟩ ⟨3, 4⟩
    · norm_num [box_corners, bbox_min, bbox_max, vec2f.min, vec2f.max]
    · norm_num [box_corners, bbox_min, bbox_max, vec2f.min, vec2f.max]
    · norm_num [bbox_min, vec2f.min, vec2f.max]
    · norm_num [bbox_max, vec2f.min, vec2f.max]
    · norm_num
    · norm_num
  have hi3 : box_intersection
      ({ outer := [⟨-2, 0⟩, ⟨-2, 4⟩, ⟨3, 4⟩, ⟨3, 0⟩, ⟨-2, 0⟩], inners := [] } : BoostPolygon ℚ)
      { outer := [⟨0, 9⟩, ⟨5, 9⟩, ⟨5, -5⟩, ⟨0, -5⟩, ⟨0, 9⟩], inners := [] } =
      [{ outer := [⟨0, 0⟩, ⟨0, 4⟩, ⟨3, 4⟩, ⟨3, 0⟩, ⟨0, 0⟩], inners := [] }] := by
    apply box_intersection_eq _ _ ⟨0, 0⟩ ⟨3, 4⟩
    · norm_num [box_corners, bbox_min, bbox_max, vec2f.min, vec2f.max]
    · norm_num [box_corners, bbox_min, bbox_max, vec2f.min, vec2f.max]
    · norm_num [bbox_min, vec2f.min, vec2f.max]
    · norm_num [bbox_max, vec2f.min, vec2f.max]
    · norm_num
    · norm_num
  have hkb : kernel_boost_rounded (fun y : ℚ => y) box_backend example_box =
      .ok (some { outer := [⟨0, 0⟩, ⟨0, 4⟩, ⟨3, 4⟩, ⟨3, 0⟩, ⟨0, 0⟩], inners := [] }) := by
    rw [kernel_boost_rounded, hhs]
    simp only [intersect_loop, box_backend, hi1, hi2, hi3]
    simp
  rw [polygon_kernel_rounded_of_kernel_boost _ _ _ _ _ _ (by simp [example_box]) hkb rfl]
  norm_num [boost_area, ring_area, ring_area_sum]

/-- The value `delta` for the polygon `(0,0), (20,15)` in `binary32`. -/
theorem example_slanted_segment_delta :
    bbox_delta_rounded binary32_round common_points_floor_backend
      example_slanted_segment = 25 := by
  norm_num [bbox_delta_rounded, bbox_min, bbox_max, vec2f.dist_rounded,
    vec2f.length_rounded, vec2f.sub_rounded, vec2f.min, vec2f.max,
    example_slanted_segment, common_points_floor_backend, floor_sqrt_625,
    binary32_round_neg, binary32_round_209715_524288, binary32_round_3_5, binary32_round_4_5, binary32_round_1, binary32_round_1363149_524288, binary32_round_3, binary32_round_4, binary32_round_5242879_1048576, binary32_round_5, binary32_round_8178893_1048576, binary32_round_65431145_8388608, binary32_round_9, binary32_round_10, binary32_round_174483049_16777216, binary32_round_10905191_1048576, binary32_round_11324621_1048576, binary32_round_12, binary32_round_13, binary32_round_15099495_1048576, binary32_round_15, binary32_round_125829125_8388608, binary32_round_15728641_1048576, binary32_round_16, binary32_round_4771021_262144, binary32_round_20, binary32_round_335544325_16777216, binary32_round_5819597_262144, binary32_round_26214399_1048576, binary32_round_25, binary32_round_31457281_1048576, binary32_round_36700161_1048576, binary32_round_40, binary32_round_50, binary32_round_57671681_1048576, binary32_round_144, binary32_round_169, binary32_round_225, binary32_round_400, binary32_round_625, binary32_round_16777216, binary32_round_16777217]

/-- The corners built in `binary32` for edge 0 of the polygon `(0,0), (20,15)`. -/
theorem example_slanted_segment_corners_0 :
    half_space_corners_rounded binary32_round common_points_floor_backend
      example_slanted_segment 25 0 =
        [⟨-20, -15728641 / 1048576⟩, ⟨40, 30⟩, ⟨25, 50⟩, ⟨-35, 5242879 / 1048576⟩] := by
  norm_num [half_space_corners_rounded, vec2f.length_rounded, vec2f.normalize_rounded,
    vec2f.sub_rounded, vec2f.add_rounded, vec2f.scale_rounded, example_slanted_segment,
    common_points_floor_backend, floor_sqrt_625, binary32_round_neg, binary32_round_zero,
    binary32_round_209715_524288, binary32_round_3_5, binary32_round_4_5, binary32_round_1, binary32_round_1363149_524288, binary32_round_3, binary32_round_4, binary32_round_5242879_1048576, binary32_round_5, binary32_round_8178893_1048576, binary32_round_65431145_8388608, binary32_round_9, binary32_round_10, binary32_round_174483049_16777216, binary32_round_10905191_1048576, binary32_round_11324621_1048576, binary32_round_12, binary32_round_13, binary32_round_15099495_1048576, binary32_round_15, binary32_round_125829125_8388608, binary32_round_15728641_1048576, binary32_round_16, binary32_round_4771021_262144, binary32_round_20, binary32_round_335544325_16777216, binary32_round_5819597_262144, binary32_round_26214399_1048576, binary32_round_25, binary32_round_31457281_1048576, binary32_round_36700161_1048576, binary32_round_40, binary32_round_50, binary32_round_57671681_1048576, binary32_round_144, binary32_round_169, binary32_round_225, binary32_round_400, binary32_round_625, binary32_round_16777216, binary32_round_16777217]

/-- The corners built in `binary32` for edge 1 of the polygon `(0,0), (20,15)`. -/
theorem example_slanted_segment_corners_1 :
    half_space_corners_rounded binary32_round common_points_floor_backend
      example_slanted_segment 25 1 =
        [⟨40, 30⟩, ⟨-20, -15728641 / 1048576⟩, ⟨-5242879 / 1048576, -35⟩, ⟨55, 10⟩] := by
  norm_num [half_space_corners_rounded, vec2f.length_rounded, vec2f.normalize_rounded,
    vec2f.sub_rounded, vec2f.add_rounded, vec2f.scale_rounded, example_slanted_segment,
    common_points_floor_backend, floor_sqrt_625, binary32_round_neg, binary32_round_zero,
    binary32_round_209715_524288, binary32_round_3_5, binary32_round_4_5, binary32_round_1, binary32_round_1363149_524288, binary32_round_3, binary32_round_4, binary32_round_5242879_1048576, binary32_round_5, binary32_round_8178893_1048576, binary32_round_65431145_8388608, binary32_round_9, binary32_round_10, binary32_round_174483049_16777216, binary32_round_10905191_1048576, binary32_round_11324621_1048576, binary32_round_12, binary32_round_13, binary32_round_15099495_1048576, binary32_round_15, binary32_round_125829125_8388608, binary32_round_15728641_1048576, binary32_round_16, binary32_round_4771021_262144, binary32_round_20, binary32_round_335544325_16777216, binary32_round_5819597_262144, binary32_round_26214399_1048576, binary32_round_25, binary32_round_31457281_1048576, binary32_round_36700161_1048576, binary32_round_40, binary32_round_50, binary32_round_57671681_1048576, binary32_round_144, binary32_round_169, binary32_round_225, binary32_round_400, binary32_round_625, binary32_round_16777216, binary32_round_16777217]

/-- The kernel computed in `binary32` for the polygon `(0,0), (20,15)` with the
intersection routine that keeps the common ring points. -/
theorem example_slanted_segment_kernel :
    polygon_kernel_rounded binary32_round common_points_floor_backend
      example_slanted_segment [] =
        .ok (0, [⟨-20, -15728641 / 1048576⟩, ⟨40, 30⟩, ⟨-20, -15728641 / 1048576⟩]) := by
  have hdelta := example_slanted_segment_delta
  have h0 := example_slanted_segment_corners_0
  have h1 := example_slanted_segment_corners_1
  have hc0 : boost_correct ({ outer := [⟨-20, -15728641 / 1048576⟩, ⟨40, 30⟩, ⟨25, 50⟩,
      ⟨-35, 5242879 / 1048576⟩], inners := [] } : BoostPolygon ℚ) =
      { outer := [⟨-20, -15728641 / 1048576⟩, ⟨-35, 5242879 / 1048576⟩, ⟨25, 50⟩, ⟨40, 30⟩,
        ⟨-20, -15728641 / 1048576⟩], inners := [] } := by
    norm_num [boost_correct, close_ring, ring_area, ring_area_sum]
  have hc1 : boost_correct ({ outer := [⟨40, 30⟩, ⟨-20, -15728641 / 1048576⟩,
      ⟨-5242879 / 1048576, -35⟩, ⟨55, 10⟩], inners := [] } : BoostPolygon ℚ) =
      { outer := [⟨40, 30⟩, ⟨55, 10⟩, ⟨-5242879 / 1048576, -35⟩,
        ⟨-20, -15728641 / 1048576⟩, ⟨40, 30⟩], inners := [] } := by
    norm_num [boost_correct, close_ring, ring_area, ring_area_sum]
  have hhs : half_spaces_rounded binary32_round common_points_floor_backend
      example_slanted_segment =
      [{ outer := [⟨-20, -15728641 / 1048576⟩, ⟨-35, 5242879 / 1048576⟩, ⟨25, 50⟩, ⟨40, 30⟩,
          ⟨-20, -15728641 / 1048576⟩], inners := [] },
        { outer := [⟨40, 30⟩, ⟨55, 10⟩, ⟨-5242879 / 1048576, -35⟩,
          ⟨-20, -15728641 / 1048576⟩, ⟨40, 30⟩], inners := [] }] := by
    have hr : List.range example_slanted_segment.length = [0, 1] := rfl
    rw [half_spaces_rounded, hdelta, hr]
    simp only [List.map_cons, List.map_nil, half_space_rounded, h0, h1, hc0, hc1]
  have hkb : kernel_boost_rounded binary32_round common_points_floor_backend
      example_slanted_segment =
      .ok (some { outer := [⟨-20, -15728641 / 1048576⟩, ⟨40, 30⟩,
        ⟨-20, -15728641 / 1048576⟩, ⟨-20, -15728641 / 1048576⟩], inners := [] }) := by
    rw [kernel_boost_rounded, hhs]
    norm_num [intersect_loop, common_points_floor_backend, common_points_backend,
      List.filter_cons]
  rw [polygon_kernel_rounded_of_kernel_boost _ _ _ _ _ _ (by simp [example_slanted_segment])
    hkb rfl]
  norm_num [boost_area, ring_area, ring_area_sum, binary32_round_zero]

/-- The intersection routine that keeps the common ring points returns regions
contained in both operands, whatever the square root of the backend. -/
theorem common_points_floor_backend_contained :
    intersection_contained common_points_floor_backend := by
  intro a b r hr q hq
  exact common_points_backend_contained a b r hr q hq

/-- C4, amended: in exact arithmetic (storing a value in the coordinate type changes
nothing), with a square root that is non-negative on non-negative arguments, and
assuming only that the intersection engine returns a region contained in both of its
operands: for every polygon whose consecutive vertices are distinct, every vertex of
the kernel returned by the 2D `polygon_kernel` lies on or to the left of the supporting
line of every directed polygon edge `v_i -> v_(i+1 mod n)`. -/
theorem polygon_kernel_left_of_edges {K : Type} [LinearOrderedField K] (rnd : K → K)
    (B : Backend K) (poly prior : List (vec2f K))
    (hexact : ∀ x, rnd x = x)
    (hsqrt : ∀ x, 0 ≤ x → 0 ≤ B.sqrt x)
    (hB : intersection_contained B)
    (hdistinct : ∀ i < poly.length,
      poly.getD i ⟨0, 0⟩ ≠ poly.getD ((i + 1) % poly.length) ⟨0, 0⟩)
    (area : K) (kernel : List (vec2f K))
    (hres : polygon_kernel_rounded rnd B poly prior = .ok (area, kernel)) :
    ∀ q ∈ kernel, ∀ i < poly.length,
      0 ≤ orient2d (poly.getD i ⟨0, 0⟩) (poly.getD ((i + 1) % poly.length) ⟨0, 0⟩) q := by
  rw [rounding_exact rnd hexact, polygon_kernel_rounded_id] at hres
  exact kernel_vertices_left_of_edges_exact B poly prior hsqrt hB hdistinct area kernel hres

/-- Witness for `polygon_kernel_left_of_edges`: the rectangle `(0,0), (3,0), (3,4),
(0,4)` without rounding, with the intersection routine for boxes; the kernel is the
rectangle itself, of area 12, and its vertex `(3,4)` is strictly to the left of the
edge `(0,0) -> (3,0)`. -/
theorem polygon_kernel_left_of_edges_witness :
    (∀ x : ℚ, (fun y : ℚ => y) x = x) ∧
    (∀ x : ℚ, 0 ≤ x → 0 ≤ box_backend.sqrt x) ∧
    intersection_contained box_backend ∧
    (∀ i < example_box.length, example_box.getD i ⟨0, 0⟩ ≠
      example_box.getD ((i + 1) % example_box.length) ⟨0, 0⟩) ∧
    polygon_kernel_rounded (fun y : ℚ => y) box_backend example_box [] =
      .ok (12, [⟨3, 0⟩, ⟨3, 4⟩, ⟨0, 4⟩, ⟨0, 0⟩]) ∧
    0 < orient2d (example_box.getD 0 ⟨0, 0⟩) (example_box.getD 1 ⟨0, 0⟩) (⟨3, 4⟩ : vec2f ℚ) ∧
    (∀ q ∈ ([⟨3, 0⟩, ⟨3, 4⟩, ⟨0, 4⟩, ⟨0, 0⟩] : List (vec2f ℚ)), ∀ i < example_box.length,
      0 ≤ orient2d (example_box.getD i ⟨0, 0⟩)
        (example_box.getD ((i + 1) % example_box.length) ⟨0, 0⟩) q) := by
  have hdistinct : ∀ i < example_box.length, example_box.getD i ⟨0, 0⟩ ≠
      example_box.getD ((i + 1) % example_box.length) ⟨0, 0⟩ := by
    intro i hi
    simp only [example_box, List.length_cons, List.length_nil] at hi
    interval_cases i <;> simp [example_box]
  exact ⟨fun _ => rfl, floor_sqrt_nonneg, box_backend_contained, hdistinct,
    example_box_kernel, by norm_num [orient2d, example_box],
    polygon_kernel_left_of_edges (fun y : ℚ => y) box_backend example_box []
      (fun _ => rfl) floor_sqrt_nonneg box_backend_contained hdistinct 12 _
      example_box_kernel⟩

/-- C4, counterexample: with `binary32` coordinates, for the two-vertex polygon
`(0,0), (20,15)` (consecutive vertices distinct; edge length and `delta` are 25, both
square roots exact) the corner `A - u*delta` of the rectangle of edge 0 is computed as
`(-20, -15728641/2^20)`, about `(-20, -15.00000095)`, and the rectangle of edge 1 has
the same corner. With the intersection routine that keeps the common ring points, which
returns regions contained in both operands, that corner is a vertex of the returned
kernel, and it lies strictly to the right of the edge `(0,0) -> (20,15)`:
`orient2d = -5/2^18`. -/
theorem polygon_kernel_vertex_right_of_edge :
    (∀ x : ℚ, 0 ≤ x → 0 ≤ common_points_floor_backend.sqrt x) ∧
    intersection_contained common_points_floor_backend ∧
    (∀ i < example_slanted_segment.length, example_slanted_segment.getD i ⟨0, 0⟩ ≠
      example_slanted_segment.getD ((i + 1) % example_slanted_segment.length) ⟨0, 0⟩) ∧
    bbox_delta_rounded binary32_round common_points_floor_backend
      example_slanted_segment = 25 ∧
    half_space_corners_rounded binary32_round common_points_floor_backend
      example_slanted_segment 25 0 =
        [⟨-20, -15728641 / 1048576⟩, ⟨40, 30⟩, ⟨25, 50⟩, ⟨-35, 5242879 / 1048576⟩] ∧
    half_space_corners_rounded binary32_round common_points_floor_backend
      example_slanted_segment 25 1 =
        [⟨40, 30⟩, ⟨-20, -15728641 / 1048576⟩, ⟨-5242879 / 1048576, -35⟩, ⟨55, 10⟩] ∧
    polygon_kernel_rounded binary32_round common_points_floor_backend
      example_slanted_segment [] =
        .ok (0, [⟨-20, -15728641 / 1048576⟩, ⟨40, 30⟩, ⟨-20, -15728641 / 1048576⟩]) ∧
    orient2d (example_slanted_segment.getD 0 ⟨0, 0⟩)
      (example_slanted_segment.getD ((0 + 1) % example_slanted_segment.length) ⟨0, 0⟩)
      ⟨-20, -15728641 / 1048576⟩ = -5 / 262144 ∧
    (∃ q ∈ ([⟨-20, -15728641 / 1048576⟩, ⟨40, 30⟩, ⟨-20, -15728641 / 1048576⟩] :
        List (vec2f ℚ)), ∃ i < example_slanted_segment.length,
      orient2d (example_slanted_segment.getD i ⟨0, 0⟩)
        (example_slanted_segment.getD ((i + 1) % example_slanted_segment.length) ⟨0, 0⟩)
        q < 0) := by
  have hdistinct : ∀ i < example_slanted_segment.length,
      example_slanted_segment.getD i ⟨0, 0⟩ ≠
        example_slanted_segment.getD ((i + 1) % example_slanted_segment.length) ⟨0, 0⟩ := by
    intro i hi
    simp only [example_slanted_segment, List.length_cons, List.length_nil] at hi
    interval_cases i <;> simp [example_slanted_segment]
  refine ⟨floor_sqrt_nonneg, common_points_floor_backend_contained, hdistinct,
    example_slanted_segment_delta, example_slanted_segment_corners_0,
    example_slanted_segment_corners_1, example_slanted_segment_kernel,
    by norm_num [orient2d, example_slanted_segment], ?_⟩
  exact ⟨⟨-20, -15728641 / 1048576⟩, by simp, 0, by decide,
    by norm_num [orient2d, example_slanted_segment]⟩

end RoundedKernelTheorems2

section NarrowedDistTheorems

variable {K : Type} [LinearOrderedField K]

/-- Without narrowing the narrowed method is the method in exact arithmetic. -/
theorem Ray_dist_to_point_narrowed_id (sqrt : K → K) (r : Ray K) (p : vec3d K) :
    Ray.dist_to_point_narrowed (fun x => x) sqrt r p = r.dist_to_point sqrt p := rfl

/-- C24, amended: in exact arithmetic (storing a value in a `float` variable changes
nothing), for every ray with unit direction `u` and start `s`, every point `p` and a
square root that is monotone on non-negative arguments and zero at zero:
`Ray::dist_to_point(p)` returns a value, which is the least distance from `p` to the
points `s + t*u` with `t >= 0`; it is `|p - s|` when `(p - s).u <= 0` and the distance
from `p` to its orthogonal projection on the line otherwise; it never exceeds
`|p - s|`, and it is 0 for every point on the ray. -/
theorem Ray_dist_to_point_is_min (narrow sqrt : K → K) (r : Ray K) (p : vec3d K)
    (hexact : ∀ x, narrow x = x)
    (hunit : r.direction.dot r.direction = 1)
    (hmono : ∀ x y : K, 0 ≤ x → x ≤ y → sqrt x ≤ sqrt y) (hzero : sqrt 0 = 0) :
    ∃ v, Ray.dist_to_point_narrowed narrow sqrt r p = .ok v ∧ r.is_min_dist sqrt p v ∧
      ((p.sub r.start).dot r.direction ≤ 0 → v = vec3d.dist sqrt p r.start) ∧
      (0 < (p.sub r.start).dot r.direction →
        v = vec3d.dist sqrt p (r.point_at ((p.sub r.start).dot r.direction)) ∧
        (p.sub (r.point_at ((p.sub r.start).dot r.direction))).dot r.direction = 0) ∧
      v ≤ vec3d.dist sqrt p r.start ∧
      ∀ t, 0 ≤ t → Ray.dist_to_point_narrowed narrow sqrt r (r.point_at t) = .ok 0 := by
  rw [rounding_exact narrow hexact]
  simp only [Ray_dist_to_point_narrowed_id]
  exact exact_dist_to_point_is_min sqrt r p hunit hmono hzero

/-- Witness for `Ray_dist_to_point_is_min`: the ray from `(5,6,7)` along the first
axis and the point `(7,9,7)`, without narrowing; the projection `(7,6,7)` is at
distance 3. -/
theorem Ray_dist_to_point_is_min_witness :
    (∀ x : ℚ, (fun y : ℚ => y) x = x) ∧
    example_ray.direction.dot example_ray.direction = 1 ∧
    (∀ x y : ℚ, 0 ≤ x → x ≤ y → floor_sqrt x ≤ floor_sqrt y) ∧
    floor_sqrt 0 = 0 ∧
    Ray.dist_to_point_narrowed (fun y : ℚ => y) floor_sqrt example_ray ⟨7, 9, 7⟩ = .ok 3 ∧
    ∃ v, Ray.dist_to_point_narrowed (fun y : ℚ => y) floor_sqrt example_ray ⟨7, 9, 7⟩ =
        .ok v ∧
      example_ray.is_min_dist floor_sqrt ⟨7, 9, 7⟩ v ∧
      (((⟨7, 9, 7⟩ : vec3d ℚ).sub example_ray.start).dot example_ray.direction ≤ 0 →
        v = vec3d.dist floor_sqrt ⟨7, 9, 7⟩ example_ray.start) ∧
      (0 < ((⟨7, 9, 7⟩ : vec3d ℚ).sub example_ray.start).dot example_ray.direction →
        v = vec3d.dist floor_sqrt ⟨7, 9, 7⟩ (example_ray.point_at
          (((⟨7, 9, 7⟩ : vec3d ℚ).sub example_ray.start).dot example_ray.direction)) ∧
        ((⟨7, 9, 7⟩ : vec3d ℚ).sub (example_ray.point_at
          (((⟨7, 9, 7⟩ : vec3d ℚ).sub example_ray.start).dot
            example_ray.direction))).dot example_ray.direction = 0) ∧
      v ≤ vec3d.dist floor_sqrt ⟨7, 9, 7⟩ example_ray.start ∧
      ∀ t, 0 ≤ t → Ray.dist_to_point_narrowed (fun y : ℚ => y) floor_sqrt example_ray
        (example_ray.point_at t) = .ok 0 :=
  ⟨fun _ => rfl, by norm_num [example_ray, vec3d.dot], floor_sqrt_mono, floor_sqrt_zero,
    by norm_num [Ray.dist_to_point_narrowed, example_ray, vec3d.dot, vec3d.sub, vec3d.add,
      vec3d.scale, vec3d.length, floor_sqrt_nine],
    Ray_dist_to_point_is_min (fun y : ℚ => y) floor_sqrt example_ray ⟨7, 9, 7⟩
      (fun _ => rfl) (by norm_num [example_ray, vec3d.dot]) floor_sqrt_mono floor_sqrt_zero⟩

/-- C24, counterexample: the ray from the origin along the first axis (unit direction)
and the point `p = (16777217, 0, 0)`, which is the point of the ray at `t = 16777217`,
so its distance to the ray is 0. The scalar product `(p - s).u = 16777217 = 2^24 + 1`
is stored in the `float` variable `cos_wv` as `16777216`, the foot `Pb` becomes
`(16777216, 0, 0)`, and `Ray::dist_to_point(p)` returns 1: not 0, and not the least
distance. -/
theorem Ray_dist_to_point_narrowed_not_min :
    example_origin_ray.direction.dot example_origin_ray.direction = 1 ∧
    (∀ x y : ℚ, 0 ≤ x → x ≤ y → floor_sqrt x ≤ floor_sqrt y) ∧
    floor_sqrt 0 = 0 ∧
    (0 : ℚ) ≤ 16777217 ∧
    example_origin_ray.point_at 16777217 = ⟨16777217, 0, 0⟩ ∧
    binary32_round 16777217 = 16777216 ∧
    Ray.dist_to_point_narrowed binary32_round floor_sqrt example_origin_ray
      (example_origin_ray.point_at 16777217) = .ok 1 ∧
    vec3d.dist floor_sqrt (example_origin_ray.point_at 16777217)
      (example_origin_ray.point_at 16777217) = 0 ∧
    ¬ example_origin_ray.is_min_dist floor_sqrt (example_origin_ray.point_at 16777217) 1 := by
  have hp : example_origin_ray.point_at 16777217 = ⟨16777217, 0, 0⟩ := by
    norm_num [Ray.point_at, example_origin_ray, vec3d.add, vec3d.scale]
  have hd : vec3d.dist floor_sqrt (example_origin_ray.point_at 16777217)
      (example_origin_ray.point_at 16777217) = 0 := by
    rw [hp]
    norm_num [vec3d.dist, vec3d.length, vec3d.sub, vec3d.dot, floor_sqrt_zero]
  refine ⟨by norm_num [example_origin_ray, vec3d.dot], floor_sqrt_mono, floor_sqrt_zero,
    by norm_num, hp, binary32_round_16777217, ?_, hd, ?_⟩
  · rw [hp]
    have e1 : ((⟨16777217, 0, 0⟩ : vec3d ℚ).sub example_origin_ray.start).dot
        example_origin_ray.direction = 16777217 := by
      norm_num [example_origin_ray, vec3d.dot, vec3d.sub]
    have e2 : example_origin_ray.direction.dot example_origin_ray.direction = 1 := by
      norm_num [example_origin_ray, vec3d.dot]
    have e3 : ¬ ((16777216 : ℚ) ≤ 0) := by norm_num
    have e4 : vec3d.length floor_sqrt ((⟨16777217, 0, 0⟩ : vec3d ℚ).sub
        (example_origin_ray.start.add (example_origin_ray.direction.scale 16777216))) =
          1 := by
      norm_num [example_origin_ray, vec3d.dot, vec3d.sub, vec3d.add, vec3d.scale,
        vec3d.length, floor_sqrt_one]
    simp only [Ray.dist_to_point_narrowed, e1, e2, binary32_round_16777217,
      binary32_round_1, if_neg e3, one_ne_zero, if_false, div_one, binary32_round_16777216,
      e4]
  · intro h
    have := h.2 16777217 (by norm_num)
    rw [hd] at this
    norm_num at this

end NarrowedDistTheorems

section DegenerateGuardTheorems

variable {K : Type} [LinearOrderedField K]

/-- The test `segment_is_degenerate_2d` holds exactly for a segment of zero length. -/
theorem segment_is_degenerate_2d_iff (s0 s1 : vec2f K) :
    segment_is_degenerate_2d s0 s1 = true ↔ s0 = s1 := by
  simp [segment_is_degenerate_2d, vec_equals_2d]

/-- The test `segment_is_degenerate_3d` holds exactly for a segment of zero length. -/
theorem segment_is_degenerate_3d_iff (s0 s1 : vec3d K) :
    segment_is_degenerate_3d s0 s1 = true ↔ s0 = s1 := by
  simp [segment_is_degenerate_3d, vec_equals_3d]

/-- The test `triangle_is_degenerate_2d` holds exactly for a triangle of zero area. -/
theorem triangle_is_degenerate_2d_iff (t0 t1 t2 : vec2f K) :
    triangle_is_degenerate_2d t0 t1 t2 = true ↔ zero_area_2d t0 t1 t2 := by
  simp only [triangle_is_degenerate_2d, points_are_colinear_2d, decide_eq_true_eq,
    zero_area_2d, shoelace_area, List.cons_append, List.nil_append, cross_sum, cross2,
    orient2d]
  constructor
  · intro h
    rw [div_eq_zero_iff]
    left
    linear_combination h
  · intro h
    rcases div_eq_zero_iff.mp h with h | h
    · linear_combination h
    · exact absurd h two_ne_zero

/-- The test `triangle_is_degenerate_3d` holds exactly for a triangle of zero area. -/
theorem triangle_is_degenerate_3d_iff (t0 t1 t2 : vec3d K) :
    triangle_is_degenerate_3d t0 t1 t2 = true ↔ zero_area_3d t0 t1 t2 :=
  points_are_colinear_3d_iff t0 t1 t2

/-- The test `tet_is_degenerate` holds exactly for a tetrahedron of zero volume. -/
theorem tet_is_degenerate_iff (t0 t1 t2 t3 : vec3d K) :
    tet_is_degenerate t0 t1 t2 t3 = true ↔ zero_volume t0 t1 t2 t3 := by
  simp only [tet_is_degenerate, points_are_coplanar_3d, decide_eq_true_eq, zero_volume,
    tet_volume6, orient3d, vec3d.dot, vec3d.cross, vec3d.sub]
  constructor
  · intro h
    linear_combination -h
  · intro h
    linear_combination -h

end DegenerateGuardTheorems

section CandidateTheorems2

/-- A list without repetition has more than one element with a property exactly when
two different elements of it have the property. -/
theorem one_lt_countP_iff {α : Type} (p : α → Bool) (l : List α) (hl : l.Nodup) :
    1 < l.countP p ↔ ∃ a b, a ≠ b ∧ a ∈ l ∧ b ∈ l ∧ p a = true ∧ p b = true := by
  rw [List.countP_eq_length_filter]
  have hf : (l.filter p).Nodup := hl.filter _
  constructor
  · intro h
    cases hfl : l.filter p with
    | nil => rw [hfl] at h; simp at h
    | cons a rest =>
      cases rest with
      | nil => rw [hfl] at h; simp at h
      | cons b rest2 =>
        rw [hfl] at hf
        have hab : a ≠ b := by
          intro e
          subst e
          simp at hf
        have ha : a ∈ l.filter p := by rw [hfl]; simp
        have hb : b ∈ l.filter p := by rw [hfl]; simp
        rw [List.mem_filter] at ha hb
        exact ⟨a, b, hab, ha.1, hb.1, ha.2, hb.2⟩
  · rintro ⟨a, b, hab, ha, hb, hpa, hpb⟩
    have ha2 : a ∈ l.filter p := List.mem_filter.mpr ⟨ha, hpa⟩
    have hb2 : b ∈ l.filter p := List.mem_filter.mpr ⟨hb, hpb⟩
    cases hfl : l.filter p with
    | nil => rw [hfl] at ha2; simp at ha2
    | cons x rest =>
      cases rest with
      | nil =>
        rw [hfl] at ha2 hb2
        simp only [List.mem_singleton] at ha2 hb2
        exact absurd (ha2.trans hb2.symm) hab
      | cons y rest2 => simp

/-- The ids listed by `adj_p2e` for an existing poly are those of the existing edges
that are sides of it. -/
theorem mem_adj_p2e {K : Type} (m : Trimesh K) (pid eid : Nat) :
    eid ∈ adj_p2e m pid ↔
      ∃ t e, m.polys[pid]? = some t ∧ m.edges[eid]? = some e ∧ e.on_poly t = true := by
  unfold adj_p2e
  cases hp : m.polys[pid]? with
  | none => simp
  | some t =>
    simp only [List.mem_filter, List.mem_range]
    constructor
    · rintro ⟨hlt, hon⟩
      refine ⟨t, m.edges[eid], rfl, List.getElem?_eq_getElem hlt, ?_⟩
      rw [List.getD_eq_getElem _ _ hlt] at hon
      exact hon
    · rintro ⟨t2, e, ht, he, hon⟩
      obtain ⟨hlt, hget⟩ := List.getElem?_eq_some_iff.mp he
      refine ⟨hlt, ?_⟩
      rw [List.getD_eq_getElem _ _ hlt, hget, Option.some.inj ht]
      exact hon

/-- The list `adj_p2e` holds no edge id twice. -/
theorem adj_p2e_nodup {K : Type} (m : Trimesh K) (pid : Nat) : (adj_p2e m pid).Nodup := by
  unfold adj_p2e
  cases m.polys[pid]? with
  | none => simp
  | some t => exact (List.nodup_range _).filter _

/-- The counter of lines 77-78 exceeds one exactly when two different marked edges are
sides of the poly. -/
theorem one_lt_marked_count_iff {K : Type} (m : Trimesh K) (pid : Nat) :
    1 < marked_count m pid ↔ more_than_one_marked_side m pid := by
  unfold marked_count
  rw [one_lt_countP_iff _ _ (adj_p2e_nodup m pid)]
  have key : ∀ eid, (eid ∈ adj_p2e m pid ∧ edge_marked m eid = true) ↔
      marked_side m pid eid := by
    intro eid
    rw [mem_adj_p2e]
    unfold marked_side edge_marked
    constructor
    · rintro ⟨⟨t, e, ht, he, hon⟩, hm⟩
      obtain ⟨hlt, hget⟩ := List.getElem?_eq_some_iff.mp he
      rw [List.getD_eq_getElem _ _ hlt, hget] at hm
      exact ⟨t, e, ht, he, hm, hon⟩
    · rintro ⟨t, e, ht, he, hm, hon⟩
      obtain ⟨hlt, hget⟩ := List.getElem?_eq_some_iff.mp he
      refine ⟨⟨t, e, ht, he, hon⟩, ?_⟩
      rw [List.getD_eq_getElem _ _ hlt, hget]
      exact hm
  unfold more_than_one_marked_side
  constructor
  · rintro ⟨a, b, hab, ha, hb, hma, hmb⟩
    exact ⟨a, b, hab, (key a).mp ⟨ha, hma⟩, (key b).mp ⟨hb, hmb⟩⟩
  · rintro ⟨a, b, hab, ha, hb⟩
    have ha2 := (key a).mpr ha
    have hb2 := (key b).mpr hb
    exact ⟨a, b, hab, ha2.1, hb2.1, ha2.2, hb2.2⟩

/-- A poly with two different marked sides exists. -/
theorem more_than_one_marked_side_lt {K : Type} (m : Trimesh K) (pid : Nat)
    (h : more_than_one_marked_side m pid) : pid < num_polys m := by
  obtain ⟨a, _, _, ⟨t, _, ht, _⟩, _⟩ := h
  exact (List.getElem?_eq_some_iff.mp ht).1

/-- C21: the candidate list `to_split` contains a poly id if and only if that poly is
incident to more than one marked edge (two different marked edges of the mesh are sides
of it), and contains no id twice; a poly that is not incident to more than one marked
edge is not handed to `poly_split`; the ids handed to `poly_split` are those of
`to_split` in some order, every one of them is an existing poly, and the run performs
`to_split.size()` splits: one new vertex and two more polys for each. -/
theorem to_split_exactly_candidates {K : Type} [Field K] (m : Trimesh K) :
    (∀ pid, pid ∈ to_split m ↔ more_than_one_marked_side m pid) ∧
    (to_split m).Nodup ∧
    (∀ pid, pid ∈ to_split m → (to_split m).count pid = 1) ∧
    (∀ pid, ¬ more_than_one_marked_side m pid → pid ∉ split_order m) ∧
    (split_order m).Perm (to_split m) ∧
    (split_order m).length = (to_split m).length ∧
    (∀ pid ∈ split_order m, pid < num_polys m) ∧
    pad_creases m = split_all m (split_order m) ∧
    num_verts (pad_creases m) = num_verts m + (to_split m).length ∧
    num_polys (pad_creases m) = num_polys m + 2 * (to_split m).length := by
  have hmem : ∀ pid, pid ∈ to_split m ↔ more_than_one_marked_side m pid := by
    intro pid
    simp only [to_split, List.mem_filter, List.mem_range, decide_eq_true_eq]
    rw [one_lt_marked_count_iff]
    constructor
    · exact fun h => h.2
    · exact fun h => ⟨more_than_one_marked_side_lt m pid h, h⟩
  have hperm : (split_order m).Perm (to_split m) := by
    simp only [split_order, SORT_VEC]
    exact List.perm_insertionSort (· ≤ ·) (to_split m)
  have hvalid : ∀ pid ∈ split_order m, pid < num_polys m := fun pid hpid =>
    ((mem_split_order m pid).mp hpid).1
  have hcounts := split_all_counts (split_order m) m hvalid
  rw [length_split_order] at hcounts
  refine ⟨hmem, to_split_nodup m, ?_, ?_, hperm, length_split_order m, hvalid, rfl,
    hcounts.1, hcounts.2⟩
  · intro pid hpid
    exact List.count_eq_one_of_mem (to_split_nodup m) hpid
  · intro pid hno hin
    exact hno ((hmem pid).mp (hperm.mem_iff.mp hin))

/-- Witness for `to_split_exactly_candidates`: in `example_mesh_one_candidate` the
marked edges 0 and 1 are sides of poly 0 and only the marked edge 1 is a side of
poly 1; the candidate list is `[0]`, one split is performed, and the mesh grows from
4 to 5 vertices and from 2 to 4 polys. -/
theorem to_split_exactly_candidates_witness :
    to_split example_mesh_one_candidate = [0] ∧
    split_order example_mesh_one_candidate = [0] ∧
    marked_side example_mesh_one_candidate 0 0 ∧
    marked_side example_mesh_one_candidate 0 1 ∧
    more_than_one_marked_side example_mesh_one_candidate 0 ∧
    ¬ more_than_one_marked_side example_mesh_one_candidate 1 ∧
    num_verts (pad_creases example_mesh_one_candidate) = 5 ∧
    num_polys (pad_creases example_mesh_one_candidate) = 4 ∧
    ((∀ pid, pid ∈ to_split example_mesh_one_candidate ↔
        more_than_one_marked_side example_mesh_one_candidate pid) ∧
      (to_split example_mesh_one_candidate).Nodup ∧
      (∀ pid, pid ∈ to_split example_mesh_one_candidate →
        (to_split example_mesh_one_candidate).count pid = 1) ∧
      (∀ pid, ¬ more_than_one_marked_side example_mesh_one_candidate pid →
        pid ∉ split_order example_mesh_one_candidate) ∧
      (split_order example_mesh_one_candidate).Perm (to_split example_mesh_one_candidate) ∧
      (split_order example_mesh_one_candidate).length =
        (to_split example_mesh_one_candidate).length ∧
      (∀ pid ∈ split_order example_mesh_one_candidate,
        pid < num_polys example_mesh_one_candidate) ∧
      pad_creases example_mesh_one_candidate =
        split_all example_mesh_one_candidate (split_order example_mesh_one_candidate) ∧
      num_verts (pad_creases example_mesh_one_candidate) =
        num_verts example_mesh_one_candidate +
          (to_split example_mesh_one_candidate).length ∧
      num_polys (pad_creases example_mesh_one_candidate) =
        num_polys example_mesh_one_candidate +
          2 * (to_split example_mesh_one_candidate).length) := by
  have h := to_split_exactly_candidates example_mesh_one_candidate
  have hts : to_split example_mesh_one_candidate = [0] := by decide
  have hso : split_order example_mesh_one_candidate = [0] := by decide
  have h00 : marked_side example_mesh_one_candidate 0 0 :=
    ⟨⟨0, 1, 2⟩, ⟨0, 1, true⟩, rfl, rfl, rfl, rfl⟩
  have h01 : marked_side example_mesh_one_candidate 0 1 :=
    ⟨⟨0, 1, 2⟩, ⟨1, 2, true⟩, rfl, rfl, rfl, rfl⟩
  have hv : num_verts (pad_creases example_mesh_one_candidate) = 5 := by
    rw [h.2.2.2.2.2.2.2.2.1, hts]; rfl
  have hp : num_polys (pad_creases example_mesh_one_candidate) = 4 := by
    rw [h.2.2.2.2.2.2.2.2.2, hts]; rfl
  refine ⟨hts, hso, h00, h01, ⟨0, 1, by decide, h00, h01⟩, ?_, hv, hp, h⟩
  intro hmore
  have := (h.1 1).mpr hmore
  rw [hts] at this
  simp at this

end CandidateTheorems2

section LiftTheorems

/-- Two lists of points of space that agree in `x` and `y`, position by position, have
the same `(x,y)` projection. -/
theorem map_drop_z_eq_of_same_xy {K : Type} (l1 l2 : List (vec3d K))
    (h : List.Forall₂ (fun a b => a.x = b.x ∧ a.y = b.y) l1 l2) :
    l1.map vec3d.drop_z = l2.map vec3d.drop_z := by
  induction h with
  | nil => rfl
  | cons hab _ ih =>
    simp only [List.map_cons, ih, vec3d.drop_z, hab.1, hab.2]

/-- C6: for every 3D polygon whose `(x,y)` projection (the points `(p.x, p.y)`, in the
same order) has a kernel of positive area according to the 2D solver, the 3D
`polygon_kernel` returns the same area and its output vector holds, whatever it held
before, as many points as the 2D kernel, the point at each position being the 2D
kernel point at that position with the same `x`, the same `y` and `z = 0`; every other
input with as many points that differs from the polygon only in the `z` coordinates
gives the same result. -/
theorem polygon_kernel_3d_positive {K : Type} [LinearOrderedField K]
    (B : Backend K) (poly : List (vec3d K)) (prior_2d : List (vec2f K))
    (area : K) (kernel_2d : List (vec2f K))
    (h2d : polygon_kernel B (poly.map fun p => (⟨p.x, p.y⟩ : vec2f K)) prior_2d =
      .ok (area, kernel_2d))
    (hpos : 0 < area) :
    (∀ prior, ∃ kernel, polygon_kernel_3d B poly prior = .ok (area, kernel) ∧
      kernel = kernel_2d.map (fun q => (⟨q.x, q.y, 0⟩ : vec3d K)) ∧
      kernel.length = kernel_2d.length ∧
      ∀ i (h3 : i < kernel.length) (h2 : i < kernel_2d.length),
        (kernel.get ⟨i, h3⟩).x = (kernel_2d.get ⟨i, h2⟩).x ∧
        (kernel.get ⟨i, h3⟩).y = (kernel_2d.get ⟨i, h2⟩).y ∧
        (kernel.get ⟨i, h3⟩).z = 0) ∧
    (∀ poly2 prior prior2, List.Forall₂ (fun a b => a.x = b.x ∧ a.y = b.y) poly2 poly →
      polygon_kernel_3d B poly2 prior2 = polygon_kernel_3d B poly prior) := by
  have hproj : (poly.map fun p => (⟨p.x, p.y⟩ : vec2f K)) = poly.map vec3d.drop_z := rfl
  rw [hproj] at h2d
  have h0 : polygon_kernel B (poly.map vec3d.drop_z) [] = .ok (area, kernel_2d) := by
    rw [polygon_kernel_prior_irrelevant B _ [] prior_2d]; exact h2d
  have key : ∀ prior, polygon_kernel_3d B poly prior =
      .ok (area, kernel_2d.map (fun q => (⟨q.x, q.y, 0⟩ : vec3d K))) := by
    intro prior
    simp [polygon_kernel_3d, h0, hpos, vector_clear, vec2f.lift_z0]
  refine ⟨?_, ?_⟩
  · intro prior
    refine ⟨_, key prior, rfl, by simp, ?_⟩
    intro i h3 h2
    simp
  · intro poly2 prior prior2 hsame
    have hmap := map_drop_z_eq_of_same_xy poly2 poly hsame
    rw [key prior]
    simp [polygon_kernel_3d, hmap, h0, hpos, vector_clear, vec2f.lift_z0]

/-- Witness for `polygon_kernel_3d_positive`: the segment `(0,0,5), (1,0,6)` with the
backend answering with the first operand; the 2D solver returns area 3 and the ring
`(2,0), (2,1), (-1,1), (-1,0)`; the 3D entry point, called with an output vector that
holds `(9,9,9)`, returns area 3 and the points `(2,0,0), (2,1,0), (-1,1,0), (-1,0,0)`,
and so does the call on `(0,0,-7), (1,0,8)`. -/
theorem polygon_kernel_3d_positive_witness :
    polygon_kernel first_operand_backend
        (([⟨0, 0, 5⟩, ⟨1, 0, 6⟩] : List (vec3d ℚ)).map fun p => (⟨p.x, p.y⟩ : vec2f ℚ)) [] =
      .ok (3, [⟨2, 0⟩, ⟨2, 1⟩, ⟨-1, 1⟩, ⟨-1, 0⟩]) ∧
    (0 : ℚ) < 3 ∧
    polygon_kernel_3d first_operand_backend [⟨0, 0, 5⟩, ⟨1, 0, 6⟩] [⟨9, 9, 9⟩] =
      .ok (3, [⟨2, 0, 0⟩, ⟨2, 1, 0⟩, ⟨-1, 1, 0⟩, ⟨-1, 0, 0⟩]) ∧
    polygon_kernel_3d first_operand_backend [⟨0, 0, -7⟩, ⟨1, 0, 8⟩] [] =
      .ok (3, [⟨2, 0, 0⟩, ⟨2, 1, 0⟩, ⟨-1, 1, 0⟩, ⟨-1, 0, 0⟩]) ∧
    ((∀ prior, ∃ kernel,
        polygon_kernel_3d first_operand_backend [⟨0, 0, 5⟩, ⟨1, 0, 6⟩] prior =
          .ok (3, kernel) ∧
        kernel = ([⟨2, 0⟩, ⟨2, 1⟩, ⟨-1, 1⟩, ⟨-1, 0⟩] : List (vec2f ℚ)).map
          (fun q => (⟨q.x, q.y, 0⟩ : vec3d ℚ)) ∧
        kernel.length = ([⟨2, 0⟩, ⟨2, 1⟩, ⟨-1, 1⟩, ⟨-1, 0⟩] : List (vec2f ℚ)).length ∧
        ∀ i (h3 : i < kernel.length)
          (h2 : i < ([⟨2, 0⟩, ⟨2, 1⟩, ⟨-1, 1⟩, ⟨-1, 0⟩] : List (vec2f ℚ)).length),
          (kernel.get ⟨i, h3⟩).x =
            (([⟨2, 0⟩, ⟨2, 1⟩, ⟨-1, 1⟩, ⟨-1, 0⟩] : List (vec2f ℚ)).get ⟨i, h2⟩).x ∧
          (kernel.get ⟨i, h3⟩).y =
            (([⟨2, 0⟩, ⟨2, 1⟩, ⟨-1, 1⟩, ⟨-1, 0⟩] : List (vec2f ℚ)).get ⟨i, h2⟩).y ∧
          (kernel.get ⟨i, h3⟩).z = 0) ∧
      (∀ poly2 prior prior2,
        List.Forall₂ (fun a b => a.x = b.x ∧ a.y = b.y) poly2
          ([⟨0, 0, 5⟩, ⟨1, 0, 6⟩] : List (vec3d ℚ)) →
        polygon_kernel_3d first_operand_backend poly2 prior2 =
          polygon_kernel_3d first_operand_backend [⟨0, 0, 5⟩, ⟨1, 0, 6⟩] prior)) := by
  have h2d : polygon_kernel first_operand_backend
        (([⟨0, 0, 5⟩, ⟨1, 0, 6⟩] : List (vec3d ℚ)).map fun p => (⟨p.x, p.y⟩ : vec2f ℚ)) [] =
      .ok (3, [⟨2, 0⟩, ⟨2, 1⟩, ⟨-1, 1⟩, ⟨-1, 0⟩]) := by
    norm_num [polygon_kernel, vector_clear, kernel_boost, half_spaces, half_space,
      half_space_corners, boost_correct, close_ring, ring_area, ring_area_sum, boost_area,
      ring_to_kernel, intersect_loop, first_operand_backend, table_sqrt, bbox_delta, bbox_min,
      bbox_max, vec2f.dist, vec2f.length, vec2f.normalize, vec2f.sub, vec2f.add, vec2f.scale,
      vec2f.min, vec2f.max, List.range_succ]
  have h := polygon_kernel_3d_positive first_operand_backend [⟨0, 0, 5⟩, ⟨1, 0, 6⟩] [] 3
    [⟨2, 0⟩, ⟨2, 1⟩, ⟨-1, 1⟩, ⟨-1, 0⟩] h2d (by norm_num)
  have h1 : polygon_kernel_3d first_operand_backend [⟨0, 0, 5⟩, ⟨1, 0, 6⟩] [⟨9, 9, 9⟩] =
      .ok (3, [⟨2, 0, 0⟩, ⟨2, 1, 0⟩, ⟨-1, 1, 0⟩, ⟨-1, 0, 0⟩]) := by
    obtain ⟨kernel, hk, hmap, _⟩ := h.1 [⟨9, 9, 9⟩]
    rw [hk, hmap]
    rfl
  have h2 : polygon_kernel_3d first_operand_backend [⟨0, 0, -7⟩, ⟨1, 0, 8⟩] [] =
      .ok (3, [⟨2, 0, 0⟩, ⟨2, 1, 0⟩, ⟨-1, 1, 0⟩, ⟨-1, 0, 0⟩]) := by
    rw [h.2 [⟨0, 0, -7⟩, ⟨1, 0, 8⟩] [⟨9, 9, 9⟩] []
      (List.Forall₂.cons ⟨rfl, rfl⟩ (List.Forall₂.cons ⟨rfl, rfl⟩ List.Forall₂.nil))]
    exact h1
  exact ⟨h2d, by norm_num, h1, h2, h⟩

end LiftTheorems

end cinolib
